import Mathlib

/-!
# nex-lang: scanner, grammar, `ElimVarsProc`, `visit_typeinit` and the legacy grammar file

A shallow embedding of

* the table-driven DFA of `src/nex_lang/nex_lang.cc` (`one_char_symbols`,
  `two_char_symbols`, `transition_func`, `make_dfa`), the keyword table and `scan`
  with its post-pass;
* the grammar of `src/nex_lang/nex_lang.cc` (`productions`, `terminals`,
  `non_terminals`, `make_grammar`) with derivation trees over it;
* the pass `ElimVarsProc` of `src/transformations/elim_vars_proc.cc`;
* `visit_typeinit` of `src/nex_lang/post_processing/visit_typeinit.cc`;
* the grammar-file parser `make_grammar` and the scanner tables of the legacy variant
  `src/lex_parse/lang.cc`;

followed by theorems about them.

C++ `char` values are embedded as `Char`, `std::string` as `String`, a
`std::map` as an association list searched by key, a `std::set` as a list used
only through membership, `exit(1)` / a lexical failure as `none`, and an
exception, a failed `assert` or `exit(1)` of `visit_typeinit` as an error value.
-/

namespace NexLang

/-- Modelled from the spec: the enumeration `Terminal` is declared in `nex_lang.h`,
which is not among the sources.  The constructors are the reserved terminals of
the specification together with the further enumerators the sources mention
(`STRLITERALNF`, `CHARLITERALNF`, `LBRACKET`, `RBRACKET`). -/
inductive Terminal where
  | BOFS | EOFS | FN | LET | IF | WHILE | ELSE | RET | AS | I32 | BOOL | CHAR
  | TRUE | FALSE | ID | NUM | STRLITERAL | CHARLITERAL | ZERO
  | LPAREN | RPAREN | LBRACE | RBRACE | LBRACKET | RBRACKET
  | COMMA | SEMI | COLON | ARROW | ASSIGN | EQ | NE | LT | LE | GT | GE
  | OR | AND | PLUS | MINUS | STAR | SLASH | PCT | NOT | AMPERSAND | PIPE
  | WHITESPACE | COMMENT | START | STRLITERALNF | CHARLITERALNF
  deriving DecidableEq, Repr

/-- The `<cctype>` predicate `isalpha` in the "C" locale: the ASCII letters. -/
def isalpha (c : Char) : Bool :=
  (65 ≤ c.toNat && c.toNat ≤ 90) || (97 ≤ c.toNat && c.toNat ≤ 122)

/-- The `<cctype>` predicate `isdigit`: the ASCII decimal digits. -/
def isdigit (c : Char) : Bool :=
  48 ≤ c.toNat && c.toNat ≤ 57

/-- Table `one_char_symbols` (nex_lang.cc, lines 9-22). -/
def one_char_symbols : List (Char × Terminal) :=
  [(' ', .WHITESPACE), ('\t', .WHITESPACE),
   ('\n', .WHITESPACE), ('\r', .WHITESPACE),
   ('0', .ZERO), ('<', .LT),
   ('>', .GT), ('!', .NOT),
   ('=', .ASSIGN), ('+', .PLUS),
   ('-', .MINUS), ('*', .STAR),
   ('/', .SLASH), ('%', .PCT),
   ('(', .LPAREN), (')', .RPAREN),
   ('{', .LBRACE), ('}', .RBRACE),
   (',', .COMMA), (';', .SEMI),
   (':', .COLON), ('|', .PIPE),
   ('&', .AMPERSAND)]

/-- Table `two_char_symbols` (nex_lang.cc, lines 24-33). -/
def two_char_symbols : List (String × Terminal) :=
  [("==", .EQ), ("!=", .NE), ("<=", .LE), (">=", .GE),
   ("||", .OR), ("&&", .AND), ("->", .ARROW), ("//", .COMMENT)]

/-- Function `transition_func` (nex_lang.cc, lines 35-119); `std::nullopt` is `none`.
The tests are made in the order of the source. -/
def transition_func (curr_state : Terminal) (c : Char) : Option Terminal :=
  let fromStart : Option Terminal :=
    if curr_state = .START then
      match one_char_symbols.lookup c with
      | some t => some t
      | none =>
        if isalpha c then some .ID
        else if isdigit c then some .NUM
        else if c = '\'' then some .CHARLITERALNF
        else if c = '\"' then some .STRLITERALNF
        else none
    else none
  match fromStart with
  | some t => some t
  | none =>
    if curr_state = .ASSIGN ∧ c = '=' then some .EQ
    else if curr_state = .NOT ∧ c = '=' then some .NE
    else if curr_state = .LT ∧ c = '=' then some .LE
    else if curr_state = .GT ∧ c = '=' then some .GE
    else if curr_state = .PIPE ∧ c = '|' then some .OR
    else if curr_state = .AMPERSAND ∧ c = '&' then some .AND
    else if curr_state = .MINUS ∧ c = '>' then some .ARROW
    else if curr_state = .SLASH ∧ c = '/' then some .COMMENT
    else if curr_state = .COMMENT ∧ c ≠ '\n' ∧ c ≠ '\r' then some .COMMENT
    else if curr_state = .CHARLITERALNF then
      (if c = '\'' then some .CHARLITERAL else some .CHARLITERALNF)
    else if curr_state = .STRLITERALNF then
      (if c = '\"' then some .STRLITERAL else some .STRLITERALNF)
    else if curr_state = .NUM ∧ isdigit c then some .NUM
    else if curr_state = .ID ∧ (isalpha c ∨ isdigit c ∨ c = '_') then some .ID
    else none

/-- The record `DFA` built by `make_dfa`: alphabet, initial state, valid states,
accepting states and the partial transition function. -/
structure DFA where
  alphabet : List Char
  init_state : Terminal
  valid_states : List Terminal
  accepting : List Terminal
  transition : Terminal → Char → Option Terminal

/-- Function `make_dfa` (nex_lang.cc, lines 121-155). -/
def make_dfa : DFA :=
  let alphabet_str : String :=
    "<>=+-_*/%()\x7b\x7d,;:!&| \t\n\r\'\"abcdefghijklmnopqrstuvwxyzABCDEFGHIJKLMNOPQRSTUVWXYZ0123456789"
  let accepting : List Terminal :=
    [.ID, .NUM, .STRLITERAL, .CHARLITERAL]
      ++ one_char_symbols.map Prod.snd ++ two_char_symbols.map Prod.snd
  { alphabet := alphabet_str.toList
    init_state := .START
    valid_states := Terminal.START :: accepting
    accepting := accepting
    transition := transition_func }

/-- Table `keywords` (nex_lang.cc, lines 157-170). -/
def keywords : List (String × Terminal) :=
  [("fn", .FN), ("let", .LET), ("if", .IF), ("while", .WHILE),
   ("else", .ELSE), ("return", .RET), ("as", .AS), ("i32", .I32),
   ("bool", .BOOL), ("char", .CHAR), ("true", .TRUE), ("false", .FALSE)]

/-- A token: its kind and the matched lexeme, the two members `scan` reads and writes. -/
structure Token where
  kind : Terminal
  lexeme : String
  deriving DecidableEq, Repr

/-- Modelled from the spec: the loop of `maximal_munch_scan` (declared in `scanning.h`,
not among the sources).  `st` is the current state and `consumed` the characters
taken since the last reset.  A transition is attempted on the next character and
the token is extended while transitions succeed.  On the first rejection, or at
the end of the input, an accepting state emits a token spanning the consumed
characters, the state is reset to the initial state and scanning continues at the
rejecting character (the reset and the transition on that character are written
out in place); a state that is not accepting is a lexical error, `none`.  At the
end of the input nothing is emitted when nothing has been consumed since the last
reset; the initial state is never accepting, so a character it rejects is a
lexical error. -/
def munch (dfa : DFA) : Terminal → List Char → List Char → Option (List Token)
  | st, consumed, [] =>
    if consumed = [] then some []
    else if st ∈ dfa.accepting then some [⟨st, String.mk consumed⟩]
    else none
  | st, consumed, c :: rest =>
    match dfa.transition st c with
    | some st' => munch dfa st' (consumed ++ [c]) rest
    | none =>
      if st ∈ dfa.accepting then
        match dfa.transition dfa.init_state c with
        | some st' => (munch dfa st' [c] rest).map (fun ts => ⟨st, String.mk consumed⟩ :: ts)
        | none => none
      else none

/-- Modelled from the spec: `maximal_munch_scan(input, dfa)` (declared in `scanning.h`,
not among the sources): the maximal-munch tokenisation of the whole input, started
in the initial state of the DFA; `none` is a lexical error. -/
def maximal_munch_scan (input : String) (dfa : DFA) : Option (List Token) :=
  munch dfa dfa.init_state [] input.toList

/-- First loop of `scan` (nex_lang.cc, lines 176-182), one token: a lexeme found in
`keywords` takes the keyword kind, otherwise `ZERO` becomes `NUM`. -/
def reclassify (token : Token) : Token :=
  match keywords.lookup token.lexeme with
  | some k => { token with kind := k }
  | none => if token.kind = .ZERO then { token with kind := .NUM } else token

/-- Set `sep_set1` of `scan` (nex_lang.cc, lines 184-198). -/
def sep_set1 : List Terminal :=
  [.FN, .LET, .IF, .WHILE, .ELSE, .I32, .BOOL, .CHAR, .ID, .NUM,
   .STRLITERAL, .CHARLITERAL, .TRUE, .FALSE]

/-- Set `sep_set2` of `scan` (nex_lang.cc, lines 199-209). -/
def sep_set2 : List Terminal :=
  [.EQ, .NE, .LT, .LE, .GT, .GE, .OR, .AND, .ASSIGN, .ARROW]

/-- Second loop of `scan` (nex_lang.cc, lines 211-240) over the remaining tokens, with
the loop state `prev_set1`, `prev_set2`, `result`; each `exit(1)` is `none`. -/
def scan_loop : List Token → Bool → Bool → List Token → Option (List Token)
  | [], _, _, result => some result
  | token :: rest, prev_set1, prev_set2, result =>
    if token.kind ∈ sep_set1 ∧ prev_set1 = true then none
    else if token.kind ∈ sep_set2 ∧ prev_set2 = true then none
    else
      scan_loop rest (decide (token.kind ∈ sep_set1)) (decide (token.kind ∈ sep_set2))
        (if token.kind ≠ .WHITESPACE ∧ token.kind ≠ .COMMENT then result ++ [token]
         else result)

/-- The post-pass of `scan` (nex_lang.cc, lines 176-245) on the raw tokens returned by
`maximal_munch_scan`: reclassification, the adjacency loop, then `BOFS` in front
and `EOFS` behind. -/
def scan_post (tokens : List Token) : Option (List Token) :=
  match scan_loop (tokens.map reclassify) false false [] with
  | none => none
  | some result => some (⟨.BOFS, ""⟩ :: result ++ [⟨.EOFS, ""⟩])

/-- Function `scan` (nex_lang.cc, lines 172-246). -/
def scan (input : String) : Option (List Token) :=
  match maximal_munch_scan input make_dfa with
  | none => none
  | some tokens => scan_post tokens

/-- Run of the DFA: `transition_func` folded over a string from a state; `none` as soon
as one transition is undefined. -/
def run (st : Terminal) : List Char → Option Terminal
  | [] => some st
  | c :: rest =>
    match transition_func st c with
    | some st' => run st' rest
    | none => none

/-- The identifier-like kinds as the specification words them: every keyword
kind, `ID`, `NUM` and the two literal kinds.  Only used to state the claim that
is compared with `sep_set1`. -/
def ident_like_spec : List Terminal :=
  [.FN, .LET, .IF, .WHILE, .ELSE, .RET, .AS, .I32, .BOOL, .CHAR, .TRUE, .FALSE,
   .ID, .NUM, .STRLITERAL, .CHARLITERAL]

/-! ## Grammar of `src/nex_lang/nex_lang.cc` -/

/-- Modelled from the spec: the enumeration `NonTerminal` is declared in `nex_lang.h`,
which is not among the sources.  The constructors are the reserved non-terminals
of the specification, `typeinit` included. -/
inductive NonTerminal where
  | s | fns | fn | optparams | params | vardef | type | stmts | stmt | expr
  | exprp1 | exprp2 | exprp3 | exprp4 | exprp5 | exprp6 | exprp7 | exprp8 | exprp9
  | optargs | args | typeinit
  deriving DecidableEq, Repr

/-- A grammar symbol, `std::variant<Terminal, NonTerminal>` (named `State` in the
sources). -/
inductive State where
  | terminal (t : Terminal)
  | non_terminal (n : NonTerminal)
  deriving DecidableEq, Repr

/-- A production `lhs -> rhs`, written `{lhs, {rhs...}}` in the sources. -/
structure Production where
  lhs : NonTerminal
  rhs : List State
  deriving DecidableEq, Repr

/-- The record `Grammar` returned by `make_grammar`. -/
structure Grammar where
  non_terminals : List NonTerminal
  terminals : List Terminal
  start : NonTerminal
  productions : List (NonTerminal × List Production)

/-- Short form of `State.terminal`, used to write the table of productions. -/
abbrev T (t : Terminal) : State := State.terminal t

/-- Short form of `State.non_terminal`, used to write the table of productions. -/
abbrev N (n : NonTerminal) : State := State.non_terminal n

/-- Table `productions` (nex_lang.cc, lines 248-394), in the order of the source. -/
def productions : List (NonTerminal × List Production) :=
  [(.s, [⟨.s, [T .BOFS, N .fns, T .EOFS]⟩]),
   (.fns, [⟨.fns, [N .fn, N .fns]⟩, ⟨.fns, [N .fn]⟩]),
   (.fn,
     [⟨.fn, [T .FN, T .ID, T .LPAREN, N .optparams, T .RPAREN, T .ARROW, N .type,
             T .LBRACE, N .stmts, T .RBRACE]⟩,
      ⟨.fn, [T .FN, T .ID, T .LPAREN, N .optparams, T .RPAREN,
             T .LBRACE, N .stmts, T .RBRACE]⟩]),
   (.optparams, [⟨.optparams, [N .params]⟩, ⟨.optparams, []⟩]),
   (.params, [⟨.params, [N .vardef, T .COMMA, N .params]⟩, ⟨.params, [N .vardef]⟩]),
   (.vardef, [⟨.vardef, [T .ID, T .COLON, N .type]⟩]),
   (.type,
     [⟨.type, [T .I32]⟩, ⟨.type, [T .BOOL]⟩, ⟨.type, [T .CHAR]⟩,
      ⟨.type, [T .STAR, N .type]⟩, ⟨.type, [T .LPAREN, N .type, T .RPAREN]⟩]),
   (.stmts, [⟨.stmts, [N .stmt, N .stmts]⟩, ⟨.stmts, [N .stmt]⟩]),
   (.stmt,
     [⟨.stmt, [T .LET, N .vardef, T .ASSIGN, N .expr, T .SEMI]⟩,
      ⟨.stmt, [N .expr, T .ASSIGN, N .expr, T .SEMI]⟩,
      ⟨.stmt, [N .expr, T .SEMI]⟩,
      ⟨.stmt, [T .IF, T .LPAREN, N .expr, T .RPAREN, T .LBRACE, N .stmts, T .RBRACE,
               T .ELSE, T .LBRACE, N .stmts, T .RBRACE]⟩,
      ⟨.stmt, [T .WHILE, T .LPAREN, N .expr, T .RPAREN, T .LBRACE, N .stmts, T .RBRACE]⟩,
      ⟨.stmt, [T .RET, N .expr, T .SEMI]⟩]),
   (.expr, [⟨.expr, [N .exprp1]⟩]),
   (.exprp1, [⟨.exprp1, [N .exprp2]⟩, ⟨.exprp1, [N .exprp1, T .OR, N .exprp2]⟩]),
   (.exprp2, [⟨.exprp2, [N .exprp3]⟩, ⟨.exprp2, [N .exprp2, T .AND, N .exprp3]⟩]),
   (.exprp3,
     [⟨.exprp3, [N .exprp4]⟩, ⟨.exprp3, [N .exprp3, T .EQ, N .exprp4]⟩,
      ⟨.exprp3, [N .exprp3, T .NE, N .exprp4]⟩]),
   (.exprp4,
     [⟨.exprp4, [N .exprp5]⟩, ⟨.exprp4, [N .exprp4, T .LT, N .exprp5]⟩,
      ⟨.exprp4, [N .exprp4, T .GT, N .exprp5]⟩, ⟨.exprp4, [N .exprp4, T .LE, N .exprp5]⟩,
      ⟨.exprp4, [N .exprp4, T .GE, N .exprp5]⟩]),
   (.exprp5,
     [⟨.exprp5, [N .exprp6]⟩, ⟨.exprp5, [N .exprp5, T .PLUS, N .exprp6]⟩,
      ⟨.exprp5, [N .exprp5, T .MINUS, N .exprp6]⟩]),
   (.exprp6,
     [⟨.exprp6, [N .exprp7]⟩, ⟨.exprp6, [N .exprp6, T .STAR, N .exprp7]⟩,
      ⟨.exprp6, [N .exprp6, T .SLASH, N .exprp7]⟩,
      ⟨.exprp6, [N .exprp6, T .PCT, N .exprp7]⟩]),
   (.exprp7,
     [⟨.exprp7, [N .exprp8]⟩, ⟨.exprp7, [T .NOT, N .exprp8]⟩,
      ⟨.exprp7, [T .STAR, N .exprp8]⟩]),
   (.exprp8, [⟨.exprp8, [N .exprp9]⟩, ⟨.exprp8, [N .exprp8, T .AS, N .type]⟩]),
   (.exprp9,
     [⟨.exprp9, [T .ID]⟩, ⟨.exprp9, [T .NUM]⟩, ⟨.exprp9, [T .AMPERSAND, T .ID]⟩,
      ⟨.exprp9, [T .STRLITERAL]⟩, ⟨.exprp9, [T .CHARLITERAL]⟩,
      ⟨.exprp9, [T .LPAREN, N .expr, T .RPAREN]⟩,
      ⟨.exprp9, [T .ID, T .LPAREN, N .optargs, T .RPAREN]⟩]),
   (.optargs, [⟨.optargs, [N .args]⟩, ⟨.optargs, []⟩]),
   (.args, [⟨.args, [N .expr, T .COMMA, N .args]⟩, ⟨.args, [N .expr]⟩])]

/-- Set `terminals` (nex_lang.cc, lines 396-411). -/
def terminals : List Terminal :=
  [.BOFS, .EOFS, .FN, .ID, .LPAREN, .RPAREN, .ARROW, .LBRACE, .RBRACE,
   .COMMA, .COLON, .I32, .LET, .ASSIGN, .SEMI, .IF, .ELSE, .RET,
   .OR, .AND, .EQ, .NE, .LT, .GT, .LE, .GE, .PLUS,
   .MINUS, .STAR, .SLASH, .PCT, .NOT, .NUM,
   .AMPERSAND, .WHILE, .BOOL, .TRUE, .FALSE, .STRLITERAL,
   .CHARLITERAL, .CHAR, .AS]

/-- Set `non_terminals` (nex_lang.cc, lines 413-421). -/
def non_terminals : List NonTerminal :=
  [.s, .fns, .fn, .optparams, .params, .vardef, .type, .stmts, .stmt,
   .expr, .exprp1, .exprp2, .exprp3, .exprp4, .exprp5,
   .exprp6, .exprp7, .exprp8, .exprp9, .optargs, .args]

/-- Function `make_grammar` (nex_lang.cc, lines 423-430). -/
def make_grammar : Grammar :=
  { non_terminals := non_terminals
    terminals := terminals
    start := .s
    productions := productions }

/-- The productions stored in the grammar under the key `lhs`: the vector
`productions[lhs]`, empty for a key that is absent. -/
def Grammar.productions_of (g : Grammar) (lhs : NonTerminal) : List Production :=
  (g.productions.lookup lhs).getD []

/-- Modelled from the spec: parse trees, as an ordered forest.  `leaf t rest` is a
terminal leaf `t` followed by its right siblings `rest`; `node lhs children rest`
is an internal node for the non-terminal `lhs` with the ordered forest `children`
below it, followed by its right siblings `rest`.  The production applied at a
node is `lhs -> ` the symbols of its children, which is the invariant the data
model states for internal nodes. -/
inductive ParseForest where
  | nil
  | leaf (t : Terminal) (rest : ParseForest)
  | node (lhs : NonTerminal) (children : ParseForest) (rest : ParseForest)
  deriving DecidableEq, Repr

/-- The grammar symbols of the trees of a forest, left to right. -/
def ParseForest.roots : ParseForest → List State
  | .nil => []
  | .leaf t rest => State.terminal t :: rest.roots
  | .node lhs _ rest => State.non_terminal lhs :: rest.roots

/-- The terminals at the leaves of a forest, left to right. -/
def ParseForest.yield : ParseForest → List Terminal
  | .nil => []
  | .leaf t rest => t :: rest.yield
  | .node _ children rest => children.yield ++ rest.yield

/-- Every internal node of the forest applies a production that the grammar stores
for its non-terminal. -/
def ParseForest.valid (g : Grammar) : ParseForest → Bool
  | .nil => true
  | .leaf _ rest => rest.valid g
  | .node lhs children rest =>
    decide ((⟨lhs, children.roots⟩ : Production) ∈ g.productions_of lhs) &&
      children.valid g && rest.valid g

/-- The token-kind sequence `w` is derivable from the symbols `xs` in the grammar `g`:
some forest of derivation trees with these roots has the yield `w`. -/
def derives (g : Grammar) (xs : List State) (w : List Terminal) : Prop :=
  ∃ f : ParseForest, f.valid g = true ∧ f.roots = xs ∧ f.yield = w

/-- The symbol `x` belongs to the terminals or to the non-terminals of the grammar. -/
def Grammar.has_symbol (g : Grammar) : State → Bool
  | .terminal t => decide (t ∈ g.terminals)
  | .non_terminal n => decide (n ∈ g.non_terminals)

/-- A chain of nodes with one child each: `chain [A1, ..., An] k` is the tree
`A1 -> (A2 -> ... (An -> k))`. -/
def ParseForest.chain : List NonTerminal → ParseForest → ParseForest
  | [], k => k
  | A :: rest, k => .node A (ParseForest.chain rest k) .nil

/-- Derivation tree of a primary expression: the unit productions from `exprp1` down to
`exprp9` above the forest `k`. -/
def primary_chain (k : ParseForest) : ParseForest :=
  ParseForest.chain [.exprp1, .exprp2, .exprp3, .exprp4, .exprp5, .exprp6, .exprp7,
    .exprp8, .exprp9] k

/-- The token kinds of `a + b * c`. -/
def sum_product_kinds : List Terminal := [.ID, .PLUS, .ID, .STAR, .ID]

/-- A derivation tree of `ID PLUS ID STAR ID` from `expr`: the product is the right
operand of the sum. -/
def sum_product_tree : ParseForest :=
  .node .expr
    (ParseForest.chain [.exprp1, .exprp2, .exprp3, .exprp4]
      (.node .exprp5
        (.node .exprp5
          (ParseForest.chain [.exprp6, .exprp7, .exprp8, .exprp9] (.leaf .ID .nil))
          (.leaf .PLUS
            (.node .exprp6
              (.node .exprp6
                (ParseForest.chain [.exprp7, .exprp8, .exprp9] (.leaf .ID .nil))
                (.leaf .STAR
                  (.node .exprp7
                    (ParseForest.chain [.exprp8, .exprp9] (.leaf .ID .nil)) .nil)))
              .nil)))
        .nil))
    .nil

/-- The token kinds of the test program of `tests/test_generate_code.cc`. -/
def test_program_kinds : List Terminal :=
  [.BOFS, .FN, .ID, .LPAREN, .ID, .COLON, .I32, .COMMA, .ID, .COLON, .I32, .RPAREN,
   .ARROW, .I32, .LBRACE, .LET, .ID, .COLON, .I32, .ASSIGN, .NUM, .SEMI,
   .ID, .ASSIGN, .ID, .PLUS, .ID, .SEMI, .RBRACE, .EOFS]

/-- Derivation tree of `ID COLON I32` from `vardef`, followed by the siblings `rest`. -/
def vardef_i32_tree (rest : ParseForest) : ParseForest :=
  .node .vardef (.leaf .ID (.leaf .COLON (.node .type (.leaf .I32 .nil) .nil))) rest

/-- Derivation tree of the two parameters `ID COLON I32 COMMA ID COLON I32`. -/
def test_params_tree : ParseForest :=
  .node .params
    (vardef_i32_tree (.leaf .COMMA (.node .params (vardef_i32_tree .nil) .nil)))
    .nil

/-- Derivation tree of the statement `LET ID COLON I32 ASSIGN NUM SEMI`, followed by
the siblings `rest`. -/
def test_let_tree (rest : ParseForest) : ParseForest :=
  .node .stmt
    (.leaf .LET
      (vardef_i32_tree
        (.leaf .ASSIGN
          (.node .expr (primary_chain (.leaf .NUM .nil)) (.leaf .SEMI .nil)))))
    rest

/-- Derivation of `ID PLUS ID` below an `expr` node. -/
def test_sum_forest : ParseForest :=
  ParseForest.chain [.exprp1, .exprp2, .exprp3, .exprp4]
    (.node .exprp5
      (.node .exprp5
        (ParseForest.chain [.exprp6, .exprp7, .exprp8, .exprp9] (.leaf .ID .nil))
        (.leaf .PLUS
          (.node .exprp6
            (ParseForest.chain [.exprp7, .exprp8, .exprp9] (.leaf .ID .nil)) .nil)))
      .nil)

/-- Derivation tree of the statement `ID ASSIGN ID PLUS ID SEMI`, followed by the
siblings `rest`. -/
def test_assign_tree (rest : ParseForest) : ParseForest :=
  .node .stmt
    (.node .expr (primary_chain (.leaf .ID .nil))
      (.leaf .ASSIGN (.node .expr test_sum_forest (.leaf .SEMI .nil))))
    rest

/-- Derivation tree of the function of the test program. -/
def test_fn_tree : ParseForest :=
  .node .fn
    (.leaf .FN (.leaf .ID (.leaf .LPAREN
      (.node .optparams test_params_tree
        (.leaf .RPAREN (.leaf .ARROW
          (.node .type (.leaf .I32 .nil)
            (.leaf .LBRACE
              (.node .stmts
                (test_let_tree (.node .stmts (test_assign_tree .nil) .nil))
                (.leaf .RBRACE .nil))))))))))
    .nil

/-- A derivation tree of `test_program_kinds` from the start symbol `s`. -/
def test_program_tree : ParseForest :=
  .node .s (.leaf .BOFS (.node .fns test_fn_tree (.leaf .EOFS .nil))) .nil

/-! ## Intermediate code and the pass `ElimVarsProc` (`src/transformations/elim_vars_proc.cc`) -/

/-- Modelled from the spec: the fixed-purpose registers of the register convention
(`reg.h` is not among the sources). -/
inductive Reg where
  | FramePtr | StackPtr | Scratch | Result | TargetPC | Input1 | Input2
  deriving DecidableEq, Repr

/-- Modelled from the spec: a variable, a unique identity object with a human-readable
name (`variable.h` is not among the sources).  A `std::shared_ptr<Variable>` is
compared by the object it points to, which `id` stands for. -/
structure Variable where
  id : Nat
  name : String
  deriving DecidableEq, Repr

/-- Modelled from the spec: a label, compared by identity. -/
structure Label where
  id : Nat
  deriving DecidableEq, Repr

/-- Modelled from the spec: handle of a procedure (`std::shared_ptr<Procedure>`), its
identity and its name. -/
structure Procedure where
  id : Nat
  name : String
  deriving DecidableEq, Repr

/-- Modelled from the spec: the binary operators of the source language
(`operators.h` is not among the sources). -/
inductive Operator where
  | plus | minus | times | divide | remainder
  | eq | ne | lt | gt | le | ge | and_op | or_op
  deriving DecidableEq, Repr

/-- Modelled from the spec: the kinds of IR node (the class hierarchy below `Code` is
not among the sources): `Block`, `BinOp(op, lhs, rhs)`, `VarAccess(var, reg,
read|write)`, `IfStmt(cond, then, else)`, `WhileLoop(cond, body)`,
`Call(procedure, args)`, `DefineLabel(L)`, `UseLabel(L)`, `BeqLabel(rs, rt, L)`,
`BneLabel(rs, rt, L)`, `Assembly(raw instruction)` and `Word(u32)`. -/
inductive Code where
  | Block (code : List Code)
  | BinOp (op : Operator) (lhs rhs : Code)
  | VarAccess (var : Variable) (reg : Reg) (read : Bool)
  | IfStmt (cond thens elses : Code)
  | WhileLoop (cond body : Code)
  | Call (procedure : Procedure) (args : List Code)
  | DefineLabel (label : Label)
  | UseLabel (label : Label)
  | BeqLabel (rs rt : Reg) (label : Label)
  | BneLabel (rs rt : Reg) (label : Label)
  | Assembly (instruction : Nat)
  | Word (value : Nat)

/-- Modelled from the spec: the factory `make_block` (`block.h`), a `Block` node holding
the given list. -/
def make_block (code : List Code) : Code := Code.Block code

/-- Modelled from the spec: the factory `make_call` (`call.h`), a `Call` node for the
procedure with the given arguments. -/
def make_call (procedure : Procedure) (args : List Code) : Code := Code.Call procedure args

/-- Modelled from the spec: a chunk (`chunk.h` is not among the sources), an ordered
list of variables treated as one memory region, with `load(base_reg, dest_reg,
var)` and `store(base_reg, var, src_reg)` that emit code.  What they emit is
left open: the two functions are fields.  The member `variables` is named
`vars` here. -/
structure Chunk where
  vars : List Variable
  load : Reg → Reg → Variable → Code
  store : Reg → Variable → Reg → Code

/-- The visitor `ElimVarsProc` with the members set by its constructor
(elim_vars_proc.cc, line 7). -/
structure ElimVarsProc where
  frame : Chunk
  param_chunk : Chunk
  param_ptr : Variable

/-- Overload `ElimVarsProc::visit(std::shared_ptr<Code>)` (elim_vars_proc.cc, lines 9-11). -/
def ElimVarsProc.visit_code (_v : ElimVarsProc) (code : Code) : Code := code

/-- Overload `ElimVarsProc::visit(std::shared_ptr<VarAccess>)` (elim_vars_proc.cc,
lines 21-38); `std::find` over `frame->variables` is list membership. -/
def ElimVarsProc.visit_var_access (v : ElimVarsProc) (var : Variable) (reg : Reg)
    (read : Bool) : Code :=
  if var ∈ v.frame.vars then
    if read then v.frame.load .FramePtr reg var
    else v.frame.store .FramePtr var reg
  else
    let load_param_ptr := v.frame.load .FramePtr .Scratch v.param_ptr
    if read then make_block [load_param_ptr, v.param_chunk.load .Scratch reg var]
    else make_block [load_param_ptr, v.param_chunk.store .Scratch var reg]

mutual
/-- Modelled from the spec: the dispatch `code->accept(visitor)`, one handler per node
kind (the `accept` members are not among the sources): a `Block` goes to the
overload for `Block`, a `VarAccess` to the overload for `VarAccess`, every other
node to the overload for `Code`.  The case for `Block` is the overload
`ElimVarsProc::visit(std::shared_ptr<Block>)` (elim_vars_proc.cc, lines 13-19). -/
def ElimVarsProc.accept (v : ElimVarsProc) : Code → Code
  | .Block code => make_block (ElimVarsProc.visit_children v code)
  | .VarAccess var reg read => v.visit_var_access var reg read
  | .BinOp op lhs rhs => v.visit_code (.BinOp op lhs rhs)
  | .IfStmt cond thens elses => v.visit_code (.IfStmt cond thens elses)
  | .WhileLoop cond body => v.visit_code (.WhileLoop cond body)
  | .Call procedure args => v.visit_code (.Call procedure args)
  | .DefineLabel label => v.visit_code (.DefineLabel label)
  | .UseLabel label => v.visit_code (.UseLabel label)
  | .BeqLabel rs rt label => v.visit_code (.BeqLabel rs rt label)
  | .BneLabel rs rt label => v.visit_code (.BneLabel rs rt label)
  | .Assembly instruction => v.visit_code (.Assembly instruction)
  | .Word value => v.visit_code (.Word value)
/-- The loop of `ElimVarsProc::visit(std::shared_ptr<Block>)`: each child accepts the
visitor and the results are pushed back in order. -/
def ElimVarsProc.visit_children (v : ElimVarsProc) : List Code → List Code
  | [] => []
  | c :: rest => ElimVarsProc.accept v c :: ElimVarsProc.visit_children v rest
end

/-- A sample chunk for concrete instances: `load` and `store` emit one `Word` each,
holding the identity of the variable. -/
def sample_chunk (vars : List Variable) : Chunk :=
  { vars := vars
    load := fun _ _ var => .Word var.id
    store := fun _ var _ => .Word (var.id + 1000) }

/-- A sample visitor: the frame holds `param_ptr` and the local `x`, the parameter
chunk holds the parameter `p`. -/
def sample_elim_vars_proc : ElimVarsProc :=
  { frame := sample_chunk [⟨0, "param_ptr"⟩, ⟨1, "x"⟩]
    param_chunk := sample_chunk [⟨2, "p"⟩]
    param_ptr := ⟨0, "param_ptr"⟩ }

/-! ## `visit_typeinit` (`src/nex_lang/post_processing/visit_typeinit.cc`) -/

/-- Modelled from the spec: the types of the source language (`nl_type*.h`, of which
only `nl_type_none.h` is among the sources): `I32`, `Bool`, `Char`, `Ptr<T>` and
`None`, with structural equality. -/
inductive NLType where
  | I32 | Bool | Char | Ptr (inner : NLType) | None
  deriving DecidableEq, Repr

/-- The pair `TypedExpr {code, nl_type}` that the expression visitors return. -/
structure TypedExpr where
  code : Code
  nl_type : NLType

/-- Modelled from the spec: what a symbol table binds a name to: a typed variable, a
typed procedure or a typed constant (`symbol_table.h` is not among the sources). -/
inductive TypedId where
  | TypedVariable (var : Variable) (nl_type : NLType)
  | TypedProcedure (procedure : Procedure) (param_types : List NLType) (return_type : NLType)
  | TypedConstant (value : Nat) (nl_type : NLType)
  deriving DecidableEq, Repr

/-- Modelled from the spec: a symbol table, a stack of scopes, innermost first. -/
abbrev SymbolTable := List (List (String × TypedId))

/-- Modelled from the spec: the module table, from module names to symbol tables. -/
abbrev ModuleTable := List (String × SymbolTable)

/-- The ways in which `visit_typeinit` and its collaborators leave without a result:
the exception `TypeMismatchError(message, line_no)`, `std::out_of_range` thrown by
`at`, a failed `assert`, `std::bad_variant_access` thrown by `std::get`, `exit(1)`,
and any other exception of a collaborator. -/
inductive CompileError where
  | TypeMismatchError (message : String) (line_no : Nat)
  | out_of_range
  | assertion_failure
  | bad_variant_access
  | exit_failure
  | other (what : String)
  deriving DecidableEq, Repr

/-- Modelled from the spec: lookup `table.at(name)` in a symbol table: the binding of
the innermost scope that has one, `std::out_of_range` when there is none. -/
def SymbolTable.at : SymbolTable → String → Except CompileError TypedId
  | [], _ => .error .out_of_range
  | scope :: outer, name =>
    match scope.lookup name with
    | some id => .ok id
    | none => SymbolTable.at outer name

/-- Lookup `module_table.at(name)` of `std::map`: `std::out_of_range` for an absent key. -/
def ModuleTable.at (module_table : ModuleTable) (name : String) :
    Except CompileError SymbolTable :=
  match module_table.lookup name with
  | some table => .ok table
  | none => .error .out_of_range

/-- Modelled from the spec: a node of the parse tree (`ast_node.h` is not among the
sources): its grammar symbol `state`, the production applied as
`get_production()` returns it (the lhs followed by the rhs), the ordered
children, the lexeme and the source line. -/
inductive ASTNode where
  | mk (state : State) (production : List State) (children : List ASTNode)
      (lexeme : String) (line_no : Nat)

/-- Member `state` of a node. -/
def ASTNode.state : ASTNode → State
  | .mk state _ _ _ _ => state

/-- Member function `get_production()` of a node. -/
def ASTNode.get_production : ASTNode → List State
  | .mk _ production _ _ _ => production

/-- Member `children` of a node. -/
def ASTNode.children : ASTNode → List ASTNode
  | .mk _ _ children _ _ => children

/-- Member `line_no` of a node. -/
def ASTNode.line_no : ASTNode → Nat
  | .mk _ _ _ _ line_no => line_no

/-- Access `children.at(i)` of `std::vector`: `std::out_of_range` past the end. -/
def ASTNode.child_at (root : ASTNode) (i : Nat) : Except CompileError ASTNode :=
  match root.children[i]? with
  | some child => .ok child
  | none => .error .out_of_range

/-- The mutable arguments that `visit_typeinit` receives by reference and hands on to
`visit_expr`. -/
structure CompileState where
  symbol_table : SymbolTable
  module_table : ModuleTable
  static_data : List Code

/-- The functions that `visit_typeinit` calls and that are not among the sources:
`visit_type`, `visit_expr` (which may change the arguments passed by reference),
`int_literal`, `bin_op` and the member `bytes()` of a type.  They are taken as
parameters. -/
structure Collaborators where
  visit_type : ASTNode → Except CompileError NLType
  visit_expr : ASTNode → Bool → CompileState → Except CompileError (TypedExpr × CompileState)
  int_literal : Nat → Code
  bin_op : Code → Operator → Code → Code
  bytes : NLType → Nat

/-- The statements
`typed_proc = std::dynamic_pointer_cast<TypedProcedure>(module_table.at("heap").at("heap_allocate")); assert(typed_proc);`
of `visit_typeinit`, giving `typed_proc->procedure`. -/
def heap_allocate_procedure (module_table : ModuleTable) : Except CompileError Procedure :=
  match module_table.at "heap" with
  | .error e => .error e
  | .ok heap =>
    match heap.at "heap_allocate" with
    | .error e => .error e
    | .ok (.TypedProcedure procedure _ _) => .ok procedure
    | .ok _ => .error .assertion_failure

/-- The production `typeinit -> type`, as `get_production()` gives it. -/
def typeinit_type : List State := [N .typeinit, N .type]

/-- The production `typeinit -> type LBRACKET expr RBRACKET`, as `get_production()`
gives it. -/
def typeinit_type_array : List State :=
  [N .typeinit, N .type, T .LBRACKET, N .expr, T .RBRACKET]

/-- Function `visit_typeinit` (visit_typeinit.cc, lines 18-67).  The result is the
returned `TypedExpr` with the state of the arguments passed by reference, or the
way in which the call was left. -/
def visit_typeinit (env : Collaborators) (root : ASTNode) (read_address : Bool)
    (st : CompileState) : Except CompileError (TypedExpr × CompileState) :=
  match root.state with
  | .terminal _ => .error .bad_variant_access
  | .non_terminal n =>
    if n ≠ .typeinit then .error .assertion_failure
    else if root.get_production = typeinit_type then
      match root.child_at 0 with
      | .error e => .error e
      | .ok type_node =>
        match env.visit_type type_node with
        | .error e => .error e
        | .ok nl_type =>
          match heap_allocate_procedure st.module_table with
          | .error e => .error e
          | .ok procedure =>
            .ok (⟨make_call procedure [env.int_literal (env.bytes nl_type)],
                  .Ptr nl_type⟩, st)
    else if root.get_production = typeinit_type_array then
      match root.child_at 0 with
      | .error e => .error e
      | .ok type_node =>
        match env.visit_type type_node with
        | .error e => .error e
        | .ok nl_type =>
          match root.child_at 2 with
          | .error e => .error e
          | .ok expr_node =>
            match env.visit_expr expr_node read_address st with
            | .error e => .error e
            | .ok (expr, st1) =>
              match heap_allocate_procedure st1.module_table with
              | .error e => .error e
              | .ok procedure =>
                if expr.nl_type = .I32 then
                  .ok (⟨make_call procedure
                          [make_block [env.bin_op expr.code .times
                            (env.int_literal (env.bytes nl_type))]],
                        .Ptr nl_type⟩, st1)
                else
                  match root.child_at 1 with
                  | .error e => .error e
                  | .ok bracket =>
                    .error (.TypeMismatchError
                      "Expression between square brackets must be of type i32."
                      bracket.line_no)
    else .error .exit_failure

/-- Sample collaborators for concrete instances: every type node is `i32` of four
bytes, every expression has the type `count_type` and leaves the arguments passed
by reference as they are. -/
def sample_collaborators (count_type : NLType) : Collaborators :=
  { visit_type := fun _ => .ok .I32
    visit_expr := fun _ _ st => .ok (⟨.Word 3, count_type⟩, st)
    int_literal := fun n => .Word n
    bin_op := fun lhs op rhs => .BinOp op lhs rhs
    bytes := fun _ => 4 }

/-- A sample node for `typeinit -> type LBRACKET expr RBRACKET` with its four children;
the LBRACKET child is on line 7. -/
def sample_array_node : ASTNode :=
  .mk (N .typeinit) typeinit_type_array
    [.mk (N .type) [N .type, T .I32] [.mk (T .I32) [] [] "i32" 7] "" 7,
     .mk (T .LBRACKET) [] [] "[" 7,
     .mk (N .expr) [N .expr, N .exprp1] [] "" 7,
     .mk (T .RBRACKET) [] [] "]" 7]
    "" 7

/-- A sample node for `typeinit -> type`. -/
def sample_type_node : ASTNode :=
  .mk (N .typeinit) typeinit_type
    [.mk (N .type) [N .type, T .I32] [.mk (T .I32) [] [] "i32" 7] "" 7] "" 7

/-- A state whose module table binds `heap_allocate` in the module `heap` to a typed
procedure. -/
def sample_state : CompileState :=
  { symbol_table := []
    module_table :=
      [("heap", [[("heap_allocate", .TypedProcedure ⟨9, "heap_allocate"⟩ [.I32] (.Ptr .I32))]])]
    static_data := [] }

/-- A state with an empty module table. -/
def empty_state : CompileState :=
  { symbol_table := [], module_table := [], static_data := [] }

/-! ## The grammar-file parser of the legacy variant (`src/lex_parse/lang.cc`) -/

namespace Legacy

/-- A grammar symbol of the legacy variant, a `std::string` (named `State` there). -/
abbrev State := String

/-- A production `Production {lhs, rhs}` of the legacy variant. -/
structure Production where
  lhs : State
  rhs : List State
  deriving DecidableEq, Repr

/-- The record `Grammar` of the legacy variant. -/
structure Grammar where
  non_terminals : List State
  terminals : List State
  start : State
  productions : List (State × List Production)
  deriving DecidableEq, Repr

/-- The `<cctype>` predicate `isupper` in the "C" locale. -/
def isupper (c : Char) : Bool := 65 ≤ c.toNat && c.toNat ≤ 90

/-- The `<cctype>` predicate `islower` in the "C" locale. -/
def islower (c : Char) : Bool := 97 ≤ c.toNat && c.toNat ≤ 122

/-- The loop `while (getline(stream, piece, delim))` over the rest of a stream, with
`cur` the characters extracted so far for the current piece: a piece ends at the
delimiter, which is discarded, or at the end of the stream; at the end of the
stream `getline` fails when it has extracted nothing. -/
def getline_all (delim : Char) : List Char → List Char → List (List Char)
  | [], cur => if cur = [] then [] else [cur]
  | c :: rest, cur =>
    if c = delim then cur :: getline_all delim rest []
    else getline_all delim rest (cur ++ [c])

/-- The inner loop of `make_grammar` (lang.cc, lines 196-203): the pieces of a line
between spaces, the empty ones left out. -/
def words_of_line (raw_line : List Char) : List String :=
  ((getline_all ' ' raw_line []).filter (fun word => word.length ≠ 0)).map String.mk

/-- The outer loop of `make_grammar` (lang.cc, lines 193-207): the vector `file`, the
words of every line that has at least one word. -/
def read_file (file_string : String) : List (List String) :=
  ((getline_all '\n' file_string.toList []).map words_of_line).filter
    (fun words => words.length ≠ 0)

/-- The statements `if (!productions.count(lhs)) productions[lhs] = {};
productions[lhs].push_back(p)` (lang.cc, lines 213-217) on the map `productions`.
A new key is put at the end; the order of the keys plays no part in a lookup. -/
def push_production (productions : List (State × List Production)) (p : Production) :
    List (State × List Production) :=
  match productions with
  | [] => [(p.lhs, [p])]
  | (key, ps) :: rest =>
    if key = p.lhs then (key, ps ++ [p]) :: rest
    else (key, ps) :: push_production rest p

/-- The loop over `file` that fills `productions` (lang.cc, lines 209-218).  Every
line of `file` has a first word, so `line.at(0)` does not throw; the case of an
empty line leaves the map as it is. -/
def build_productions :
    List (List String) → List (State × List Production) → List (State × List Production)
  | [], productions => productions
  | [] :: file, productions => build_productions file productions
  | (lhs :: rhs) :: file, productions =>
    build_productions file (push_production productions ⟨lhs, rhs⟩)

/-- Insertion `set.insert(word)` into a `std::set`. -/
def set_insert (set : List State) (word : State) : List State :=
  if word ∈ set then set else set ++ [word]

/-- The loops over the words of `file` that fill `non_terminals` and `terminals`
(lang.cc, lines 220-234), on the words in file order; `none` is `exit(1)`.  No
word is empty, so `word.at(0)` does not throw; the case of an empty word is a
failure as well. -/
def classify_words :
    List String → List State → List State → Option (List State × List State)
  | [], non_terminals, terminals => some (non_terminals, terminals)
  | word :: rest, non_terminals, terminals =>
    match word.toList with
    | [] => none
    | c :: _ =>
      if isupper c then classify_words rest non_terminals (set_insert terminals word)
      else if islower c then classify_words rest (set_insert non_terminals word) terminals
      else none

/-- Function `make_grammar` of the legacy variant (lang.cc, lines 189-242), with the text
of the included file `lang_grammar.txt` as its argument; `none` is `exit(1)`. -/
def make_grammar (grammar_file : String) : Option Grammar :=
  let file := read_file grammar_file
  let productions := build_productions file []
  match classify_words file.flatten [] [] with
  | none => none
  | some (non_terminals, terminals) =>
    some { non_terminals := non_terminals
           terminals := terminals
           start := "s"
           productions := productions }

/-- The first character of a word satisfies `p`. -/
def starts_with (p : Char → Bool) (word : String) : Bool :=
  match word.toList with
  | [] => false
  | c :: _ => p c

/-- The grammar text as the file format words it, with the space as the only
separator: the lines of the text, each cut into its non-empty pieces between
spaces, the lines without a piece left out. -/
def space_separated_lines (text : String) : List (List String) :=
  ((text.toList.splitOn '\n').map
    (fun line => ((line.splitOn ' ').filter (fun piece => piece ≠ [])).map String.mk)).filter
    (fun words => words ≠ [])

/-- The grammar text as the specification words the file format, with any white space
as separator inside a line. -/
def whitespace_separated_lines (text : String) : List (List String) :=
  ((text.toList.splitOn '\n').map
    (fun line =>
      ((line.splitOnP Char.isWhitespace).filter (fun piece => piece ≠ [])).map String.mk)).filter
    (fun words => words ≠ [])

end Legacy

/-- The symbol `x` derives the empty token sequence. -/
def nullable (g : Grammar) (x : State) : Prop := derives g [x] []

/-- One unit/epsilon step `A => B`: some production `A -> pre B post` whose other
symbols `pre`, `post` all derive the empty sequence. -/
def unit_step (g : Grammar) (A B : NonTerminal) : Prop :=
  ∃ p ∈ g.productions_of A, ∃ pre post : List State,
    p.rhs = pre ++ State.non_terminal B :: post ∧ ∀ x ∈ pre ++ post, nullable g x

/-- A rank of the non-terminals that falls along every unit/epsilon step of the
grammar of `make_grammar`. -/
def unit_rank : NonTerminal → Nat
  | .exprp9 => 0 | .exprp8 => 1 | .exprp7 => 2 | .exprp6 => 3 | .exprp5 => 4
  | .exprp4 => 5 | .exprp3 => 6 | .exprp2 => 7 | .exprp1 => 8 | .expr => 9
  | .args => 10 | .optargs => 11
  | .vardef => 0 | .params => 1 | .optparams => 2
  | .stmt => 0 | .stmts => 1 | .fn => 0 | .fns => 1
  | .s => 0 | .type => 0 | .typeinit => 0

/-- Check of one production `p` of `A`: every non-terminal `B` of its right side that
could be the target of a unit/epsilon step (all other symbols are `B` itself,
`optparams` or `optargs`) has a smaller rank than `A`. -/
def unit_rank_falls (A : NonTerminal) (p : Production) : Bool :=
  p.rhs.all (fun x =>
    match x with
    | .terminal _ => true
    | .non_terminal B =>
      !(p.rhs.all (fun y => decide (y = x ∨ y ∈ [N .optparams, N .optargs]))) ||
        decide (unit_rank B < unit_rank A))

/-- The token kinds of a function with an empty body, `fn f() {}`. -/
def empty_body_kinds : List Terminal := [.FN, .ID, .LPAREN, .RPAREN, .LBRACE, .RBRACE]

mutual
/-- The tree is built only from `Block`, `VarAccess` and leaf nodes (`DefineLabel`,
`UseLabel`, `BeqLabel`, `BneLabel`, `Assembly`, `Word`). -/
def Code.block_var_leaf : Code → Bool
  | .Block code => Code.all_block_var_leaf code
  | .VarAccess _ _ _ => true
  | .DefineLabel _ => true
  | .UseLabel _ => true
  | .BeqLabel _ _ _ => true
  | .BneLabel _ _ _ => true
  | .Assembly _ => true
  | .Word _ => true
  | .BinOp _ _ _ => false
  | .IfStmt _ _ _ => false
  | .WhileLoop _ _ => false
  | .Call _ _ => false
/-- Every tree of the list is built only from `Block`, `VarAccess` and leaf nodes. -/
def Code.all_block_var_leaf : List Code → Bool
  | [] => true
  | c :: rest => Code.block_var_leaf c && Code.all_block_var_leaf rest
end

mutual
/-- The tree holds a `VarAccess` node, at any depth and below any kind of node. -/
def Code.has_var_access : Code → Bool
  | .Block code => Code.any_has_var_access code
  | .VarAccess _ _ _ => true
  | .BinOp _ lhs rhs => Code.has_var_access lhs || Code.has_var_access rhs
  | .IfStmt cond thens elses =>
    Code.has_var_access cond || Code.has_var_access thens || Code.has_var_access elses
  | .WhileLoop cond body => Code.has_var_access cond || Code.has_var_access body
  | .Call _ args => Code.any_has_var_access args
  | .DefineLabel _ => false
  | .UseLabel _ => false
  | .BeqLabel _ _ _ => false
  | .BneLabel _ _ _ => false
  | .Assembly _ => false
  | .Word _ => false
/-- Some tree of the list holds a `VarAccess` node. -/
def Code.any_has_var_access : List Code → Bool
  | [] => false
  | c :: rest => Code.has_var_access c || Code.any_has_var_access rest
end

/-- The chunk emits no `VarAccess`: the code of every `load` and of every `store` is
free of `VarAccess` nodes. -/
def Chunk.emits_no_var_access (chunk : Chunk) : Prop :=
  (∀ base dest var, (chunk.load base dest var).has_var_access = false) ∧
  (∀ base var src, (chunk.store base var src).has_var_access = false)

/-! ## The scanner of the legacy variant (`src/lex_parse/lang.cc`) -/

namespace Legacy

/-- Table `one_char_symbols` of the legacy variant (lang.cc, lines 12-21). -/
def one_char_symbols : List (Char × State) :=
  [(' ', "WHITESPACE"), ('\t', "WHITESPACE"), ('\n', "WHITESPACE"),
   ('\r', "WHITESPACE"), ('0', "ZERO"), ('<', "LT"),
   ('>', "GT"), ('!', "NOT"), ('=', "ASSIGN"),
   ('+', "PLUS"), ('-', "MINUS"), ('*', "STAR"),
   ('/', "SLASH"), ('%', "PCT"), ('(', "LPAREN"),
   (')', "RPAREN"), ('{', "LBRACE"), ('}', "RBRACE"),
   (',', "COMMA"), (';', "SEMI"), (':', "COLON"),
   ('|', "PIPE"), ('&', "AMPERSAND")]

/-- Table `two_char_symbols` of the legacy variant (lang.cc, lines 23-32). -/
def two_char_symbols : List (String × State) :=
  [("==", "EQ"), ("!=", "NE"), ("<=", "LE"), (">=", "GE"),
   ("||", "OR"), ("&&", "AND"), ("->", "ARROW"), ("//", "COMMENT")]

/-- The `<cctype>` predicate `isalnum` in the "C" locale. -/
def isalnum (c : Char) : Bool := isalpha c || isdigit c

/-- Function `transition_func` of the legacy variant (lang.cc, lines 34-94), the tests in
the order of the source; the test for the state `COMMENT` is the one written
there, `c != '\n' || c != '\r'`. -/
def transition_func (curr_state : State) (c : Char) : Option State :=
  let from_start : Option State :=
    if curr_state = "start" then
      match one_char_symbols.lookup c with
      | some t => some t
      | none =>
        if isalpha c then some "ID"
        else if isdigit c then some "NUM"
        else none
    else none
  match from_start with
  | some t => some t
  | none =>
    if curr_state = "ASSIGN" ∧ c = '=' then some "EQ"
    else if curr_state = "NOT" ∧ c = '=' then some "NE"
    else if curr_state = "LT" ∧ c = '=' then some "LE"
    else if curr_state = "GT" ∧ c = '=' then some "GE"
    else if curr_state = "PIPE" ∧ c = '|' then some "OR"
    else if curr_state = "AMPERSAND" ∧ c = '&' then some "AND"
    else if curr_state = "MINUS" ∧ c = '>' then some "ARROW"
    else if curr_state = "SLASH" ∧ c = '/' then some "COMMENT"
    else if curr_state = "COMMENT" ∧ (c ≠ '\n' ∨ c ≠ '\r') then some "COMMENT"
    else if curr_state = "NUM" ∧ isdigit c then some "NUM"
    else if curr_state = "ID" ∧ isalnum c then some "ID"
    else none

/-- The record `DFA` of the legacy variant, with strings as states. -/
structure DFA where
  alphabet : List Char
  init_state : State
  valid_states : List State
  accepting : List State
  transition : State → Char → Option State

/-- Function `make_dfa` of the legacy variant (lang.cc, lines 96-127). -/
def make_dfa : DFA :=
  let alphabet_str : String :=
    "<>=+-*/%()\x7b\x7d,;:! \t\n\rabcdefghijklmnopqrstuvwxyzABCDEFGHIJKLMNOPQRSTUVWXYZ0123456789"
  let accepting : List State :=
    ["ID", "NUM"] ++ one_char_symbols.map Prod.snd ++ two_char_symbols.map Prod.snd
  { alphabet := alphabet_str.toList
    init_state := "start"
    valid_states := "start" :: accepting
    accepting := accepting
    transition := transition_func }

/-- Run of the legacy DFA: `transition_func` folded over a string from a state. -/
def run (st : State) : List Char → Option State
  | [] => some st
  | c :: rest =>
    match transition_func st c with
    | some st' => run st' rest
    | none => none

end Legacy

/-! # Theorems

## The adjacency rule of the post-pass -/

/-- Two neighbours whose kinds are both in `sep_set1` stop the loop, whatever the
loop state is when the first of them is reached. -/
theorem scan_loop_adjacent_set1 (a b : Token) (post : List Token)
    (ha : a.kind ∈ sep_set1) (hb : b.kind ∈ sep_set1) :
    ∀ (pre : List Token) (p1 p2 : Bool) (result : List Token),
      scan_loop (pre ++ a :: b :: post) p1 p2 result = none := by
  intro pre
  induction pre with
  | nil =>
    intro p1 p2 result
    simp only [List.nil_append, scan_loop]
    split
    · rfl
    · split
      · rfl
      · simp [hb, ha]
  | cons t pre ih =>
    intro p1 p2 result
    simp only [List.cons_append, scan_loop]
    split
    · rfl
    · split
      · rfl
      · exact ih _ _ _

/-- Two neighbours whose kinds are both in `sep_set2` stop the loop, whatever the
loop state is when the first of them is reached. -/
theorem scan_loop_adjacent_set2 (a b : Token) (post : List Token)
    (ha : a.kind ∈ sep_set2) (hb : b.kind ∈ sep_set2) :
    ∀ (pre : List Token) (p1 p2 : Bool) (result : List Token),
      scan_loop (pre ++ a :: b :: post) p1 p2 result = none := by
  intro pre
  induction pre with
  | nil =>
    intro p1 p2 result
    simp only [List.nil_append, scan_loop]
    split
    · rfl
    · split
      · rfl
      · simp [hb, ha]
  | cons t pre ih =>
    intro p1 p2 result
    simp only [List.cons_append, scan_loop]
    split
    · rfl
    · split
      · rfl
      · exact ih _ _ _

/-- C1 (as amended): if two tokens that are consecutive in the raw stream both have,
after keyword reclassification and ZERO->NUM, a kind in `sep_set1` (FN, LET, IF,
WHILE, ELSE, I32, BOOL, CHAR, ID, NUM, STRLITERAL, CHARLITERAL, TRUE, FALSE), or
both a kind in the operator set `sep_set2`, then the post-pass fails, and so does
`scan` on every source whose maximal-munch stream this is. -/
theorem C1_adjacent_sep_kinds_rejected (pre post : List Token) (a b : Token)
    (h : ((reclassify a).kind ∈ sep_set1 ∧ (reclassify b).kind ∈ sep_set1) ∨
         ((reclassify a).kind ∈ sep_set2 ∧ (reclassify b).kind ∈ sep_set2)) :
    scan_post (pre ++ a :: b :: post) = none ∧
    ∀ input : String,
      maximal_munch_scan input make_dfa = some (pre ++ a :: b :: post) →
        scan input = none := by
  have hpost : scan_post (pre ++ a :: b :: post) = none := by
    unfold scan_post
    simp only [List.map_append, List.map_cons]
    rcases h with ⟨ha, hb⟩ | ⟨ha, hb⟩
    · rw [scan_loop_adjacent_set1 _ _ _ ha hb]
    · rw [scan_loop_adjacent_set2 _ _ _ ha hb]
  refine ⟨hpost, ?_⟩
  intro input hin
  unfold scan
  rw [hin]
  exact hpost

/-- Witness of C1: the raw stream of the source `1a` is NUM, ID, both in `sep_set1`. -/
theorem C1_adjacent_sep_kinds_rejected_witness :
    (((reclassify ⟨.NUM, "1"⟩).kind ∈ sep_set1 ∧ (reclassify ⟨.ID, "a"⟩).kind ∈ sep_set1) ∨
     ((reclassify ⟨.NUM, "1"⟩).kind ∈ sep_set2 ∧ (reclassify ⟨.ID, "a"⟩).kind ∈ sep_set2)) ∧
    maximal_munch_scan "1a" make_dfa = some ([] ++ ⟨.NUM, "1"⟩ :: ⟨.ID, "a"⟩ :: []) ∧
    scan_post ([] ++ ⟨.NUM, "1"⟩ :: ⟨.ID, "a"⟩ :: []) = none ∧
    scan "1a" = none :=
  have h := C1_adjacent_sep_kinds_rejected [] [] ⟨.NUM, "1"⟩ ⟨.ID, "a"⟩
    (Or.inl ⟨by decide, by decide⟩)
  ⟨Or.inl ⟨by decide, by decide⟩, by decide, h.1, h.2 "1a" (by decide)⟩

/-- C1 (counterexample to the claim as worded): the source `return"a"` is munched
into the two consecutive raw tokens `return` and `"a"`; after reclassification
their kinds RET and STRLITERAL are both identifier-like in the sense of the
specification, yet the post-pass and `scan` return a token list. -/
theorem C1_counterexample_ret_literal :
    maximal_munch_scan "return\"a\"" make_dfa
      = some [⟨.ID, "return"⟩, ⟨.STRLITERAL, "\"a\""⟩] ∧
    (reclassify ⟨.ID, "return"⟩).kind ∈ ident_like_spec ∧
    (reclassify ⟨.STRLITERAL, "\"a\""⟩).kind ∈ ident_like_spec ∧
    scan_post [⟨.ID, "return"⟩, ⟨.STRLITERAL, "\"a\""⟩]
      = some [⟨.BOFS, ""⟩, ⟨.RET, "return"⟩, ⟨.STRLITERAL, "\"a\""⟩, ⟨.EOFS, ""⟩] ∧
    scan "return\"a\""
      = some [⟨.BOFS, ""⟩, ⟨.RET, "return"⟩, ⟨.STRLITERAL, "\"a\""⟩, ⟨.EOFS, ""⟩] := by
  refine ⟨by decide, by decide, by decide, by decide, by decide⟩

/-! ## Shape of the token list returned by `scan` -/

/-- Every kind stored in `keywords` is one of the twelve keyword kinds, never `ZERO`. -/
theorem keywords_lookup_kind (s : String) (k : Terminal)
    (h : keywords.lookup s = some k) :
    k ≠ .ZERO ∧
    k ∈ [Terminal.FN, .LET, .IF, .WHILE, .ELSE, .RET, .AS, .I32, .BOOL, .CHAR, .TRUE, .FALSE] := by
  simp only [keywords, List.lookup] at h
  repeat' split at h
  all_goals (cases h <;> exact ⟨by decide, by decide⟩)

/-- Reclassification never touches the lexeme. -/
theorem reclassify_lexeme (t : Token) : (reclassify t).lexeme = t.lexeme := by
  unfold reclassify
  split
  · rfl
  · split <;> rfl

/-- No reclassified token has kind `ZERO`. -/
theorem reclassify_kind_ne_zero (t : Token) : (reclassify t).kind ≠ .ZERO := by
  unfold reclassify
  split
  · rename_i k hk
    exact (keywords_lookup_kind _ _ hk).1
  · split
    · simp
    · assumption

/-- When the loop of `scan` ends normally, `result` has grown by exactly the tokens
that are neither `WHITESPACE` nor `COMMENT`, in order. -/
theorem scan_loop_eq_filter : ∀ (ts : List Token) (p1 p2 : Bool) (result out : List Token),
    scan_loop ts p1 p2 result = some out →
      out = result ++
        ts.filter (fun t => decide (t.kind ≠ .WHITESPACE ∧ t.kind ≠ .COMMENT)) := by
  intro ts
  induction ts with
  | nil =>
    intro p1 p2 result out h
    simp only [scan_loop, Option.some.injEq] at h
    simp [h]
  | cons t ts ih =>
    intro p1 p2 result out h
    simp only [scan_loop] at h
    split at h
    · cases h
    · split at h
      · cases h
      · have hout := ih _ _ _ _ h
        rw [hout]
        by_cases hk : t.kind ≠ .WHITESPACE ∧ t.kind ≠ .COMMENT
        · simp [hk, List.filter_cons]
        · simp [hk, List.filter_cons]

/-- The post-pass returns `BOFS`, the kept reclassified tokens, `EOFS`. -/
theorem scan_post_eq (raw out : List Token) (h : scan_post raw = some out) :
    out = ⟨.BOFS, ""⟩ ::
      (raw.map reclassify).filter
        (fun t => decide (t.kind ≠ .WHITESPACE ∧ t.kind ≠ .COMMENT)) ++ [⟨.EOFS, ""⟩] := by
  unfold scan_post at h
  split at h
  · cases h
  · rename_i result hres
    cases h
    have hr := scan_loop_eq_filter _ _ _ _ _ hres
    simp only [List.nil_append] at hr
    rw [hr]

/-- Tokens of the maximal munch over a DFA whose initial state is not accepting:
each has an accepting kind and a non-empty lexeme that lies inside the text made
of the characters consumed so far followed by the remaining input. -/
theorem munch_tokens (dfa : DFA) (hinit : dfa.init_state ∉ dfa.accepting) :
    ∀ (input : List Char) (st : Terminal) (consumed : List Char) (toks : List Token),
      munch dfa st consumed input = some toks →
      (consumed = [] → st = dfa.init_state) →
      ∀ t ∈ toks, t.kind ∈ dfa.accepting ∧ t.lexeme.data ≠ [] ∧
        ∃ pre post, consumed ++ input = pre ++ t.lexeme.data ++ post := by
  intro input
  induction input with
  | nil =>
    intro st consumed toks h hc t ht
    simp only [munch] at h
    split at h
    · cases h; simp at ht
    · rename_i hne
      split at h
      · rename_i hacc
        cases h
        simp only [List.mem_singleton] at ht
        subst ht
        exact ⟨hacc, hne, [], [], by simp⟩
      · cases h
  | cons c rest ih =>
    intro st consumed toks h hc t ht
    simp only [munch] at h
    split at h
    · rename_i st1 htr
      obtain ⟨h1, h2, pre, post, h3⟩ := ih st1 (consumed ++ [c]) toks h (by simp) t ht
      exact ⟨h1, h2, pre, post, by simpa using h3⟩
    · split at h
      · rename_i hacc
        have hne : consumed ≠ [] := by
          intro he
          exact hinit (hc he ▸ hacc)
        split at h
        · rename_i st1 htr
          cases hm : munch dfa st1 [c] rest with
          | none => simp [hm] at h
          | some ts =>
            simp only [hm, Option.map_some', Option.some.injEq] at h
            subst h
            rcases List.mem_cons.1 ht with rfl | ht1
            · exact ⟨hacc, hne, [], c :: rest, by simp⟩
            · obtain ⟨h1, h2, pre, post, h3⟩ := ih st1 [c] ts hm (by simp) t ht1
              refine ⟨h1, h2, consumed ++ pre, post, ?_⟩
              simp only [List.singleton_append] at h3
              rw [h3]
              simp
        · cases h
      · cases h

/-- C2 (as amended): on the source `let let = 0;` the maximal munch yields ID `let`,
WHITESPACE, ID `let`, WHITESPACE, ASSIGN, WHITESPACE, ZERO, SEMI; the WHITESPACE
token between the two `let` clears the adjacency flag, and `scan` returns the
token list BOFS LET LET ASSIGN NUM SEMI EOFS. -/
theorem C2_let_let_scans :
    maximal_munch_scan "let let = 0;" make_dfa
      = some [⟨.ID, "let"⟩, ⟨.WHITESPACE, " "⟩, ⟨.ID, "let"⟩, ⟨.WHITESPACE, " "⟩,
              ⟨.ASSIGN, "="⟩, ⟨.WHITESPACE, " "⟩, ⟨.ZERO, "0"⟩, ⟨.SEMI, ";"⟩] ∧
    scan "let let = 0;"
      = some [⟨.BOFS, ""⟩, ⟨.LET, "let"⟩, ⟨.LET, "let"⟩, ⟨.ASSIGN, "="⟩,
              ⟨.NUM, "0"⟩, ⟨.SEMI, ";"⟩, ⟨.EOFS, ""⟩] := by
  exact ⟨by decide, by decide⟩

/-- C2 (counterexample to the claim as worded): `scan` does not fail on the source
`let let = 0;`, it returns a token list. -/
theorem C2_counterexample_not_rejected :
    scan "let let = 0;" ≠ none ∧ ∃ out, scan "let let = 0;" = some out := by
  exact ⟨by decide, _, rfl⟩

/-- C3 (as amended): for every source on which `scan` succeeds, the returned list is
the BOFS token, tokens `mid`, the EOFS token, and every token of `mid` has a
non-empty lexeme that is a substring of the source and a kind that is either a
member of the accepting set of `make_dfa` or the keyword terminal that `keywords`
gives for its lexeme. -/
theorem C3_scanned_tokens (input : String) (out : List Token)
    (h : scan input = some out) :
    ∃ mid : List Token,
      out = ⟨.BOFS, ""⟩ :: mid ++ [⟨.EOFS, ""⟩] ∧
      ∀ t ∈ mid,
        t.lexeme ≠ "" ∧
        (∃ pre post : List Char, input.toList = pre ++ t.lexeme.toList ++ post) ∧
        (t.kind ∈ make_dfa.accepting ∨ keywords.lookup t.lexeme = some t.kind) := by
  unfold scan at h
  split at h
  · cases h
  · rename_i raw hraw
    refine ⟨_, scan_post_eq raw out h, ?_⟩
    intro t ht
    obtain ⟨ht1, -⟩ := List.mem_filter.1 ht
    obtain ⟨r, hr, rfl⟩ := List.mem_map.1 ht1
    have hm := munch_tokens make_dfa (by decide) input.toList Terminal.START [] raw
      hraw (fun _ => rfl) r hr
    obtain ⟨hacc, hne, pre, post, hsub⟩ := hm
    rw [reclassify_lexeme]
    refine ⟨?_, ⟨pre, post, by simpa using hsub⟩, ?_⟩
    · intro he
      apply hne
      rw [he]
    · unfold reclassify
      split
      · rename_i k hk
        exact Or.inr hk
      · split
        · exact Or.inl (show Terminal.NUM ∈ make_dfa.accepting by decide)
        · exact Or.inl hacc

/-- Witness of C3: the source `x=1`. -/
theorem C3_scanned_tokens_witness :
    scan "x=1" = some [⟨.BOFS, ""⟩, ⟨.ID, "x"⟩, ⟨.ASSIGN, "="⟩, ⟨.NUM, "1"⟩, ⟨.EOFS, ""⟩] ∧
    ∃ mid : List Token,
      [⟨.BOFS, ""⟩, ⟨.ID, "x"⟩, ⟨.ASSIGN, "="⟩, ⟨.NUM, "1"⟩, ⟨.EOFS, ""⟩]
        = (⟨.BOFS, ""⟩ : Token) :: mid ++ [⟨.EOFS, ""⟩] ∧
      ∀ t ∈ mid,
        t.lexeme ≠ "" ∧
        (∃ pre post : List Char, "x=1".toList = pre ++ t.lexeme.toList ++ post) ∧
        (t.kind ∈ make_dfa.accepting ∨ keywords.lookup t.lexeme = some t.kind) :=
  ⟨by decide, C3_scanned_tokens "x=1" _ (by decide)⟩

/-- C3 (counterexample to the claim as worded): `scan` succeeds on the source `fn`;
the returned BOFS and EOFS tokens have the empty lexeme and kinds outside the
accepting set, and the kind FN of the token `fn` is not accepting either. -/
theorem C3_counterexample_brackets_keyword :
    scan "fn" = some [⟨.BOFS, ""⟩, ⟨.FN, "fn"⟩, ⟨.EOFS, ""⟩] ∧
    (⟨.BOFS, ""⟩ : Token).lexeme = "" ∧
    (⟨.EOFS, ""⟩ : Token).lexeme = "" ∧
    Terminal.BOFS ∉ make_dfa.accepting ∧
    Terminal.EOFS ∉ make_dfa.accepting ∧
    Terminal.FN ∉ make_dfa.accepting := by
  refine ⟨by decide, rfl, rfl, by decide, by decide, by decide⟩

/-- C4: when the post-pass of `scan` succeeds on a raw token list, the result is one
BOFS token with empty lexeme, then exactly the reclassified raw tokens whose kind
is neither WHITESPACE nor COMMENT, in their order and with the lexemes of the raw
tokens, then one EOFS token with empty lexeme; hence no WHITESPACE or COMMENT
token is returned and the length is the number of kept tokens plus two. -/
theorem C4_post_pass_result (raw out : List Token) (h : scan_post raw = some out) :
    out = ⟨.BOFS, ""⟩ ::
      (raw.map reclassify).filter
        (fun t => decide (t.kind ≠ .WHITESPACE ∧ t.kind ≠ .COMMENT)) ++ [⟨.EOFS, ""⟩] ∧
    (raw.map reclassify).map Token.lexeme = raw.map Token.lexeme ∧
    (∀ t ∈ out, t.kind ≠ .WHITESPACE ∧ t.kind ≠ .COMMENT) ∧
    out.length =
      ((raw.map reclassify).filter
        (fun t => decide (t.kind ≠ .WHITESPACE ∧ t.kind ≠ .COMMENT))).length + 2 := by
  have hout := scan_post_eq raw out h
  refine ⟨hout, ?_, ?_, ?_⟩
  · rw [List.map_map]
    apply List.map_congr_left
    intro t _
    exact reclassify_lexeme t
  · intro t ht
    rw [hout] at ht
    simp only [List.cons_append, List.mem_cons, List.mem_append, List.mem_filter,
      List.not_mem_nil, or_false] at ht
    rcases ht with rfl | ⟨-, hk⟩ | rfl
    · exact ⟨by decide, by decide⟩
    · simpa using hk
    · exact ⟨by decide, by decide⟩
  · rw [hout]
    simp

/-- Witness of C4: the raw stream of the source `x +y`. -/
theorem C4_post_pass_result_witness :
    scan_post [⟨.ID, "x"⟩, ⟨.WHITESPACE, " "⟩, ⟨.PLUS, "+"⟩, ⟨.ID, "y"⟩]
      = some [⟨.BOFS, ""⟩, ⟨.ID, "x"⟩, ⟨.PLUS, "+"⟩, ⟨.ID, "y"⟩, ⟨.EOFS, ""⟩] ∧
    (∀ t ∈ [⟨.BOFS, ""⟩, ⟨.ID, "x"⟩, ⟨.PLUS, "+"⟩, ⟨.ID, "y"⟩, (⟨.EOFS, ""⟩ : Token)],
      t.kind ≠ .WHITESPACE ∧ t.kind ≠ .COMMENT) :=
  ⟨by decide,
   (C4_post_pass_result [⟨.ID, "x"⟩, ⟨.WHITESPACE, " "⟩, ⟨.PLUS, "+"⟩, ⟨.ID, "y"⟩]
      [⟨.BOFS, ""⟩, ⟨.ID, "x"⟩, ⟨.PLUS, "+"⟩, ⟨.ID, "y"⟩, ⟨.EOFS, ""⟩] (by decide)).2.2.1⟩

/-- C5: in the post-pass every token keeps its lexeme; its kind becomes the keyword
terminal when its lexeme is exactly fn, let, if, while, else, return, as, i32,
bool, char, true or false (FN, LET, IF, WHILE, ELSE, RET, AS, I32, BOOL, CHAR,
TRUE, FALSE); otherwise NUM when its kind was ZERO; otherwise it is unchanged.
So no token of kind ZERO is in a result of the post-pass or of `scan`, and the
identifier `iffy` is not reclassified. -/
theorem C5_reclassification :
    (∀ t : Token, (reclassify t).lexeme = t.lexeme) ∧
    (∀ k : Terminal,
      (reclassify ⟨k, "fn"⟩).kind = .FN ∧ (reclassify ⟨k, "let"⟩).kind = .LET ∧
      (reclassify ⟨k, "if"⟩).kind = .IF ∧ (reclassify ⟨k, "while"⟩).kind = .WHILE ∧
      (reclassify ⟨k, "else"⟩).kind = .ELSE ∧ (reclassify ⟨k, "return"⟩).kind = .RET ∧
      (reclassify ⟨k, "as"⟩).kind = .AS ∧ (reclassify ⟨k, "i32"⟩).kind = .I32 ∧
      (reclassify ⟨k, "bool"⟩).kind = .BOOL ∧ (reclassify ⟨k, "char"⟩).kind = .CHAR ∧
      (reclassify ⟨k, "true"⟩).kind = .TRUE ∧ (reclassify ⟨k, "false"⟩).kind = .FALSE) ∧
    (∀ t : Token,
      t.lexeme ∉ ["fn", "let", "if", "while", "else", "return", "as", "i32", "bool",
                  "char", "true", "false"] →
      (reclassify t).kind = if t.kind = .ZERO then .NUM else t.kind) ∧
    (∀ raw out : List Token, scan_post raw = some out → ∀ t ∈ out, t.kind ≠ .ZERO) ∧
    (∀ (input : String) (out : List Token), scan input = some out →
      ∀ t ∈ out, t.kind ≠ .ZERO) ∧
    reclassify ⟨.ID, "iffy"⟩ = ⟨.ID, "iffy"⟩ := by
  have hpost : ∀ raw out : List Token, scan_post raw = some out →
      ∀ t ∈ out, t.kind ≠ .ZERO := by
    intro raw out h t ht
    rw [scan_post_eq raw out h] at ht
    simp only [List.cons_append, List.mem_cons, List.mem_append, List.mem_filter,
      List.mem_map, List.not_mem_nil, or_false] at ht
    rcases ht with rfl | ⟨⟨r, -, rfl⟩, -⟩ | rfl
    · decide
    · exact reclassify_kind_ne_zero r
    · decide
  refine ⟨reclassify_lexeme, ?_, ?_, hpost, ?_, by decide⟩
  · intro k
    refine ⟨?_, ?_, ?_, ?_, ?_, ?_, ?_, ?_, ?_, ?_, ?_, ?_⟩ <;> rfl
  · intro t ht
    simp only [List.mem_cons, List.mem_singleton, List.not_mem_nil, or_false, not_or] at ht
    obtain ⟨h1, h2, h3, h4, h5, h6, h7, h8, h9, h10, h11, h12⟩ := ht
    have e : ∀ s : String, ¬ t.lexeme = s → (t.lexeme == s) = false :=
      fun s hs => by simpa using hs
    have hnone : keywords.lookup t.lexeme = none := by
      simp only [keywords, List.lookup, e _ h1, e _ h2, e _ h3, e _ h4, e _ h5, e _ h6,
        e _ h7, e _ h8, e _ h9, e _ h10, e _ h11, e _ h12]
    unfold reclassify
    rw [hnone]
    by_cases hz : t.kind = .ZERO <;> simp [hz]
  · intro input out h t ht
    unfold scan at h
    split at h
    · cases h
    · exact hpost _ _ h t ht

/-- Witness of C5: the raw stream of the source `0 if` holds a ZERO token and the
keyword `if`; the result of `scan` holds NUM and IF, and `x` keeps the kind ID. -/
theorem C5_reclassification_witness :
    scan "0 if" = some [⟨.BOFS, ""⟩, ⟨.NUM, "0"⟩, ⟨.IF, "if"⟩, ⟨.EOFS, ""⟩] ∧
    (∀ t ∈ [⟨.BOFS, ""⟩, ⟨.NUM, "0"⟩, ⟨.IF, "if"⟩, (⟨.EOFS, ""⟩ : Token)],
      t.kind ≠ .ZERO) ∧
    (reclassify ⟨.ID, "x"⟩).kind = (if Terminal.ID = .ZERO then .NUM else .ID) :=
  ⟨by decide,
   C5_reclassification.2.2.2.2.1 "0 if" _ (by decide),
   C5_reclassification.2.2.1 ⟨.ID, "x"⟩ (by decide)⟩

/-! ## The transition function, state by state -/

/-- A successful search of an association list returns an entry of the list. -/
theorem lookup_mem {β : Type} (l : List (Char × β)) (c : Char) (t : β)
    (h : l.lookup c = some t) : (c, t) ∈ l := by
  obtain ⟨l1, l2, rfl, -⟩ := List.lookup_eq_some_iff.1 h
  simp

/-- A character that is no key of `one_char_symbols` is not found in it. -/
theorem lookup_none_of_keys (c : Char)
    (h : c ∉ one_char_symbols.map Prod.fst) : one_char_symbols.lookup c = none := by
  rw [List.lookup_eq_none_iff]
  intro p hp
  simp only [bne_iff_ne, ne_eq]
  intro hc
  exact h (List.mem_map.2 ⟨p, hp, hc.symm⟩)

/-- The transitions out of `START`, with the order of the tests of the source. -/
theorem tf_start (c : Char) :
    transition_func .START c =
      match one_char_symbols.lookup c with
      | some t => some t
      | none =>
        if isalpha c then some .ID
        else if isdigit c then some .NUM
        else if c = '\'' then some .CHARLITERALNF
        else if c = '\"' then some .STRLITERALNF
        else none := by
  cases h : one_char_symbols.lookup c with
  | some t => simp [transition_func, h]
  | none =>
    by_cases ha : isalpha c = true
    · simp [transition_func, h, ha]
    · by_cases hd : isdigit c = true
      · simp [transition_func, h, ha, hd]
      · by_cases h1 : c = '\''
        · subst h1; rfl
        · by_cases h2 : c = '\"'
          · subst h2; rfl
          · simp [transition_func, h, ha, hd, h1, h2]

/-- Every transition out of `START` is of one of five sorts. -/
theorem tf_start_some (c : Char) (t : Terminal) (h : transition_func .START c = some t) :
    (c, t) ∈ one_char_symbols ∨ (isalpha c = true ∧ t = .ID) ∨
    (isdigit c = true ∧ c ≠ '0' ∧ t = .NUM) ∨ (c = '\'' ∧ t = .CHARLITERALNF) ∨
    (c = '\"' ∧ t = .STRLITERALNF) := by
  rw [tf_start] at h
  split at h
  · rename_i t1 ht
    cases h
    exact Or.inl (lookup_mem _ _ _ ht)
  · rename_i hl
    split at h
    · rename_i ha
      cases h
      exact Or.inr (Or.inl ⟨ha, rfl⟩)
    · split at h
      · rename_i hd
        cases h
        refine Or.inr (Or.inr (Or.inl ⟨hd, ?_, rfl⟩))
        rintro rfl
        exact absurd hl (by decide)
      · split at h
        · rename_i hq
          cases h
          exact Or.inr (Or.inr (Or.inr (Or.inl ⟨hq, rfl⟩)))
        · split at h
          · rename_i hq
            cases h
            exact Or.inr (Or.inr (Or.inr (Or.inr ⟨hq, rfl⟩)))
          · cases h

/-- No key of `one_char_symbols` is a letter. -/
theorem not_key_of_alpha (c : Char) (h : isalpha c = true) :
    c ∉ one_char_symbols.map Prod.fst := by
  intro hk
  simp only [one_char_symbols, List.map_cons, List.map_nil, List.mem_cons, List.not_mem_nil,
    or_false] at hk
  rcases hk with rfl | rfl | rfl | rfl | rfl | rfl | rfl | rfl | rfl | rfl | rfl | rfl |
    rfl | rfl | rfl | rfl | rfl | rfl | rfl | rfl | rfl | rfl | rfl
  all_goals exact absurd h (by decide)

/-- The only digit among the keys of `one_char_symbols` is `0`. -/
theorem not_key_of_digit (c : Char) (h : isdigit c = true) (h0 : c ≠ '0') :
    c ∉ one_char_symbols.map Prod.fst := by
  intro hk
  simp only [one_char_symbols, List.map_cons, List.map_nil, List.mem_cons, List.not_mem_nil,
    or_false] at hk
  rcases hk with rfl | rfl | rfl | rfl | rfl | rfl | rfl | rfl | rfl | rfl | rfl | rfl |
    rfl | rfl | rfl | rfl | rfl | rfl | rfl | rfl | rfl | rfl | rfl
  all_goals first
    | exact h0 rfl
    | exact absurd h (by decide)

/-- A digit is not a letter. -/
theorem not_alpha_of_digit (c : Char) (h : isdigit c = true) : isalpha c = false := by
  simp only [isdigit, Bool.and_eq_true, decide_eq_true_eq] at h
  simp only [isalpha, Bool.or_eq_false_iff, Bool.and_eq_false_iff, decide_eq_false_iff_not]
  omega

/-- Where the state `ID` is entered. -/
theorem tf_eq_ID (st : Terminal) (c : Char) :
    transition_func st c = some .ID ↔
      (st = .START ∧ isalpha c = true) ∨
      (st = .ID ∧ (isalpha c = true ∨ isdigit c = true ∨ c = '_')) := by
  cases st
  case START =>
    constructor
    · intro h
      rcases tf_start_some c _ h with hm | ⟨ha, -⟩ | ⟨-, -, h⟩ | ⟨-, h⟩ | ⟨-, h⟩
      · simp [one_char_symbols] at hm
      · exact Or.inl ⟨rfl, ha⟩
      all_goals cases h
    · rintro (⟨-, ha⟩ | ⟨h, -⟩)
      · rw [tf_start, lookup_none_of_keys c (not_key_of_alpha c ha)]
        simp [ha]
      · cases h
  case ID =>
    by_cases h : isalpha c = true ∨ isdigit c = true ∨ c = '_'
    · simp [transition_func, h]
    · simp [transition_func, h]
  case STRLITERALNF => simp [transition_func]; split <;> simp
  case CHARLITERALNF => simp [transition_func]; split <;> simp
  all_goals simp [transition_func]

/-- Where the state `NUM` is entered. -/
theorem tf_eq_NUM (st : Terminal) (c : Char) :
    transition_func st c = some .NUM ↔
      (st = .START ∧ (isdigit c = true ∧ c ≠ '0')) ∨ (st = .NUM ∧ isdigit c = true) := by
  cases st
  case START =>
    constructor
    · intro h
      rcases tf_start_some c _ h with hm | ⟨-, h⟩ | ⟨hd, h0, -⟩ | ⟨-, h⟩ | ⟨-, h⟩
      · simp [one_char_symbols] at hm
      · cases h
      · exact Or.inl ⟨rfl, hd, h0⟩
      all_goals cases h
    · rintro (⟨-, hd, h0⟩ | ⟨h, -⟩)
      · rw [tf_start, lookup_none_of_keys c (not_key_of_digit c hd h0)]
        simp [hd, not_alpha_of_digit c hd]
      · cases h
  case NUM =>
    by_cases h : isdigit c = true
    · simp [transition_func, h]
    · simp [transition_func, h]
  case STRLITERALNF => simp [transition_func]; split <;> simp
  case CHARLITERALNF => simp [transition_func]; split <;> simp
  all_goals simp [transition_func]

/-- Where the state `ZERO` is entered. -/
theorem tf_eq_ZERO (st : Terminal) (c : Char) :
    transition_func st c = some .ZERO ↔ st = .START ∧ c = '0' := by
  cases st
  case START =>
    constructor
    · intro h
      rcases tf_start_some c _ h with hm | ⟨-, h⟩ | ⟨-, -, h⟩ | ⟨-, h⟩ | ⟨-, h⟩
      · simp [one_char_symbols] at hm
        exact ⟨rfl, hm⟩
      all_goals cases h
    · rintro ⟨-, rfl⟩
      rfl
  case STRLITERALNF => simp [transition_func]; split <;> simp
  case CHARLITERALNF => simp [transition_func]; split <;> simp
  all_goals simp [transition_func]

/-- The state `START` is never entered. -/
theorem tf_ne_START (st : Terminal) (c : Char) : transition_func st c ≠ some .START := by
  cases st
  case START =>
    intro h
    rcases tf_start_some c _ h with hm | ⟨-, h⟩ | ⟨-, -, h⟩ | ⟨-, h⟩ | ⟨-, h⟩
    · simp [one_char_symbols] at hm
    all_goals cases h
  case STRLITERALNF => simp [transition_func]; split <;> simp
  case CHARLITERALNF => simp [transition_func]; split <;> simp
  all_goals simp [transition_func]

/-- Where the state `CHARLITERALNF` is entered. -/
theorem tf_eq_CHARLITERALNF (st : Terminal) (c : Char) :
    transition_func st c = some .CHARLITERALNF ↔
      (st = .START ∧ c = '\'') ∨ (st = .CHARLITERALNF ∧ c ≠ '\'') := by
  cases st
  case START =>
    constructor
    · intro h
      rcases tf_start_some c _ h with hm | ⟨-, h⟩ | ⟨-, -, h⟩ | ⟨hq, -⟩ | ⟨-, h⟩
      · simp [one_char_symbols] at hm
      · cases h
      · cases h
      · exact Or.inl ⟨rfl, hq⟩
      · cases h
    · rintro (⟨-, rfl⟩ | ⟨h, -⟩)
      · rfl
      · cases h
  case STRLITERALNF => simp [transition_func]; split <;> simp
  case CHARLITERALNF =>
    by_cases h : c = '\''
    · simp [transition_func, h]
    · simp [transition_func, h]
  all_goals simp [transition_func]

/-- Where the state `STRLITERALNF` is entered. -/
theorem tf_eq_STRLITERALNF (st : Terminal) (c : Char) :
    transition_func st c = some .STRLITERALNF ↔
      (st = .START ∧ c = '\"') ∨ (st = .STRLITERALNF ∧ c ≠ '\"') := by
  cases st
  case START =>
    constructor
    · intro h
      rcases tf_start_some c _ h with hm | ⟨-, h⟩ | ⟨-, -, h⟩ | ⟨-, h⟩ | ⟨hq, -⟩
      · simp [one_char_symbols] at hm
      · cases h
      · cases h
      · cases h
      · exact Or.inl ⟨rfl, hq⟩
    · rintro (⟨-, rfl⟩ | ⟨h, -⟩)
      · rfl
      · cases h
  case CHARLITERALNF => simp [transition_func]; split <;> simp
  case STRLITERALNF =>
    by_cases h : c = '\"'
    · simp [transition_func, h]
    · simp [transition_func, h]
  all_goals simp [transition_func]

/-- Where the state `CHARLITERAL` is entered. -/
theorem tf_eq_CHARLITERAL (st : Terminal) (c : Char) :
    transition_func st c = some .CHARLITERAL ↔ st = .CHARLITERALNF ∧ c = '\'' := by
  cases st
  case START =>
    constructor
    · intro h
      rcases tf_start_some c _ h with hm | ⟨-, h⟩ | ⟨-, -, h⟩ | ⟨-, h⟩ | ⟨-, h⟩
      · simp [one_char_symbols] at hm
      all_goals cases h
    · rintro ⟨h, -⟩
      cases h
  case STRLITERALNF => simp [transition_func]; split <;> simp
  case CHARLITERALNF =>
    by_cases h : c = '\''
    · simp [transition_func, h]
    · simp [transition_func, h]
  all_goals simp [transition_func]

/-- Where the state `STRLITERAL` is entered. -/
theorem tf_eq_STRLITERAL (st : Terminal) (c : Char) :
    transition_func st c = some .STRLITERAL ↔ st = .STRLITERALNF ∧ c = '\"' := by
  cases st
  case START =>
    constructor
    · intro h
      rcases tf_start_some c _ h with hm | ⟨-, h⟩ | ⟨-, -, h⟩ | ⟨-, h⟩ | ⟨-, h⟩
      · simp [one_char_symbols] at hm
      all_goals cases h
    · rintro ⟨h, -⟩
      cases h
  case CHARLITERALNF => simp [transition_func]; split <;> simp
  case STRLITERALNF =>
    by_cases h : c = '\"'
    · simp [transition_func, h]
    · simp [transition_func, h]
  all_goals simp [transition_func]

/-! ## Runs of the DFA -/

/-- A list is empty or ends with a last element. -/
theorem nil_or_snoc (w : List Char) : w = [] ∨ ∃ w1 c1, w = w1 ++ [c1] := by
  rcases List.eq_nil_or_concat w with h | ⟨w1, c1, h⟩
  · exact Or.inl h
  · exact Or.inr ⟨w1, c1, by rw [h, List.concat_eq_append]⟩

/-- A run over `w` followed by one more character. -/
theorem run_snoc (w : List Char) (c : Char) : ∀ st : Terminal,
    run st (w ++ [c]) = (run st w).bind (fun s => transition_func s c) := by
  induction w with
  | nil =>
    intro st
    simp only [List.nil_append, run, Option.some_bind]
    cases transition_func st c <;> rfl
  | cons d w ih =>
    intro st
    simp only [List.cons_append, run]
    cases transition_func st d with
    | none => rfl
    | some s => exact ih s

/-- A run from `START` is back in `START` only when nothing was read. -/
theorem run_start_eq_START (w : List Char) : run .START w = some .START ↔ w = [] := by
  induction w using List.reverseRecOn with
  | nil => simp [run]
  | append_singleton w c _ =>
    rw [run_snoc]
    constructor
    · intro h
      cases hr : run .START w with
      | none => rw [hr] at h; cases h
      | some s =>
        rw [hr] at h
        exact absurd h (tf_ne_START s c)
    · intro h
      simp at h

/-- Runs into a state `T` that is entered from `START` on a character satisfying
`A` and kept on the characters satisfying `B`, and entered in no other way. -/
theorem run_start_loop (T : Terminal) (A B : Char → Prop) (hT : T ≠ .START)
    (htf : ∀ st c, transition_func st c = some T ↔ (st = .START ∧ A c) ∨ (st = T ∧ B c))
    (w : List Char) :
    run .START w = some T ↔ ∃ c rest, w = c :: rest ∧ A c ∧ ∀ d ∈ rest, B d := by
  induction w using List.reverseRecOn with
  | nil =>
    simp only [run, Option.some.injEq]
    constructor
    · intro h
      exact absurd h.symm hT
    · rintro ⟨c, rest, h, -⟩
      cases h
  | append_singleton w c ih =>
    rw [run_snoc]
    constructor
    · intro h
      cases hr : run .START w with
      | none => rw [hr] at h; cases h
      | some s =>
        rw [hr] at h
        rcases (htf s c).1 h with ⟨rfl, hA⟩ | ⟨rfl, hB⟩
        · have hw := (run_start_eq_START w).1 hr
          subst hw
          exact ⟨c, [], rfl, hA, by simp⟩
        · obtain ⟨c0, rest, rfl, hA, hrest⟩ := ih.1 hr
          refine ⟨c0, rest ++ [c], rfl, hA, ?_⟩
          intro d hd
          rcases List.mem_append.1 hd with hd | hd
          · exact hrest d hd
          · rw [List.mem_singleton.1 hd]
            exact hB
    · rintro ⟨c0, rest, hw, hA, hrest⟩
      rcases nil_or_snoc w with rfl | ⟨w1, c1, rfl⟩
      · simp only [List.nil_append, List.cons.injEq] at hw
        obtain ⟨rfl, -⟩ := hw
        simp only [run, Option.some_bind]
        exact (htf _ _).2 (Or.inl ⟨rfl, hA⟩)
      · rcases nil_or_snoc rest with rfl | ⟨rest1, c2, rfl⟩
        · have := congrArg List.length hw
          simp at this
        · have hw1 : (w1 ++ [c1]) ++ [c] = (c0 :: rest1) ++ [c2] := by simpa using hw
          obtain ⟨h1, h2⟩ := List.append_inj' hw1 rfl
          have h3 : c = c2 := by simpa using h2
          subst h3
          have hrun : run .START (w1 ++ [c1]) = some T :=
            ih.2 ⟨c0, rest1, h1, hA, fun d hd => hrest d (List.mem_append.2 (Or.inl hd))⟩
          rw [hrun]
          simp only [Option.some_bind]
          exact (htf _ _).2 (Or.inr ⟨rfl, hrest c (by simp)⟩)

/-- Runs into a state `L` that is entered only from `T`, on the character `q`. -/
theorem run_start_close (T L : Terminal) (q : Char) (P : List Char → Prop)
    (hrunT : ∀ w, run .START w = some T ↔ P w)
    (htf : ∀ st c, transition_func st c = some L ↔ st = T ∧ c = q)
    (hL : L ≠ .START) (w : List Char) :
    run .START w = some L ↔ ∃ u, w = u ++ [q] ∧ P u := by
  rcases nil_or_snoc w with rfl | ⟨w1, c1, rfl⟩
  · simp only [run, Option.some.injEq]
    constructor
    · intro h
      exact absurd h.symm hL
    · rintro ⟨u, h, -⟩
      have := congrArg List.length h
      simp at this
  · rw [run_snoc]
    constructor
    · intro h
      cases hr : run .START w1 with
      | none => rw [hr] at h; cases h
      | some s =>
        rw [hr] at h
        obtain ⟨rfl, rfl⟩ := (htf s c1).1 h
        exact ⟨w1, rfl, (hrunT w1).1 hr⟩
    · rintro ⟨u, hu, hP⟩
      obtain ⟨h1, h2⟩ := List.append_inj' hu rfl
      have h3 : c1 = q := by simpa using h2
      subst h1 h3
      rw [(hrunT w1).2 hP]
      exact (htf _ _).2 ⟨rfl, rfl⟩

/-! ## Literals, identifiers, numbers, comments, two-character symbols -/

/-- C6: for the single quote (states CHARLITERALNF, CHARLITERAL) and the double quote
(states STRLITERALNF, STRLITERAL): the run from START over `w` ends in the finished
state iff `w` is the quote, any text `u` without that quote, the quote; it ends
in the unfinished state iff `w` is the quote followed by a text `u` without it;
the finished states have no outgoing transition; the unfinished states are not
accepting, so a text that ends inside an unterminated literal ends in a state that
is not accepting. -/
theorem C6_quoted_literal_runs :
    (∀ w, run .START w = some .CHARLITERAL ↔ ∃ u, w = '\'' :: u ++ ['\''] ∧ '\'' ∉ u) ∧
    (∀ w, run .START w = some .CHARLITERALNF ↔ ∃ u, w = '\'' :: u ∧ '\'' ∉ u) ∧
    (∀ w, run .START w = some .STRLITERAL ↔ ∃ u, w = '\"' :: u ++ ['\"'] ∧ '\"' ∉ u) ∧
    (∀ w, run .START w = some .STRLITERALNF ↔ ∃ u, w = '\"' :: u ∧ '\"' ∉ u) ∧
    (∀ c, transition_func .CHARLITERAL c = none) ∧
    (∀ c, transition_func .STRLITERAL c = none) ∧
    Terminal.CHARLITERALNF ∉ make_dfa.accepting ∧
    Terminal.STRLITERALNF ∉ make_dfa.accepting ∧
    (∀ u, '\'' ∉ u → ∃ s, run .START ('\'' :: u) = some s ∧ s ∉ make_dfa.accepting) ∧
    (∀ u, '\"' ∉ u → ∃ s, run .START ('\"' :: u) = some s ∧ s ∉ make_dfa.accepting) := by
  have hcnf : ∀ w, run .START w = some .CHARLITERALNF ↔ ∃ u, w = '\'' :: u ∧ '\'' ∉ u := by
    intro w
    rw [run_start_loop .CHARLITERALNF (fun c => c = '\'') (fun c => c ≠ '\'') (by decide)
      tf_eq_CHARLITERALNF w]
    constructor
    · rintro ⟨c, rest, rfl, rfl, h⟩
      exact ⟨rest, rfl, fun hm => h _ hm rfl⟩
    · rintro ⟨u, rfl, h⟩
      exact ⟨_, u, rfl, rfl, fun d hd hq => h (hq ▸ hd)⟩
  have hsnf : ∀ w, run .START w = some .STRLITERALNF ↔ ∃ u, w = '\"' :: u ∧ '\"' ∉ u := by
    intro w
    rw [run_start_loop .STRLITERALNF (fun c => c = '\"') (fun c => c ≠ '\"') (by decide)
      tf_eq_STRLITERALNF w]
    constructor
    · rintro ⟨c, rest, rfl, rfl, h⟩
      exact ⟨rest, rfl, fun hm => h _ hm rfl⟩
    · rintro ⟨u, rfl, h⟩
      exact ⟨_, u, rfl, rfl, fun d hd hq => h (hq ▸ hd)⟩
  refine ⟨?_, hcnf, ?_, hsnf, ?_, ?_, by decide, by decide, ?_, ?_⟩
  · intro w
    rw [run_start_close .CHARLITERALNF .CHARLITERAL '\'' _ hcnf tf_eq_CHARLITERAL (by decide) w]
    constructor
    · rintro ⟨u, rfl, v, rfl, h⟩
      exact ⟨v, by simp, h⟩
    · rintro ⟨u, rfl, h⟩
      exact ⟨'\'' :: u, by simp, u, rfl, h⟩
  · intro w
    rw [run_start_close .STRLITERALNF .STRLITERAL '\"' _ hsnf tf_eq_STRLITERAL (by decide) w]
    constructor
    · rintro ⟨u, rfl, v, rfl, h⟩
      exact ⟨v, by simp, h⟩
    · rintro ⟨u, rfl, h⟩
      exact ⟨'\"' :: u, by simp, u, rfl, h⟩
  · intro c
    simp [transition_func]
  · intro c
    simp [transition_func]
  · intro u hu
    exact ⟨.CHARLITERALNF, (hcnf _).2 ⟨u, rfl, hu⟩, by decide⟩
  · intro u hu
    exact ⟨.STRLITERALNF, (hsnf _).2 ⟨u, rfl, hu⟩, by decide⟩

/-- Witness of C6: the unterminated literals `'a` and `"a` followed by a line feed. -/
theorem C6_quoted_literal_runs_witness :
    ('\'' ∉ ['a', '\n'] ∧
      ∃ s, run .START ('\'' :: ['a', '\n']) = some s ∧ s ∉ make_dfa.accepting) ∧
    ('\"' ∉ ['a', '\n'] ∧
      ∃ s, run .START ('\"' :: ['a', '\n']) = some s ∧ s ∉ make_dfa.accepting) :=
  ⟨⟨by decide, C6_quoted_literal_runs.2.2.2.2.2.2.2.2.1 ['a', '\n'] (by decide)⟩,
   ⟨by decide, C6_quoted_literal_runs.2.2.2.2.2.2.2.2.2 ['a', '\n'] (by decide)⟩⟩

/-- Under the maximal munch, a text that stays inside an unterminated literal of
either sort up to the end of the input is a lexical error. -/
theorem munch_unterminated_literal (u : List Char) :
    ('\'' ∉ u → maximal_munch_scan (String.mk ('\'' :: u)) make_dfa = none) ∧
    ('\"' ∉ u → maximal_munch_scan (String.mk ('\"' :: u)) make_dfa = none) := by
  have hc : ∀ (v consumed : List Char), '\'' ∉ v → consumed ≠ [] →
      munch make_dfa .CHARLITERALNF consumed v = none := by
    intro v
    induction v with
    | nil =>
      intro consumed _ hne
      have hna : Terminal.CHARLITERALNF ∉ make_dfa.accepting := by decide
      simp [munch, hne, hna]
    | cons c v ih =>
      intro consumed hq _
      have hcq : c ≠ '\'' := fun e => hq (e ▸ List.mem_cons_self _ _)
      have htf : make_dfa.transition .CHARLITERALNF c = some .CHARLITERALNF :=
        (tf_eq_CHARLITERALNF _ _).2 (Or.inr ⟨rfl, hcq⟩)
      simp only [munch, htf]
      exact ih _ (fun hm => hq (List.mem_cons_of_mem _ hm)) (by simp)
  have hs : ∀ (v consumed : List Char), '\"' ∉ v → consumed ≠ [] →
      munch make_dfa .STRLITERALNF consumed v = none := by
    intro v
    induction v with
    | nil =>
      intro consumed _ hne
      have hna : Terminal.STRLITERALNF ∉ make_dfa.accepting := by decide
      simp [munch, hne, hna]
    | cons c v ih =>
      intro consumed hq _
      have hcq : c ≠ '\"' := fun e => hq (e ▸ List.mem_cons_self _ _)
      have htf : make_dfa.transition .STRLITERALNF c = some .STRLITERALNF :=
        (tf_eq_STRLITERALNF _ _).2 (Or.inr ⟨rfl, hcq⟩)
      simp only [munch, htf]
      exact ih _ (fun hm => hq (List.mem_cons_of_mem _ hm)) (by simp)
  constructor
  · intro hq
    have h0 : make_dfa.transition make_dfa.init_state '\'' = some .CHARLITERALNF := rfl
    simp only [maximal_munch_scan, String.toList, munch, h0, List.nil_append]
    exact hc u _ hq (by simp)
  · intro hq
    have h0 : make_dfa.transition make_dfa.init_state '\"' = some .STRLITERALNF := rfl
    simp only [maximal_munch_scan, String.toList, munch, h0, List.nil_append]
    exact hs u _ hq (by simp)

/-- C7: the run from START over `w` ends in ID iff `w` starts with an ASCII letter and
every later character is an ASCII letter, a decimal digit or the underscore;
`transition_func(START, c)` is ID iff `c` is a letter; `transition_func(ID, c)`
is defined iff `c` is a letter, a digit or the underscore, and is then ID. -/
theorem C7_identifier_runs :
    (∀ w, run .START w = some .ID ↔
      ∃ c rest, w = c :: rest ∧ isalpha c = true ∧
        ∀ d ∈ rest, isalpha d = true ∨ isdigit d = true ∨ d = '_') ∧
    (∀ c, transition_func .START c = some .ID ↔ isalpha c = true) ∧
    (∀ c, (transition_func .ID c).isSome = true ↔
      (isalpha c = true ∨ isdigit c = true ∨ c = '_')) ∧
    (∀ c, transition_func .ID c = some .ID ↔
      (isalpha c = true ∨ isdigit c = true ∨ c = '_')) ∧
    (∀ c, isalpha c = true ↔
      ('A'.toNat ≤ c.toNat ∧ c.toNat ≤ 'Z'.toNat) ∨ ('a'.toNat ≤ c.toNat ∧ c.toNat ≤ 'z'.toNat)) ∧
    (∀ c, isdigit c = true ↔ ('0'.toNat ≤ c.toNat ∧ c.toNat ≤ '9'.toNat)) := by
  refine ⟨?_, ?_, ?_, ?_, ?_, ?_⟩
  · intro w
    exact run_start_loop .ID (fun c => isalpha c = true)
      (fun c => isalpha c = true ∨ isdigit c = true ∨ c = '_') (by decide) tf_eq_ID w
  · intro c
    rw [tf_eq_ID]
    simp
  · intro c
    by_cases h : isalpha c = true ∨ isdigit c = true ∨ c = '_'
    · simp [transition_func, h]
    · simp [transition_func, h]
  · intro c
    rw [tf_eq_ID]
    simp
  · intro c
    have hA : 'A'.toNat = 65 := rfl
    have hZ : 'Z'.toNat = 90 := rfl
    have ha : 'a'.toNat = 97 := rfl
    have hz : 'z'.toNat = 122 := rfl
    rw [hA, hZ, ha, hz]
    simp [isalpha]
  · intro c
    have h0 : '0'.toNat = 48 := rfl
    have h9 : '9'.toNat = 57 := rfl
    rw [h0, h9]
    simp [isdigit]

/-- C8: the run from START over `w` ends in NUM iff `w` is a non-empty string of
decimal digits whose first digit is not `0`; it ends in ZERO iff `w` is `0`;
ZERO has no outgoing transition, so no string that goes on after a leading `0`,
such as `007`, is taken by a run from START. -/
theorem C8_number_runs :
    (∀ w, run .START w = some .NUM ↔
      w ≠ [] ∧ (∀ d ∈ w, isdigit d = true) ∧ w.head? ≠ some '0') ∧
    (∀ w, run .START w = some .ZERO ↔ w = ['0']) ∧
    (∀ c, transition_func .ZERO c = none) ∧
    (∀ d rest, run .START ('0' :: d :: rest) = none) ∧
    run .START "007".toList = none := by
  have hz : ∀ c, transition_func .ZERO c = none := by
    intro c
    simp [transition_func]
  refine ⟨?_, ?_, hz, ?_, by decide⟩
  · intro w
    rw [run_start_loop .NUM (fun c => isdigit c = true ∧ c ≠ '0')
      (fun c => isdigit c = true) (by decide) tf_eq_NUM w]
    constructor
    · rintro ⟨c, rest, rfl, ⟨hd, h0⟩, hrest⟩
      refine ⟨by simp, ?_, by simpa using h0⟩
      intro d hm
      rcases List.mem_cons.1 hm with rfl | hm
      · exact hd
      · exact hrest d hm
    · rintro ⟨hne, hall, hhead⟩
      cases w with
      | nil => exact absurd rfl hne
      | cons c rest =>
        exact ⟨c, rest, rfl, ⟨hall c (by simp), by simpa using hhead⟩,
          fun d hd => hall d (List.mem_cons_of_mem _ hd)⟩
  · intro w
    rcases nil_or_snoc w with rfl | ⟨w1, c1, rfl⟩
    · simp [run]
    · rw [run_snoc]
      constructor
      · intro h
        cases hr : run .START w1 with
        | none => rw [hr] at h; cases h
        | some s =>
          rw [hr] at h
          obtain ⟨rfl, rfl⟩ := (tf_eq_ZERO s c1).1 h
          rw [(run_start_eq_START w1).1 hr]
          rfl
      · intro h
        have hl := congrArg List.length h
        simp only [List.length_append, List.length_singleton, add_left_eq_self,
          List.length_eq_zero] at hl
        subst hl
        simp only [List.nil_append, List.cons.injEq, and_true] at h
        subst h
        rfl
  · intro d rest
    have h0 : transition_func .START '0' = some .ZERO := rfl
    simp only [run, h0, hz]

/-- C9: in `nex_lang.cc`, `transition_func(COMMENT, c)` is COMMENT when `c` is
neither line feed nor carriage return and is undefined when `c` is one of them;
so a run that is in COMMENT stays defined exactly as long as no such character is
read, and a `//` comment never extends across the end of its line. -/
theorem C9_comment_stops_at_line_end :
    (∀ c, transition_func .COMMENT c =
      if c = '\n' ∨ c = '\r' then none else some .COMMENT) ∧
    transition_func .COMMENT '\n' = none ∧
    transition_func .COMMENT '\r' = none ∧
    (∀ w, run .COMMENT w = if '\n' ∈ w ∨ '\r' ∈ w then none else some .COMMENT) ∧
    (∀ w, run .START ('/' :: '/' :: w) =
      if '\n' ∈ w ∨ '\r' ∈ w then none else some .COMMENT) := by
  have htf : ∀ c, transition_func .COMMENT c =
      if c = '\n' ∨ c = '\r' then none else some .COMMENT := by
    intro c
    by_cases h1 : c = '\n'
    · subst h1; rfl
    · by_cases h2 : c = '\r'
      · subst h2; rfl
      · simp [transition_func, h1, h2]
  have hrun : ∀ w, run .COMMENT w =
      if '\n' ∈ w ∨ '\r' ∈ w then none else some .COMMENT := by
    intro w
    induction w with
    | nil => simp [run]
    | cons c rest ih =>
      simp only [run, htf]
      by_cases h : c = '\n' ∨ c = '\r'
      · have hm : '\n' ∈ c :: rest ∨ '\r' ∈ c :: rest := by
          rcases h with rfl | rfl
          · exact Or.inl (by simp)
          · exact Or.inr (by simp)
        simp only [h, hm, if_true]
      · simp only [h, if_false, ih]
        have h1 : ¬ '\n' = c := fun e => h (Or.inl e.symm)
        have h2 : ¬ '\r' = c := fun e => h (Or.inr e.symm)
        simp only [List.mem_cons, h1, h2, false_or]
  refine ⟨htf, rfl, rfl, hrun, ?_⟩
  intro w
  have h1 : transition_func .START '/' = some .SLASH := rfl
  have h2 : transition_func .SLASH '/' = some .COMMENT := rfl
  simp only [run, h1, h2]
  exact hrun w

/-- C10: for every entry `c1 c2 -> T` of `two_char_symbols`, `transition_func(START, c1)`
is the state `S` that `one_char_symbols` gives for `c1`, `transition_func(S, c2)` is
`T`, and `T` is in the accepting set of `make_dfa`. -/
theorem C10_two_char_symbols_agree (e : String × Terminal) (he : e ∈ two_char_symbols) :
    ∃ c1 c2 S, e.1.toList = [c1, c2] ∧
      one_char_symbols.lookup c1 = some S ∧
      transition_func .START c1 = some S ∧
      transition_func S c2 = some e.2 ∧
      e.2 ∈ make_dfa.accepting := by
  simp only [two_char_symbols, List.mem_cons, List.not_mem_nil, or_false] at he
  rcases he with rfl | rfl | rfl | rfl | rfl | rfl | rfl | rfl
  · exact ⟨'=', '=', .ASSIGN, rfl, rfl, rfl, rfl, by decide⟩
  · exact ⟨'!', '=', .NOT, rfl, rfl, rfl, rfl, by decide⟩
  · exact ⟨'<', '=', .LT, rfl, rfl, rfl, rfl, by decide⟩
  · exact ⟨'>', '=', .GT, rfl, rfl, rfl, rfl, by decide⟩
  · exact ⟨'|', '|', .PIPE, rfl, rfl, rfl, rfl, by decide⟩
  · exact ⟨'&', '&', .AMPERSAND, rfl, rfl, rfl, rfl, by decide⟩
  · exact ⟨'-', '>', .MINUS, rfl, rfl, rfl, rfl, by decide⟩
  · exact ⟨'/', '/', .SLASH, rfl, rfl, rfl, rfl, by decide⟩

/-- Witness of C10: the entry `->` of `two_char_symbols`. -/
theorem C10_two_char_symbols_agree_witness :
    (("->", Terminal.ARROW) ∈ two_char_symbols) ∧
    ∃ c1 c2 S, ("->", Terminal.ARROW).1.toList = [c1, c2] ∧
      one_char_symbols.lookup c1 = some S ∧
      transition_func .START c1 = some S ∧
      transition_func S c2 = some ("->", Terminal.ARROW).2 ∧
      ("->", Terminal.ARROW).2 ∈ make_dfa.accepting :=
  ⟨by decide, C10_two_char_symbols_agree ("->", Terminal.ARROW) (by decide)⟩

/-! ## The DFA record and the grammar record -/

/-- C17: in the DFA returned by `make_dfa` the initial state is START, START is a
member of `valid_states`, START is not a member of the accepting set, and the
accepting set is a subset of `valid_states`. -/
theorem C17_dfa_start_state :
    make_dfa.init_state = .START ∧
    Terminal.START ∈ make_dfa.valid_states ∧
    Terminal.START ∉ make_dfa.accepting ∧
    (∀ t : Terminal, t ∈ make_dfa.accepting → t ∈ make_dfa.valid_states) := by
  refine ⟨rfl, by decide, by decide, ?_⟩
  intro t ht
  exact List.mem_cons_of_mem _ ht

/-- Witness of C17: the accepting state ID is a valid state. -/
theorem C17_dfa_start_state_witness :
    Terminal.ID ∈ make_dfa.accepting ∧ Terminal.ID ∈ make_dfa.valid_states :=
  ⟨by decide, C17_dfa_start_state.2.2.2 .ID (by decide)⟩

/-- C18: the grammar returned by `make_grammar` is well-formed: the keys of its
productions map are exactly its `non_terminals` set, 21 distinct non-terminals
each with at least one production; every production stored under a key has this
key as its lhs; every symbol of every right side is a member of `terminals` or
of `non_terminals`. -/
theorem C18_grammar_well_formed :
    (∀ A : NonTerminal,
      A ∈ make_grammar.productions.map Prod.fst ↔ A ∈ make_grammar.non_terminals) ∧
    (make_grammar.productions.map Prod.fst).Nodup ∧
    make_grammar.non_terminals.Nodup ∧
    make_grammar.non_terminals.length = 21 ∧
    (∀ A ∈ make_grammar.non_terminals, make_grammar.productions_of A ≠ []) ∧
    (∀ e ∈ make_grammar.productions, ∀ p ∈ e.2, p.lhs = e.1) ∧
    (∀ e ∈ make_grammar.productions, ∀ p ∈ e.2, ∀ x ∈ p.rhs,
      make_grammar.has_symbol x = true) := by
  refine ⟨?_, by decide, by decide, by decide, by decide, by decide, by decide⟩
  intro A
  cases A <;> decide

/-- Witness of C18: the productions stored under the key `optargs`. -/
theorem C18_grammar_well_formed_witness :
    ((NonTerminal.optargs, [⟨.optargs, [N .args]⟩, ⟨.optargs, []⟩])
        ∈ make_grammar.productions) ∧
    (∀ p ∈ [(⟨.optargs, [N .args]⟩ : Production), ⟨.optargs, []⟩], p.lhs = .optargs) ∧
    make_grammar.productions_of .optargs ≠ [] :=
  ⟨by decide,
   C18_grammar_well_formed.2.2.2.2.2.1 (.optargs, [⟨.optargs, [N .args]⟩, ⟨.optargs, []⟩])
     (by decide),
   C18_grammar_well_formed.2.2.2.2.1 .optargs (by decide)⟩

/-! ## Derivation trees -/

/-- A forest without roots is empty. -/
theorem roots_eq_nil (f : ParseForest) : f.roots = [] ↔ f = .nil := by
  cases f <;> simp [ParseForest.roots]

/-- A forest whose first root is a terminal starts with a leaf. -/
theorem roots_eq_cons_terminal (f : ParseForest) (t : Terminal) (xs : List State) :
    f.roots = State.terminal t :: xs ↔ ∃ rest, f = .leaf t rest ∧ rest.roots = xs := by
  cases f with
  | nil => simp [ParseForest.roots]
  | leaf t1 rest =>
    simp only [ParseForest.roots, List.cons.injEq, State.terminal.injEq,
      ParseForest.leaf.injEq]
    constructor
    · rintro ⟨rfl, h⟩
      exact ⟨rest, ⟨rfl, rfl⟩, h⟩
    · rintro ⟨r, ⟨rfl, rfl⟩, h⟩
      exact ⟨rfl, h⟩
  | node A ch rest => simp [ParseForest.roots]

/-- A forest whose first root is a non-terminal starts with an internal node. -/
theorem roots_eq_cons_non_terminal (f : ParseForest) (A : NonTerminal) (xs : List State) :
    f.roots = State.non_terminal A :: xs ↔
      ∃ ch rest, f = .node A ch rest ∧ rest.roots = xs := by
  cases f with
  | nil => simp [ParseForest.roots]
  | leaf t1 rest => simp [ParseForest.roots]
  | node A1 ch rest =>
    simp only [ParseForest.roots, List.cons.injEq, State.non_terminal.injEq,
      ParseForest.node.injEq]
    constructor
    · rintro ⟨rfl, h⟩
      exact ⟨ch, rest, ⟨rfl, rfl, rfl⟩, h⟩
    · rintro ⟨c, r, ⟨rfl, rfl, rfl⟩, h⟩
      exact ⟨rfl, h⟩

/-- Validity of an internal node, spelled out. -/
theorem valid_node (g : Grammar) (A : NonTerminal) (ch rest : ParseForest) :
    (ParseForest.node A ch rest).valid g = true ↔
      (⟨A, ch.roots⟩ : Production) ∈ g.productions_of A ∧
        ch.valid g = true ∧ rest.valid g = true := by
  simp [ParseForest.valid, and_assoc]

/-- A terminal among the roots of a forest is in its yield. -/
theorem terminal_root_mem_yield (t : Terminal) :
    ∀ f : ParseForest, State.terminal t ∈ f.roots → t ∈ f.yield := by
  intro f
  induction f with
  | nil => simp [ParseForest.roots]
  | leaf t1 rest ih =>
    simp only [ParseForest.roots, ParseForest.yield, List.mem_cons, State.terminal.injEq]
    rintro (h | h)
    · exact Or.inl h
    · exact Or.inr (ih h)
  | node A ch rest _ ih =>
    simp only [ParseForest.roots, ParseForest.yield, List.mem_cons, List.mem_append]
    rintro (h | h)
    · cases h
    · exact Or.inr (ih h)

/-- Yields stay inside a set `S` of symbols that is closed under the productions:
if every production of a non-terminal of `S` either has all its right-side
symbols in `S` or holds a terminal of the blocking list `B`, then a valid forest
with roots in `S` whose yield avoids `B` has its whole yield in `S`. -/
theorem yield_in_closed_set (g : Grammar) (S : State → Bool) (B : List Terminal)
    (hclosed : ∀ A : NonTerminal, S (.non_terminal A) = true →
      ∀ p ∈ g.productions_of A,
        (∃ b ∈ B, State.terminal b ∈ p.rhs) ∨ ∀ x ∈ p.rhs, S x = true) :
    ∀ f : ParseForest, f.valid g = true → (∀ x ∈ f.roots, S x = true) →
      (∀ t ∈ f.yield, t ∉ B) → ∀ t ∈ f.yield, S (.terminal t) = true := by
  intro f
  induction f with
  | nil =>
    intro _ _ _ t ht
    simp [ParseForest.yield] at ht
  | leaf t1 rest ih =>
    intro hv hr hb t ht
    simp only [ParseForest.yield, List.mem_cons] at ht
    rcases ht with rfl | ht
    · exact hr _ (by simp [ParseForest.roots])
    · refine ih hv (fun x hx => hr x ?_) (fun u hu => hb u ?_) t ht
      · simp [ParseForest.roots, hx]
      · simp [ParseForest.yield, hu]
  | node A ch rest ihc ihr =>
    intro hv hr hb t ht
    obtain ⟨hp, hvc, hvr⟩ := (valid_node g A ch rest).1 hv
    simp only [ParseForest.yield, List.mem_append] at ht
    rcases ht with ht | ht
    · have hA : S (.non_terminal A) = true := hr _ (by simp [ParseForest.roots])
      have hbc : ∀ u ∈ ch.yield, u ∉ B :=
        fun u hu => hb u (by simp [ParseForest.yield, hu])
      rcases hclosed A hA _ hp with ⟨b, hb1, hb2⟩ | hall
      · exact absurd hb1 (hbc b (terminal_root_mem_yield b ch hb2))
      · exact ihc hvc hall hbc t ht
    · refine ihr hvr (fun x hx => hr x ?_) (fun u hu => hb u ?_) t ht
      · simp [ParseForest.roots, hx]
      · simp [ParseForest.yield, hu]

/-- C11: the start symbol `s` has the single production `s -> BOFS fns EOFS`; BOFS,
EOFS and `s` occur on the right side of no other production; so every token-kind
sequence derivable from `s` is BOFS, then a sequence `w` derivable from `fns`
that contains neither BOFS nor EOFS, then EOFS. -/
theorem C11_start_production_brackets :
    make_grammar.start = .s ∧
    make_grammar.productions_of .s = [⟨.s, [T .BOFS, N .fns, T .EOFS]⟩] ∧
    (∀ e ∈ make_grammar.productions, ∀ p ∈ e.2,
      p ≠ ⟨.s, [T .BOFS, N .fns, T .EOFS]⟩ →
        T .BOFS ∉ p.rhs ∧ T .EOFS ∉ p.rhs ∧ N .s ∉ p.rhs) ∧
    (∀ v : List Terminal, derives make_grammar [N make_grammar.start] v →
      ∃ w : List Terminal, v = Terminal.BOFS :: w ++ [Terminal.EOFS] ∧
        derives make_grammar [N .fns] w ∧ Terminal.BOFS ∉ w ∧ Terminal.EOFS ∉ w) := by
  refine ⟨rfl, rfl, by decide, ?_⟩
  rintro v ⟨f, hv, hr, hy⟩
  obtain ⟨ch, rest, rfl, hrest⟩ := (roots_eq_cons_non_terminal f _ _).1 hr
  obtain rfl := (roots_eq_nil rest).1 hrest
  obtain ⟨hp, hvc, -⟩ := (valid_node _ _ _ _).1 hv
  have hs : make_grammar.productions_of .s = [⟨.s, [T .BOFS, N .fns, T .EOFS]⟩] := rfl
  rw [show make_grammar.start = .s from rfl, hs] at hp
  simp only [List.mem_singleton, Production.mk.injEq, true_and] at hp
  obtain ⟨r1, rfl, h1⟩ := (roots_eq_cons_terminal ch _ _).1 hp
  obtain ⟨k, r2, rfl, h2⟩ := (roots_eq_cons_non_terminal r1 _ _).1 h1
  obtain ⟨r3, rfl, h3⟩ := (roots_eq_cons_terminal r2 _ _).1 h2
  obtain rfl := (roots_eq_nil r3).1 h3
  have hvk : k.valid make_grammar = true := by
    simp only [ParseForest.valid, Bool.and_eq_true] at hvc
    exact hvc.1.2
  have hp2 : (⟨.fns, k.roots⟩ : Production) ∈ make_grammar.productions_of .fns := by
    simp only [ParseForest.valid, Bool.and_eq_true, decide_eq_true_eq] at hvc
    exact hvc.1.1
  let S : State → Bool := fun x => decide (x ∉ [T .BOFS, T .EOFS, N .s])
  have hclosed : ∀ A : NonTerminal, S (.non_terminal A) = true →
      ∀ p ∈ make_grammar.productions_of A,
        (∃ b ∈ ([] : List Terminal), State.terminal b ∈ p.rhs) ∨
          ∀ x ∈ p.rhs, S x = true := by
    intro A hA p hp
    right
    revert p
    cases A
    case s => exact absurd hA (by decide)
    all_goals decide
  have hin := yield_in_closed_set make_grammar S [] hclosed
    (.node .fns k .nil) (by simp [ParseForest.valid, hvk, hp2])
    (by simp [ParseForest.roots, S]) (by simp)
  simp only [ParseForest.yield, List.append_nil] at hin
  refine ⟨k.yield, ?_, ⟨.node .fns k .nil, ?_, rfl, ?_⟩, ?_, ?_⟩
  · rw [← hy]
    simp [ParseForest.yield]
  · simp [ParseForest.valid, hvk, hp2]
  · simp [ParseForest.yield]
  · intro hb
    exact absurd (hin _ hb) (by decide)
  · intro hb
    exact absurd (hin _ hb) (by decide)

/-- Witness of C11: the token kinds of the test program. -/
theorem C11_start_production_brackets_witness :
    derives make_grammar [N make_grammar.start] test_program_kinds ∧
    ∃ w : List Terminal, test_program_kinds = Terminal.BOFS :: w ++ [Terminal.EOFS] ∧
      derives make_grammar [N .fns] w ∧ Terminal.BOFS ∉ w ∧ Terminal.EOFS ∉ w :=
  ⟨⟨test_program_tree, by decide, by decide, by decide⟩,
   C11_start_production_brackets.2.2.2 test_program_kinds
     ⟨test_program_tree, by decide, by decide, by decide⟩⟩

/-- One precedence level: a non-terminal `A` whose productions are the unit production
`A -> next` and the left-recursive productions `A -> A op next`.  A node for `A`
whose yield holds none of these operators applies the unit production. -/
theorem unit_production_forced (A next : NonTerminal) (ops : List Terminal)
    (hprods : make_grammar.productions_of A =
      ⟨A, [N next]⟩ :: ops.map (fun op => ⟨A, [N A, T op, N next]⟩))
    (ch : ParseForest) (hv : (ParseForest.node A ch .nil).valid make_grammar = true)
    (hops : ∀ op ∈ ops, op ∉ ch.yield) :
    ∃ k, ch = .node next k .nil ∧ (ParseForest.node next k .nil).valid make_grammar = true ∧
      k.yield = ch.yield := by
  obtain ⟨hp, hvc, -⟩ := (valid_node _ _ _ _).1 hv
  rw [hprods] at hp
  rcases List.mem_cons.1 hp with hp | hp
  · simp only [Production.mk.injEq, true_and] at hp
    obtain ⟨k, r, rfl, hr⟩ := (roots_eq_cons_non_terminal ch _ _).1 hp
    obtain rfl := (roots_eq_nil r).1 hr
    exact ⟨k, rfl, hvc, by simp [ParseForest.yield]⟩
  · obtain ⟨op, hop, hq⟩ := List.mem_map.1 hp
    simp only [Production.mk.injEq, true_and] at hq
    have hmem : op ∈ ch.yield := terminal_root_mem_yield op ch (by rw [← hq]; simp)
    exact absurd hmem (hops op hop)

/-- Below `exprp6` a plus sign only occurs inside parentheses: a valid forest whose
roots are among `exprp6`, `exprp7`, `exprp8`, `exprp9`, `type` and the terminals
other than PLUS, and whose yield has no LPAREN, has no PLUS in its yield. -/
theorem no_plus_below_exprp6 (f : ParseForest) (hv : f.valid make_grammar = true)
    (hr : ∀ x ∈ f.roots,
      x ∈ [N .exprp6, N .exprp7, N .exprp8, N .exprp9, N .type] ∨
        ∃ t, x = T t ∧ t ≠ .PLUS)
    (hl : Terminal.LPAREN ∉ f.yield) : Terminal.PLUS ∉ f.yield := by
  let S : State → Bool := fun x =>
    match x with
    | .terminal t => decide (t ≠ .PLUS)
    | .non_terminal A => decide (A ∈ [NonTerminal.exprp6, .exprp7, .exprp8, .exprp9, .type])
  have hclosed : ∀ A : NonTerminal, S (.non_terminal A) = true →
      ∀ p ∈ make_grammar.productions_of A,
        (∃ b ∈ [Terminal.LPAREN], State.terminal b ∈ p.rhs) ∨ ∀ x ∈ p.rhs, S x = true := by
    intro A hA
    cases A
    case exprp6 => decide
    case exprp7 => decide
    case exprp8 => decide
    case exprp9 => decide
    case type => decide
    all_goals exact absurd hA (by decide)
  have hroots : ∀ x ∈ f.roots, S x = true := by
    intro x hx
    rcases hr x hx with h | ⟨t, rfl, ht⟩
    · simp only [List.mem_cons, List.not_mem_nil, or_false] at h
      rcases h with rfl | rfl | rfl | rfl | rfl <;> rfl
    · simp [S, ht]
  have hin := yield_in_closed_set make_grammar S [.LPAREN] hclosed f hv hroots
    (by
      intro t ht hb
      simp only [List.mem_singleton] at hb
      exact hl (hb ▸ ht))
  intro hp
  exact absurd (hin _ hp) (by decide)

/-- The only way to cut `ID PLUS ID STAR ID` at a plus sign. -/
theorem split_at_plus (u v : List Terminal)
    (h : u ++ Terminal.PLUS :: v = sum_product_kinds) :
    u = [.ID] ∧ v = [.ID, .STAR, .ID] := by
  unfold sum_product_kinds at h
  rcases u with _ | ⟨a, _ | ⟨b, _ | ⟨c, _ | ⟨d, _ | ⟨e, u⟩⟩⟩⟩⟩ <;>
    simp_all

/-- C12: in the grammar of `make_grammar` the sequence ID PLUS ID STAR ID is derivable
from `expr`, and every derivation tree of it goes by unit productions from `expr`
down to an `exprp5` node that applies `exprp5 -> exprp5 PLUS exprp6`, with the
`exprp5` child deriving ID and the `exprp6` child deriving ID STAR ID.  No
`exprp6` tree derives ID PLUS ID or the whole sequence, so no tree reads it as
(ID PLUS ID) STAR ID. -/
theorem C12_product_below_sum :
    derives make_grammar [N .expr] sum_product_kinds ∧
    (∀ f : ParseForest, f.valid make_grammar = true → f.roots = [N .expr] →
      f.yield = sum_product_kinds →
      ∃ l r : ParseForest,
        f = .node .expr
              (ParseForest.chain [.exprp1, .exprp2, .exprp3, .exprp4]
                (.node .exprp5
                  (.node .exprp5 l (.leaf .PLUS (.node .exprp6 r .nil))) .nil))
              .nil ∧
        l.yield = [.ID] ∧ r.yield = [.ID, .STAR, .ID]) ∧
    ¬ derives make_grammar [N .exprp6] [.ID, .PLUS, .ID] ∧
    ¬ derives make_grammar [N .exprp6] sum_product_kinds := by
  refine ⟨⟨sum_product_tree, by decide, by decide, by decide⟩, ?_, ?_, ?_⟩
  · intro f hv hr hy
    obtain ⟨k0, rest, rfl, hrest⟩ := (roots_eq_cons_non_terminal f _ _).1 hr
    obtain rfl := (roots_eq_nil rest).1 hrest
    have hy0 : k0.yield = sum_product_kinds := by
      simpa [ParseForest.yield] using hy
    obtain ⟨k1, rfl, hv1, hy1⟩ := unit_production_forced .expr .exprp1 [] rfl k0 hv
      (by simp)
    rw [hy0] at hy1
    obtain ⟨k2, rfl, hv2, hy2⟩ := unit_production_forced .exprp1 .exprp2 [.OR] rfl k1 hv1
      (by rw [hy1]; decide)
    rw [hy1] at hy2
    obtain ⟨k3, rfl, hv3, hy3⟩ := unit_production_forced .exprp2 .exprp3 [.AND] rfl k2 hv2
      (by rw [hy2]; decide)
    rw [hy2] at hy3
    obtain ⟨k4, rfl, hv4, hy4⟩ := unit_production_forced .exprp3 .exprp4 [.EQ, .NE] rfl
      k3 hv3 (by rw [hy3]; decide)
    rw [hy3] at hy4
    obtain ⟨k5, rfl, hv5, hy5⟩ := unit_production_forced .exprp4 .exprp5
      [.LT, .GT, .LE, .GE] rfl k4 hv4 (by rw [hy4]; decide)
    rw [hy4] at hy5
    obtain ⟨hp, hvc, -⟩ := (valid_node _ _ _ _).1 hv5
    have hprods : make_grammar.productions_of .exprp5 =
        [⟨.exprp5, [N .exprp6]⟩, ⟨.exprp5, [N .exprp5, T .PLUS, N .exprp6]⟩,
         ⟨.exprp5, [N .exprp5, T .MINUS, N .exprp6]⟩] := rfl
    rw [hprods] at hp
    simp only [List.mem_cons, Production.mk.injEq, true_and, List.not_mem_nil,
      or_false] at hp
    rcases hp with hp | hp | hp
    · have hnp := no_plus_below_exprp6 k5 hvc
        (by rw [hp]; intro x hx; left; simp only [List.mem_singleton] at hx; rw [hx]; simp)
        (by rw [hy5]; decide)
      rw [hy5] at hnp
      exact absurd hnp (by decide)
    · obtain ⟨l, r1, rfl, h1⟩ := (roots_eq_cons_non_terminal k5 _ _).1 hp
      obtain ⟨r2, rfl, h2⟩ := (roots_eq_cons_terminal r1 _ _).1 h1
      obtain ⟨r, r3, rfl, h3⟩ := (roots_eq_cons_non_terminal r2 _ _).1 h2
      obtain rfl := (roots_eq_nil r3).1 h3
      have hsplit := split_at_plus l.yield r.yield
        (by simpa [ParseForest.yield] using hy5)
      exact ⟨l, r, rfl, hsplit.1, hsplit.2⟩
    · have hmem : Terminal.MINUS ∈ k5.yield :=
        terminal_root_mem_yield .MINUS k5 (by rw [hp]; simp)
      rw [hy5] at hmem
      exact absurd hmem (by decide)
  · rintro ⟨f, hv, hr, hy⟩
    have hnp := no_plus_below_exprp6 f hv
      (by rw [hr]; intro x hx; left; simp only [List.mem_singleton] at hx; rw [hx]; simp)
      (by rw [hy]; decide)
    rw [hy] at hnp
    exact absurd hnp (by decide)
  · rintro ⟨f, hv, hr, hy⟩
    have hnp := no_plus_below_exprp6 f hv
      (by rw [hr]; intro x hx; left; simp only [List.mem_singleton] at hx; rw [hx]; simp)
      (by rw [hy]; decide)
    rw [hy] at hnp
    exact absurd hnp (by decide)

/-- Witness of C12: the derivation tree `sum_product_tree`. -/
theorem C12_product_below_sum_witness :
    sum_product_tree.valid make_grammar = true ∧ sum_product_tree.roots = [N .expr] ∧
    sum_product_tree.yield = sum_product_kinds ∧
    ∃ l r : ParseForest,
      sum_product_tree = .node .expr
            (ParseForest.chain [.exprp1, .exprp2, .exprp3, .exprp4]
              (.node .exprp5
                (.node .exprp5 l (.leaf .PLUS (.node .exprp6 r .nil))) .nil))
            .nil ∧
      l.yield = [.ID] ∧ r.yield = [.ID, .STAR, .ID] :=
  ⟨by decide, by decide, by decide,
   C12_product_below_sum.2.1 sum_product_tree (by decide) (by decide) (by decide)⟩

/-- C13: scanning the test program of `tests/test_generate_code.cc` succeeds and yields the
kinds BOFS FN ID LPAREN ID COLON I32 COMMA ID COLON I32 RPAREN ARROW I32 LBRACE LET ID
COLON I32 ASSIGN NUM SEMI ID ASSIGN ID PLUS ID SEMI RBRACE EOFS, and this sequence
is derivable from the start symbol of the grammar returned by `make_grammar`. -/
theorem C13_test_program_scans_and_derives :
    (scan "fn main(x: i32, y: i32) -> i32 \x7b   let result: i32 = 0;   result = x + y;\x7d").map
        (fun tokens => tokens.map Token.kind) = some test_program_kinds ∧
    test_program_kinds =
      [.BOFS, .FN, .ID, .LPAREN, .ID, .COLON, .I32, .COMMA, .ID, .COLON, .I32, .RPAREN,
       .ARROW, .I32, .LBRACE, .LET, .ID, .COLON, .I32, .ASSIGN, .NUM, .SEMI,
       .ID, .ASSIGN, .ID, .PLUS, .ID, .SEMI, .RBRACE, .EOFS] ∧
    derives make_grammar [N make_grammar.start] test_program_kinds := by
  refine ⟨by decide, rfl, ⟨test_program_tree, by decide, by decide, by decide⟩⟩

/-! ## The pass `ElimVarsProc` -/

/-- The loop over the children of a block visits each child, in order. -/
theorem visit_children_eq_map (v : ElimVarsProc) (code : List Code) :
    v.visit_children code = code.map v.accept := by
  induction code with
  | nil => simp [ElimVarsProc.visit_children]
  | cons c rest ih => simp [ElimVarsProc.visit_children, ih]

/-- C14: for every `VarAccess(var, reg, read|write)` visited by `ElimVarsProc` built
from `(frame, param_chunk, param_ptr)`: if `var` is an element of
`frame.variables` the result is `frame.load(FramePtr, reg, var)` for a read and
`frame.store(FramePtr, var, reg)` for a write; otherwise it is a block of two
elements, first `frame.load(FramePtr, Scratch, param_ptr)`, second
`param_chunk.load(Scratch, reg, var)` for a read and
`param_chunk.store(Scratch, var, reg)` for a write. -/
theorem C14_var_access_rewritten (v : ElimVarsProc) (var : Variable) (reg : Reg) :
    (var ∈ v.frame.vars →
      v.accept (.VarAccess var reg true) = v.frame.load .FramePtr reg var ∧
      v.accept (.VarAccess var reg false) = v.frame.store .FramePtr var reg) ∧
    (var ∉ v.frame.vars →
      v.accept (.VarAccess var reg true) =
        .Block [v.frame.load .FramePtr .Scratch v.param_ptr,
                v.param_chunk.load .Scratch reg var] ∧
      v.accept (.VarAccess var reg false) =
        .Block [v.frame.load .FramePtr .Scratch v.param_ptr,
                v.param_chunk.store .Scratch var reg]) := by
  constructor
  · intro h
    simp [ElimVarsProc.accept, ElimVarsProc.visit_var_access, h]
  · intro h
    simp [ElimVarsProc.accept, ElimVarsProc.visit_var_access, h, make_block]

/-- C19: `ElimVarsProc` returns every node that is neither a `Block` nor a `VarAccess`
unchanged, and maps a block `[c1, ..., cn]` to a block of the same length whose
i-th element is the result of visiting `ci`. -/
theorem C19_other_nodes_unchanged (v : ElimVarsProc) :
    (∀ c : Code, (∀ code, c ≠ .Block code) → (∀ var reg read, c ≠ .VarAccess var reg read) →
      v.accept c = c) ∧
    (∀ code : List Code,
      v.accept (.Block code) = .Block (code.map v.accept) ∧
      (code.map v.accept).length = code.length ∧
      ∀ (i : Nat) (h : i < code.length),
        (code.map v.accept)[i]? = some (v.accept (code.get ⟨i, h⟩))) := by
  constructor
  · intro c hb hv
    cases c with
    | Block code => exact absurd rfl (hb code)
    | VarAccess var reg read => exact absurd rfl (hv var reg read)
    | _ => simp [ElimVarsProc.accept, ElimVarsProc.visit_code]
  · intro code
    refine ⟨?_, by simp, ?_⟩
    · simp [ElimVarsProc.accept, visit_children_eq_map, make_block]
    · intro i h
      simp [List.getElem?_map, List.getElem?_eq_getElem h]

/-- Witness of C14: the local `x` and the parameter `p` of `sample_elim_vars_proc`. -/
theorem C14_var_access_rewritten_witness :
    ((⟨1, "x"⟩ : Variable) ∈ sample_elim_vars_proc.frame.vars ∧
      sample_elim_vars_proc.accept (.VarAccess ⟨1, "x"⟩ .Result true) =
        sample_elim_vars_proc.frame.load .FramePtr .Result ⟨1, "x"⟩) ∧
    ((⟨2, "p"⟩ : Variable) ∉ sample_elim_vars_proc.frame.vars ∧
      sample_elim_vars_proc.accept (.VarAccess ⟨2, "p"⟩ .Result false) =
        .Block [sample_elim_vars_proc.frame.load .FramePtr .Scratch
                  sample_elim_vars_proc.param_ptr,
                sample_elim_vars_proc.param_chunk.store .Scratch ⟨2, "p"⟩ .Result]) :=
  ⟨⟨by decide,
    ((C14_var_access_rewritten sample_elim_vars_proc ⟨1, "x"⟩ .Result).1 (by decide)).1⟩,
   ⟨by decide,
    ((C14_var_access_rewritten sample_elim_vars_proc ⟨2, "p"⟩ .Result).2 (by decide)).2⟩⟩

/-- Witness of C19: a `Word` node is returned unchanged by `sample_elim_vars_proc`. -/
theorem C19_other_nodes_unchanged_witness :
    sample_elim_vars_proc.accept (.Word 5) = .Word 5 :=
  (C19_other_nodes_unchanged sample_elim_vars_proc).1 (.Word 5)
    (fun _ h => Code.noConfusion h) (fun _ _ _ h => Code.noConfusion h)

/-! ## `visit_typeinit` -/

/-- When the lookup of the allocation procedure succeeds, the module table binds
`heap_allocate` in the module `heap` to a typed procedure, and conversely. -/
theorem heap_allocate_procedure_ok (module_table : ModuleTable) (procedure : Procedure) :
    heap_allocate_procedure module_table = .ok procedure ↔
      ∃ heap params ret, module_table.at "heap" = .ok heap ∧
        heap.at "heap_allocate" = .ok (.TypedProcedure procedure params ret) := by
  unfold heap_allocate_procedure
  constructor
  · intro h
    split at h
    · cases h
    · rename_i heap hheap
      split at h
      · cases h
      · rename_i p params ret hat
        cases h
        exact ⟨heap, params, ret, hheap, hat⟩
      · cases h
  · rintro ⟨heap, params, ret, h1, h2⟩
    simp [h1, h2]

/-- C15 (as amended): for a node with the symbol `typeinit`, the production
`typeinit -> type LBRACKET expr RBRACKET` and its four children, when `visit_type`
and `visit_expr` return normally and the module table binds `heap_allocate` in
the module `heap` to a typed procedure: `visit_typeinit` throws
`TypeMismatchError`, with the line number of the LBRACKET child, if and only if
the type that `visit_expr` returns for the bracketed expression is not `I32`, and
it returns normally when that type is `I32`. -/
theorem C15_array_count_type (env : Collaborators)
    (type_node bracket expr_node close : ASTNode) (lexeme : String) (line_no : Nat)
    (read_address : Bool) (st st1 : CompileState) (nl_type : NLType) (expr : TypedExpr)
    (procedure : Procedure)
    (htype : env.visit_type type_node = .ok nl_type)
    (hexpr : env.visit_expr expr_node read_address st = .ok (expr, st1))
    (hheap : heap_allocate_procedure st1.module_table = .ok procedure) :
    (visit_typeinit env
        (.mk (N .typeinit) typeinit_type_array [type_node, bracket, expr_node, close]
          lexeme line_no) read_address st
      = .error (.TypeMismatchError "Expression between square brackets must be of type i32."
          bracket.line_no) ↔ expr.nl_type ≠ .I32) ∧
    ((∃ message line,
      visit_typeinit env
        (.mk (N .typeinit) typeinit_type_array [type_node, bracket, expr_node, close]
          lexeme line_no) read_address st
      = .error (.TypeMismatchError message line)) ↔ expr.nl_type ≠ .I32) ∧
    (expr.nl_type = .I32 →
      ∃ result, visit_typeinit env
        (.mk (N .typeinit) typeinit_type_array [type_node, bracket, expr_node, close]
          lexeme line_no) read_address st = .ok result) := by
  have hne : typeinit_type_array ≠ typeinit_type := by decide
  by_cases hty : expr.nl_type = .I32
  · have hres : visit_typeinit env
        (.mk (N .typeinit) typeinit_type_array [type_node, bracket, expr_node, close]
          lexeme line_no) read_address st
        = .ok (⟨make_call procedure
                  [make_block [env.bin_op expr.code .times
                    (env.int_literal (env.bytes nl_type))]], .Ptr nl_type⟩, st1) := by
      simp [visit_typeinit, ASTNode.state, ASTNode.get_production, ASTNode.child_at,
        ASTNode.children, hne, htype, hexpr, hheap, hty]
    rw [hres]
    refine ⟨?_, ?_, fun _ => ⟨_, rfl⟩⟩
    · simp [hty]
    · simp [hty]
  · have hres : visit_typeinit env
        (.mk (N .typeinit) typeinit_type_array [type_node, bracket, expr_node, close]
          lexeme line_no) read_address st
        = .error (.TypeMismatchError
            "Expression between square brackets must be of type i32." bracket.line_no) := by
      simp [visit_typeinit, ASTNode.state, ASTNode.get_production, ASTNode.child_at,
        ASTNode.children, hne, htype, hexpr, hheap, hty]
    rw [hres]
    refine ⟨?_, ?_, fun h => absurd h hty⟩
    · simp [hty]
    · simp only [ne_eq, hty, not_false_eq_true, iff_true]
      exact ⟨_, _, rfl⟩

/-- Witness of C15: `sample_array_node` in `sample_state`, with a count of type `Bool`. -/
theorem C15_array_count_type_witness :
    (sample_collaborators .Bool).visit_type
        (.mk (N .type) [N .type, T .I32] [.mk (T .I32) [] [] "i32" 7] "" 7) = .ok .I32 ∧
    heap_allocate_procedure sample_state.module_table = .ok ⟨9, "heap_allocate"⟩ ∧
    (visit_typeinit (sample_collaborators .Bool) sample_array_node false sample_state
      = .error (.TypeMismatchError "Expression between square brackets must be of type i32."
          (ASTNode.mk (T .LBRACKET) [] [] "[" 7).line_no) ↔ NLType.Bool ≠ .I32) :=
  ⟨rfl, rfl,
   (C15_array_count_type (sample_collaborators .Bool)
      (.mk (N .type) [N .type, T .I32] [.mk (T .I32) [] [] "i32" 7] "" 7)
      (.mk (T .LBRACKET) [] [] "[" 7)
      (.mk (N .expr) [N .expr, N .exprp1] [] "" 7)
      (.mk (T .RBRACKET) [] [] "]" 7) "" 7 false sample_state sample_state .I32
      ⟨.Word 3, .Bool⟩ ⟨9, "heap_allocate"⟩ rfl rfl rfl).1⟩

/-- C15 (counterexample to the claim as worded): with a module table that does not
bind `heap.heap_allocate`, `visit_typeinit` on `sample_array_node` leaves through
`std::out_of_range` of `at`: with a count of type `Bool` no `TypeMismatchError` is
thrown, and with a count of type `I32` it does not return normally. -/
theorem C15_counterexample_unbound_heap :
    sample_array_node.get_production = typeinit_type_array ∧
    NLType.Bool ≠ NLType.I32 ∧
    visit_typeinit (sample_collaborators .Bool) sample_array_node false empty_state
      = .error .out_of_range ∧
    visit_typeinit (sample_collaborators .I32) sample_array_node false empty_state
      = .error .out_of_range := by
  refine ⟨rfl, by decide, rfl, rfl⟩

/-- C20: whenever `visit_typeinit` returns normally, with `T` the type `visit_type` gives
for the type child, the type of the result is `Ptr<T>` and its code is one `Call`
of the procedure bound to `heap_allocate` in the module `heap`, with exactly one
argument: `int_literal(bytes(T))` for the production `typeinit -> type`, and a
block holding `bin_op(code of the count, times, int_literal(bytes(T)))` for
`typeinit -> type LBRACKET expr RBRACKET`.  A node with any other production ends
the run: by `exit(1)` when its symbol is `typeinit`, by the assertion on the
symbol otherwise. -/
theorem C20_typeinit_result (env : Collaborators) (root : ASTNode) (read_address : Bool)
    (st : CompileState) :
    (∀ (result : TypedExpr) (st1 : CompileState),
      visit_typeinit env root read_address st = .ok (result, st1) →
      (root.get_production = typeinit_type ∧ st1 = st ∧
        ∃ type_node nl_type procedure heap params ret,
          root.child_at 0 = .ok type_node ∧ env.visit_type type_node = .ok nl_type ∧
          st.module_table.at "heap" = .ok heap ∧
          heap.at "heap_allocate" = .ok (.TypedProcedure procedure params ret) ∧
          result.nl_type = .Ptr nl_type ∧
          result.code = .Call procedure [env.int_literal (env.bytes nl_type)]) ∨
      (root.get_production = typeinit_type_array ∧
        ∃ type_node nl_type expr_node expr procedure heap params ret,
          root.child_at 0 = .ok type_node ∧ env.visit_type type_node = .ok nl_type ∧
          root.child_at 2 = .ok expr_node ∧
          env.visit_expr expr_node read_address st = .ok (expr, st1) ∧
          st1.module_table.at "heap" = .ok heap ∧
          heap.at "heap_allocate" = .ok (.TypedProcedure procedure params ret) ∧
          result.nl_type = .Ptr nl_type ∧
          result.code = .Call procedure
            [.Block [env.bin_op expr.code .times (env.int_literal (env.bytes nl_type))]])) ∧
    (root.get_production ≠ typeinit_type → root.get_production ≠ typeinit_type_array →
      (root.state = N .typeinit →
        visit_typeinit env root read_address st = .error .exit_failure) ∧
      (visit_typeinit env root read_address st = .error .exit_failure ∨
       visit_typeinit env root read_address st = .error .assertion_failure ∨
       visit_typeinit env root read_address st = .error .bad_variant_access)) := by
  constructor
  · intro result st1 h
    unfold visit_typeinit at h
    split at h
    · cases h
    · split at h
      · cases h
      · split at h
        · rename_i hprod
          left
          split at h
          · cases h
          · rename_i type_node hchild
            split at h
            · cases h
            · rename_i nl_type htype
              split at h
              · cases h
              · rename_i procedure hproc
                obtain ⟨heap, params, ret, h1, h2⟩ :=
                  (heap_allocate_procedure_ok _ _).1 hproc
                simp only [Except.ok.injEq, Prod.mk.injEq] at h
                obtain ⟨rfl, rfl⟩ := h
                exact ⟨hprod, rfl, type_node, nl_type, procedure, heap, params, ret,
                  hchild, htype, h1, h2, rfl, rfl⟩
        · split at h
          · rename_i hprod
            right
            split at h
            · cases h
            · rename_i type_node hchild
              split at h
              · cases h
              · rename_i nl_type htype
                split at h
                · cases h
                · rename_i expr_node hchild2
                  split at h
                  · cases h
                  · rename_i expr st2 hexpr
                    split at h
                    · cases h
                    · rename_i procedure hproc
                      obtain ⟨heap, params, ret, h1, h2⟩ :=
                        (heap_allocate_procedure_ok _ _).1 hproc
                      split at h
                      · simp only [Except.ok.injEq, Prod.mk.injEq] at h
                        obtain ⟨rfl, rfl⟩ := h
                        exact ⟨hprod, type_node, nl_type, expr_node, expr, procedure, heap,
                          params, ret, hchild, htype, hchild2, hexpr, h1, h2, rfl, rfl⟩
                      · split at h <;> cases h
          · cases h
  · intro h1 h2
    constructor
    · intro hs
      simp [visit_typeinit, hs, h1, h2]
    · cases hst : root.state with
      | terminal t => simp [visit_typeinit, hst]
      | non_terminal n =>
        by_cases hn : n = .typeinit
        · simp [visit_typeinit, hst, hn, h1, h2]
        · simp [visit_typeinit, hst, hn]

/-- Witness of C20: `sample_type_node` and `sample_array_node` in `sample_state`, and a
node whose production is `typeinit -> expr`. -/
theorem C20_typeinit_result_witness :
    visit_typeinit (sample_collaborators .I32) sample_type_node false sample_state
      = .ok (⟨.Call ⟨9, "heap_allocate"⟩ [.Word 4], .Ptr .I32⟩, sample_state) ∧
    visit_typeinit (sample_collaborators .I32) sample_array_node false sample_state
      = .ok (⟨.Call ⟨9, "heap_allocate"⟩ [.Block [.BinOp .times (.Word 3) (.Word 4)]],
              .Ptr .I32⟩, sample_state) ∧
    ((sample_type_node.get_production = typeinit_type ∧ sample_state = sample_state ∧
        ∃ type_node nl_type procedure heap params ret,
          sample_type_node.child_at 0 = .ok type_node ∧
          (sample_collaborators .I32).visit_type type_node = .ok nl_type ∧
          sample_state.module_table.at "heap" = .ok heap ∧
          heap.at "heap_allocate" = .ok (.TypedProcedure procedure params ret) ∧
          (⟨.Call ⟨9, "heap_allocate"⟩ [.Word 4], .Ptr .I32⟩ : TypedExpr).nl_type
            = .Ptr nl_type ∧
          (⟨.Call ⟨9, "heap_allocate"⟩ [.Word 4], .Ptr .I32⟩ : TypedExpr).code
            = .Call procedure
                [(sample_collaborators .I32).int_literal
                  ((sample_collaborators .I32).bytes nl_type)]) ∨
      (sample_type_node.get_production = typeinit_type_array ∧
        ∃ type_node nl_type expr_node expr procedure heap params ret,
          sample_type_node.child_at 0 = .ok type_node ∧
          (sample_collaborators .I32).visit_type type_node = .ok nl_type ∧
          sample_type_node.child_at 2 = .ok expr_node ∧
          (sample_collaborators .I32).visit_expr expr_node false sample_state
            = .ok (expr, sample_state) ∧
          sample_state.module_table.at "heap" = .ok heap ∧
          heap.at "heap_allocate" = .ok (.TypedProcedure procedure params ret) ∧
          (⟨.Call ⟨9, "heap_allocate"⟩ [.Word 4], .Ptr .I32⟩ : TypedExpr).nl_type
            = .Ptr nl_type ∧
          (⟨.Call ⟨9, "heap_allocate"⟩ [.Word 4], .Ptr .I32⟩ : TypedExpr).code
            = .Call procedure
                [.Block [(sample_collaborators .I32).bin_op expr.code .times
                  ((sample_collaborators .I32).int_literal
                    ((sample_collaborators .I32).bytes nl_type))]])) ∧
    visit_typeinit (sample_collaborators .I32)
        (.mk (N .typeinit) [N .typeinit, N .expr] [] "" 1) false sample_state
      = .error .exit_failure :=
  ⟨rfl, rfl,
   (C20_typeinit_result (sample_collaborators .I32) sample_type_node false sample_state).1
     ⟨.Call ⟨9, "heap_allocate"⟩ [.Word 4], .Ptr .I32⟩ sample_state rfl,
   ((C20_typeinit_result (sample_collaborators .I32)
      (.mk (N .typeinit) [N .typeinit, N .expr] [] "" 1) false sample_state).2
      (by decide) (by decide)).1 rfl⟩

/-! ## The grammar-file parser of the legacy variant -/

/-- The pieces read by the `getline` loop are, the empty ones apart, the pieces of the
split of the stream at the delimiter. -/
theorem getline_all_filter (delim : Char) : ∀ (s cur : List Char),
    (Legacy.getline_all delim s cur).filter (fun piece => decide (piece ≠ [])) =
      ((s.splitOn delim).modifyHead (fun piece => cur ++ piece)).filter
        (fun piece => decide (piece ≠ [])) := by
  intro s
  induction s with
  | nil =>
    intro cur
    by_cases h : cur = []
    · simp [Legacy.getline_all, h]
    · simp [Legacy.getline_all, h]
  | cons c rest ih =>
    intro cur
    by_cases h : c = delim
    · subst h
      simp only [Legacy.getline_all, if_true, List.splitOn, List.splitOnP_cons, beq_self_eq_true,
        List.modifyHead_cons, List.append_nil, List.filter_cons]
      have := ih []
      simp only [List.nil_append, List.splitOn] at this
      rw [this]
      have hid : (fun piece : List Char => piece) = id := rfl
      simp [hid]
    · have hb : (c == delim) = false := by simpa using h
      have hsplit : (c :: rest).splitOn delim =
          (rest.splitOn delim).modifyHead (List.cons c) := by
        simp [List.splitOn, hb]
      simp only [Legacy.getline_all, h, if_false]
      rw [hsplit, List.modifyHead_modifyHead, ih (cur ++ [c])]
      congr 2
      funext piece
      simp

/-- The words of a line are its non-empty pieces between spaces. -/
theorem words_of_line_eq (line : List Char) :
    Legacy.words_of_line line =
      ((line.splitOn ' ').filter (fun piece => decide (piece ≠ []))).map String.mk := by
  unfold Legacy.words_of_line
  have h := getline_all_filter ' ' line []
  have hid : (fun piece : List Char => [] ++ piece) = id := by funext p; simp
  rw [hid, List.modifyHead_id] at h
  simp only [id] at h
  rw [← h]
  congr 1
  apply List.filter_congr
  intro x _
  cases x <;> simp

/-- The vector `file` read by `make_grammar` is the list of the lines of the text that
hold a word, each cut into its words. -/
theorem read_file_eq (text : String) :
    Legacy.read_file text = Legacy.space_separated_lines text := by
  unfold Legacy.read_file Legacy.space_separated_lines
  have hw : Legacy.words_of_line = fun line =>
      ((line.splitOn ' ').filter (fun piece => decide (piece ≠ []))).map String.mk := by
    funext line
    exact words_of_line_eq line
  have hdrop : ∀ X : List (List Char),
      (X.map Legacy.words_of_line).filter (fun words => decide (words.length ≠ 0)) =
        ((X.filter (fun piece => decide (piece ≠ []))).map Legacy.words_of_line).filter
          (fun words => decide (words ≠ [])) := by
    intro X
    induction X with
    | nil => simp
    | cons x X ih =>
      cases x with
      | nil =>
        have h0 : Legacy.words_of_line [] = [] := by decide
        simp only [List.map_cons, h0, List.filter_cons, ne_eq, not_true_eq_false,
          decide_False, List.length_nil]
        simpa using ih
      | cons a x =>
        simp only [List.map_cons, List.filter_cons, ne_eq, reduceCtorEq, not_false_eq_true,
          decide_True, if_true]
        rw [ih]
        cases hwl : Legacy.words_of_line (a :: x) <;> simp
  rw [hdrop, getline_all_filter '\n' text.toList []]
  have hid : (fun piece : List Char => [] ++ piece) = id := by funext p; simp
  rw [hid, List.modifyHead_id]
  simp only [id]
  have hdrop2 := hdrop (text.toList.splitOn '\n')
  rw [← hdrop2, hw]
  apply List.filter_congr
  intro x _
  cases x <;> simp

/-- Looking a key up after one `push_back`. -/
theorem lookup_push_production (p : Legacy.Production) :
    ∀ (m : List (Legacy.State × List Legacy.Production)) (k : Legacy.State),
      ((Legacy.push_production m p).lookup k).getD [] =
        if k = p.lhs then (m.lookup k).getD [] ++ [p] else (m.lookup k).getD [] := by
  intro m
  induction m with
  | nil =>
    intro k
    by_cases h : k = p.lhs
    · simp [Legacy.push_production, List.lookup, h]
    · have hb : (k == p.lhs) = false := by simpa using h
      simp [Legacy.push_production, List.lookup, h, hb]
  | cons e m ih =>
    intro k
    obtain ⟨key, ps⟩ := e
    by_cases hkey : key = p.lhs
    · by_cases h : k = key
      · subst h
        simp [Legacy.push_production, List.lookup, hkey]
      · have hb : (k == key) = false := by simpa using h
        have h2 : ¬ k = p.lhs := fun e => h (e.trans hkey.symm)
        have hb2 : (k == p.lhs) = false := by simpa using h2
        simp [Legacy.push_production, List.lookup, hkey, h2, hb2]
    · by_cases h : k = key
      · subst h
        simp [Legacy.push_production, List.lookup, hkey]
      · have hb : (k == key) = false := by simpa using h
        simp only [Legacy.push_production, hkey, if_false, List.lookup, hb]
        exact ih k

/-- Looking a key up after the loop over `file`. -/
theorem lookup_build_productions (k : Legacy.State) :
    ∀ (file : List (List String)) (m : List (Legacy.State × List Legacy.Production)),
      ((Legacy.build_productions file m).lookup k).getD [] =
        (m.lookup k).getD [] ++
          (file.filter (fun line => decide (line.head? = some k))).map
            (fun line => (⟨k, line.tail⟩ : Legacy.Production)) := by
  intro file
  induction file with
  | nil => intro m; simp [Legacy.build_productions]
  | cons line file ih =>
    intro m
    cases line with
    | nil =>
      simp only [Legacy.build_productions, List.filter_cons, List.head?_nil]
      rw [ih m]
      simp
    | cons lhs rhs =>
      simp only [Legacy.build_productions, List.filter_cons, List.head?_cons,
        Option.some.injEq]
      rw [ih, lookup_push_production]
      by_cases h : k = lhs
      · subst h
        simp
      · have h2 : ¬ lhs = k := fun e => h e.symm
        simp [h, h2]

/-- Membership after `set.insert`. -/
theorem mem_set_insert (set : List Legacy.State) (word w : Legacy.State) :
    w ∈ Legacy.set_insert set word ↔ w ∈ set ∨ w = word := by
  unfold Legacy.set_insert
  by_cases h : word ∈ set
  · simp only [h, if_true]
    constructor
    · exact Or.inl
    · rintro (h1 | rfl)
      · exact h1
      · exact h
  · simp [h]

/-- No character is both an upper-case and a lower-case letter. -/
theorem not_islower_of_isupper (c : Char) (h : Legacy.isupper c = true) :
    Legacy.islower c = false := by
  simp only [Legacy.isupper, Bool.and_eq_true, decide_eq_true_eq] at h
  simp only [Legacy.islower, Bool.and_eq_false_iff, decide_eq_false_iff_not]
  omega

/-- The classification loop fails exactly when some word starts with a character that is
no letter. -/
theorem classify_words_eq_none : ∀ (words : List String) (nts ts : List Legacy.State),
    Legacy.classify_words words nts ts = none ↔
      ∃ w ∈ words, Legacy.starts_with Legacy.isupper w = false ∧
        Legacy.starts_with Legacy.islower w = false := by
  intro words
  induction words with
  | nil => intro nts ts; simp [Legacy.classify_words]
  | cons word rest ih =>
    intro nts ts
    simp only [Legacy.classify_words, List.mem_cons, exists_eq_or_imp, String.toList]
    cases hw : word.data with
    | nil => simp [Legacy.starts_with, hw]
    | cons c cs =>
      simp only [Legacy.starts_with, String.toList, hw]
      by_cases hu : Legacy.isupper c = true
      · simp only [hu, if_true, ih, Legacy.starts_with, String.toList, reduceCtorEq,
          false_and, false_or]
      · by_cases hl : Legacy.islower c = true
        · simp only [hu, hl, if_true, if_false, ih, Legacy.starts_with, String.toList,
            Bool.false_eq_true, reduceCtorEq, and_false, false_or]
        · simp [hu, hl]

/-- The sets that the classification loop returns. -/
theorem classify_words_eq_some : ∀ (words : List String) (nts ts nts1 ts1 : List Legacy.State),
    Legacy.classify_words words nts ts = some (nts1, ts1) →
      (∀ w, w ∈ ts1 ↔ w ∈ ts ∨ (w ∈ words ∧ Legacy.starts_with Legacy.isupper w = true)) ∧
      (∀ w, w ∈ nts1 ↔ w ∈ nts ∨ (w ∈ words ∧ Legacy.starts_with Legacy.islower w = true)) := by
  intro words
  induction words with
  | nil =>
    intro nts ts nts1 ts1 h
    simp only [Legacy.classify_words, Option.some.injEq, Prod.mk.injEq] at h
    obtain ⟨rfl, rfl⟩ := h
    simp
  | cons word rest ih =>
    intro nts ts nts1 ts1 h
    simp only [Legacy.classify_words, String.toList] at h
    cases hw : word.data with
    | nil => simp [hw] at h
    | cons c cs =>
      simp only [hw] at h
      have hsu : Legacy.starts_with Legacy.isupper word = Legacy.isupper c := by
        simp [Legacy.starts_with, hw]
      have hsl : Legacy.starts_with Legacy.islower word = Legacy.islower c := by
        simp [Legacy.starts_with, hw]
      by_cases hu : Legacy.isupper c = true
      · simp only [hu, if_true] at h
        obtain ⟨h1, h2⟩ := ih _ _ _ _ h
        have hl := not_islower_of_isupper c hu
        constructor
        · intro w
          rw [h1, mem_set_insert]
          constructor
          · rintro ((h3 | rfl) | ⟨h3, h4⟩)
            · exact Or.inl h3
            · exact Or.inr ⟨List.mem_cons_self _ _, by rw [hsu]; exact hu⟩
            · exact Or.inr ⟨List.mem_cons_of_mem _ h3, h4⟩
          · rintro (h3 | ⟨h3, h4⟩)
            · exact Or.inl (Or.inl h3)
            · rcases List.mem_cons.1 h3 with rfl | h3
              · exact Or.inl (Or.inr rfl)
              · exact Or.inr ⟨h3, h4⟩
        · intro w
          rw [h2]
          constructor
          · rintro (h3 | ⟨h3, h4⟩)
            · exact Or.inl h3
            · exact Or.inr ⟨List.mem_cons_of_mem _ h3, h4⟩
          · rintro (h3 | ⟨h3, h4⟩)
            · exact Or.inl h3
            · rcases List.mem_cons.1 h3 with rfl | h3
              · rw [hsl, hl] at h4
                cases h4
              · exact Or.inr ⟨h3, h4⟩
      · simp only [hu, Bool.false_eq_true, if_false] at h
        by_cases hl : Legacy.islower c = true
        · simp only [hl, if_true] at h
          obtain ⟨h1, h2⟩ := ih _ _ _ _ h
          constructor
          · intro w
            rw [h1]
            constructor
            · rintro (h3 | ⟨h3, h4⟩)
              · exact Or.inl h3
              · exact Or.inr ⟨List.mem_cons_of_mem _ h3, h4⟩
            · rintro (h3 | ⟨h3, h4⟩)
              · exact Or.inl h3
              · rcases List.mem_cons.1 h3 with rfl | h3
                · rw [hsu] at h4
                  exact absurd h4 hu
                · exact Or.inr ⟨h3, h4⟩
          · intro w
            rw [h2, mem_set_insert]
            constructor
            · rintro ((h3 | rfl) | ⟨h3, h4⟩)
              · exact Or.inl h3
              · exact Or.inr ⟨List.mem_cons_self _ _, by rw [hsl]; exact hl⟩
              · exact Or.inr ⟨List.mem_cons_of_mem _ h3, h4⟩
            · rintro (h3 | ⟨h3, h4⟩)
              · exact Or.inl (Or.inl h3)
              · rcases List.mem_cons.1 h3 with rfl | h3
                · exact Or.inl (Or.inr rfl)
                · exact Or.inr ⟨h3, h4⟩
        · simp [hl] at h

/-- C16 (as amended): for every grammar text, with the space as the only separator
inside a line (a tab or a carriage return is part of a token): the lines that hold
at least one token are read in order, blank lines are dropped; the productions
stored under an lhs are, in file order, one per line whose first token is this
lhs, with the remaining tokens of the line as rhs (an empty rhs when the lhs
stands alone); a token is in `terminals` iff it occurs in the text and begins
with an upper-case letter, in `non_terminals` iff it occurs and begins with a
lower-case letter, and the two sets are disjoint; `make_grammar` ends with
`exit(1)` iff some token begins with another character; the start symbol is `s`. -/
theorem C16_legacy_grammar_file (text : String) :
    Legacy.read_file text = Legacy.space_separated_lines text ∧
    (Legacy.make_grammar text = none ↔
      ∃ line ∈ Legacy.space_separated_lines text, ∃ w ∈ line,
        Legacy.starts_with Legacy.isupper w = false ∧
        Legacy.starts_with Legacy.islower w = false) ∧
    (∀ g : Legacy.Grammar, Legacy.make_grammar text = some g →
      g.start = "s" ∧
      (∀ lhs : String, (g.productions.lookup lhs).getD [] =
        ((Legacy.space_separated_lines text).filter
            (fun line => decide (line.head? = some lhs))).map
          (fun line => (⟨lhs, line.tail⟩ : Legacy.Production))) ∧
      (∀ w : String, w ∈ g.terminals ↔
        (∃ line ∈ Legacy.space_separated_lines text, w ∈ line) ∧
          Legacy.starts_with Legacy.isupper w = true) ∧
      (∀ w : String, w ∈ g.non_terminals ↔
        (∃ line ∈ Legacy.space_separated_lines text, w ∈ line) ∧
          Legacy.starts_with Legacy.islower w = true) ∧
      (∀ w : String, w ∈ g.terminals → w ∉ g.non_terminals)) := by
  have hfile := read_file_eq text
  refine ⟨hfile, ?_, ?_⟩
  · unfold Legacy.make_grammar
    simp only [hfile]
    cases hc : Legacy.classify_words (Legacy.space_separated_lines text).flatten [] [] with
    | none =>
      simp only [true_iff]
      obtain ⟨w, hw, h1, h2⟩ := (classify_words_eq_none _ _ _).1 hc
      obtain ⟨line, hline, hwl⟩ := List.mem_flatten.1 hw
      exact ⟨line, hline, w, hwl, h1, h2⟩
    | some r =>
      simp only [reduceCtorEq, false_iff]
      rintro ⟨line, hline, w, hwl, h1, h2⟩
      have hn := (classify_words_eq_none (Legacy.space_separated_lines text).flatten [] []).2
        ⟨w, List.mem_flatten.2 ⟨line, hline, hwl⟩, h1, h2⟩
      rw [hn] at hc
      cases hc
  · intro g hg
    unfold Legacy.make_grammar at hg
    simp only [hfile] at hg
    cases hc : Legacy.classify_words (Legacy.space_separated_lines text).flatten [] [] with
    | none => simp [hc] at hg
    | some r =>
      obtain ⟨nts, ts⟩ := r
      simp only [hc, Option.some.injEq] at hg
      subst hg
      obtain ⟨h1, h2⟩ := classify_words_eq_some _ _ _ _ _ hc
      have hterm : ∀ w : String, w ∈ ts ↔
          (∃ line ∈ Legacy.space_separated_lines text, w ∈ line) ∧
            Legacy.starts_with Legacy.isupper w = true := by
        intro w
        rw [h1]
        simp [List.mem_flatten]
      have hnt : ∀ w : String, w ∈ nts ↔
          (∃ line ∈ Legacy.space_separated_lines text, w ∈ line) ∧
            Legacy.starts_with Legacy.islower w = true := by
        intro w
        rw [h2]
        simp [List.mem_flatten]
      refine ⟨rfl, ?_, hterm, hnt, ?_⟩
      · intro lhs
        have := lookup_build_productions lhs (Legacy.space_separated_lines text) []
        simpa using this
      · intro w hw hw2
        have hu := ((hterm w).1 hw).2
        have hl := ((hnt w).1 hw2).2
        simp only [Legacy.starts_with, String.toList] at hu hl
        cases hwl : w.data with
        | nil => simp [hwl] at hu
        | cons c cs =>
          simp only [hwl] at hu hl
          rw [not_islower_of_isupper c hu] at hl
          cases hl

/-- Witness of C16: a text of four lines, one of them blank, with two productions of
`fns`. -/
theorem C16_legacy_grammar_file_witness :
    Legacy.make_grammar "s BOF fns EOF\n\nfns fn  fns\nfns fn"
      = some ⟨["s", "fns", "fn"], ["BOF", "EOF"], "s",
              [("s", [⟨"s", ["BOF", "fns", "EOF"]⟩]),
               ("fns", [⟨"fns", ["fn", "fns"]⟩, ⟨"fns", ["fn"]⟩])]⟩ ∧
    (⟨["s", "fns", "fn"], ["BOF", "EOF"], "s",
        [("s", [⟨"s", ["BOF", "fns", "EOF"]⟩]),
         ("fns", [⟨"fns", ["fn", "fns"]⟩, ⟨"fns", ["fn"]⟩])]⟩ : Legacy.Grammar).start = "s" :=
  ⟨by decide,
   ((C16_legacy_grammar_file "s BOF fns EOF\n\nfns fn  fns\nfns fn").2.2 _ (by decide)).1⟩

/-- C16 (counterexample to the claim as worded): in the text `s<TAB>A` the line holds
the two whitespace-separated tokens `s` and `A`, but `make_grammar` separates at
spaces only: it reads the single token `s<TAB>A` and stores one production with
this token as lhs and an empty rhs, not the production `s -> A`. -/
theorem C16_counterexample_tab_separator :
    Legacy.whitespace_separated_lines "s\tA" = [["s", "A"]] ∧
    Legacy.read_file "s\tA" = [["s\tA"]] ∧
    Legacy.make_grammar "s\tA"
      = some ⟨["s\tA"], [], "s", [("s\tA", [⟨"s\tA", []⟩])]⟩ := by
  refine ⟨by decide, by decide, by decide⟩

/-! ## The adjacency rule, both directions -/

/-- When the loop of `scan` stops, either its first token meets a flag that is already
set, or two neighbours have kinds that are both in `sep_set1` or both in
`sep_set2`. -/
theorem scan_loop_eq_none : ∀ (ts : List Token) (p1 p2 : Bool) (result : List Token),
    scan_loop ts p1 p2 result = none →
      (∃ t rest, ts = t :: rest ∧
        ((t.kind ∈ sep_set1 ∧ p1 = true) ∨ (t.kind ∈ sep_set2 ∧ p2 = true))) ∨
      (∃ pre a b post, ts = pre ++ a :: b :: post ∧
        ((a.kind ∈ sep_set1 ∧ b.kind ∈ sep_set1) ∨
         (a.kind ∈ sep_set2 ∧ b.kind ∈ sep_set2))) := by
  intro ts
  induction ts with
  | nil =>
    intro p1 p2 result h
    simp [scan_loop] at h
  | cons t ts ih =>
    intro p1 p2 result h
    simp only [scan_loop] at h
    split at h
    · rename_i h1
      exact Or.inl ⟨t, ts, rfl, Or.inl h1⟩
    · split at h
      · rename_i h2
        exact Or.inl ⟨t, ts, rfl, Or.inr h2⟩
      · rcases ih _ _ _ h with ⟨u, rest, rfl, hu⟩ | ⟨pre, a, b, post, rfl, hab⟩
        · right
          refine ⟨[], t, u, rest, rfl, ?_⟩
          rcases hu with ⟨hu1, hp⟩ | ⟨hu2, hp⟩
          · exact Or.inl ⟨by simpa using hp, hu1⟩
          · exact Or.inr ⟨by simpa using hp, hu2⟩
        · exact Or.inr ⟨t :: pre, a, b, post, rfl, hab⟩

/-- C21: the post-pass of `scan` fails if and only if the raw token stream holds two
tokens at consecutive positions (WHITESPACE and COMMENT tokens counted as
positions) whose reclassified kinds are both in {FN, LET, IF, WHILE, ELSE, I32,
BOOL, CHAR, ID, NUM, STRLITERAL, CHARLITERAL, TRUE, FALSE} or both in {EQ, NE, LT,
LE, GT, GE, OR, AND, ASSIGN, ARROW}; so two tokens with at least one WHITESPACE or
COMMENT token between them do not make it fail. -/
theorem C21_post_pass_fails_iff_adjacent (raw : List Token) :
    sep_set1 = [.FN, .LET, .IF, .WHILE, .ELSE, .I32, .BOOL, .CHAR, .ID, .NUM,
                .STRLITERAL, .CHARLITERAL, .TRUE, .FALSE] ∧
    sep_set2 = [.EQ, .NE, .LT, .LE, .GT, .GE, .OR, .AND, .ASSIGN, .ARROW] ∧
    (scan_post raw = none ↔
      ∃ pre a b post, raw = pre ++ a :: b :: post ∧
        (((reclassify a).kind ∈ sep_set1 ∧ (reclassify b).kind ∈ sep_set1) ∨
         ((reclassify a).kind ∈ sep_set2 ∧ (reclassify b).kind ∈ sep_set2))) ∧
    (∀ (a b : Token) (between : List Token), between ≠ [] →
      (∀ w ∈ between,
        (reclassify w).kind = .WHITESPACE ∨ (reclassify w).kind = .COMMENT) →
        scan_post (a :: between ++ [b]) ≠ none) := by
  have hiff : ∀ raw : List Token, scan_post raw = none ↔
      ∃ pre a b post, raw = pre ++ a :: b :: post ∧
        (((reclassify a).kind ∈ sep_set1 ∧ (reclassify b).kind ∈ sep_set1) ∨
         ((reclassify a).kind ∈ sep_set2 ∧ (reclassify b).kind ∈ sep_set2)) := by
    intro raw
    constructor
    · intro h
      unfold scan_post at h
      split at h
      · rename_i hloop
        rcases scan_loop_eq_none _ _ _ _ hloop with ⟨t, rest, -, ht⟩ | ⟨pre, a, b, post, hm, hab⟩
        · rcases ht with ⟨-, hp⟩ | ⟨-, hp⟩ <;> cases hp
        · obtain ⟨pre1, rest1, rfl, hpre, hrest⟩ := List.map_eq_append_iff.1 hm
          obtain ⟨a1, rest2, rfl, ha, hrest2⟩ := List.map_eq_cons_iff.1 hrest
          obtain ⟨b1, post1, rfl, hb, hpost⟩ := List.map_eq_cons_iff.1 hrest2
          subst ha hb
          exact ⟨pre1, a1, b1, post1, rfl, hab⟩
      · cases h
    · rintro ⟨pre, a, b, post, rfl, hab⟩
      unfold scan_post
      simp only [List.map_append, List.map_cons]
      rcases hab with ⟨ha, hb⟩ | ⟨ha, hb⟩
      · rw [scan_loop_adjacent_set1 _ _ _ ha hb]
      · rw [scan_loop_adjacent_set2 _ _ _ ha hb]
  refine ⟨rfl, rfl, hiff raw, ?_⟩
  intro a b between hne hsep h
  obtain ⟨pre, x, y, post, hm, hxy⟩ := (hiff _).1 h
  have hnot : ∀ w ∈ between, (reclassify w).kind ∉ sep_set1 ∧ (reclassify w).kind ∉ sep_set2 := by
    intro w hw
    rcases hsep w hw with e | e <;> rw [e] <;> exact ⟨by decide, by decide⟩
  have hmem : x ∈ between ∨ y ∈ between := by
    cases pre with
    | nil =>
      right
      simp only [List.nil_append, List.cons_append, List.cons.injEq] at hm
      obtain ⟨-, hm⟩ := hm
      cases between with
      | nil => exact absurd rfl hne
      | cons w ws =>
        simp only [List.cons_append, List.cons.injEq] at hm
        rw [← hm.1]
        exact List.mem_cons_self _ _
    | cons p pre =>
      left
      simp only [List.cons_append, List.cons.injEq] at hm
      obtain ⟨-, hm⟩ := hm
      have hd := congrArg List.dropLast hm
      rw [List.dropLast_concat, List.dropLast_append_of_ne_nil _ (by simp),
        List.dropLast_cons_of_ne_nil (by simp)] at hd
      rw [hd]
      simp
  rcases hmem with hx | hy
  · rcases hxy with ⟨h1, -⟩ | ⟨h2, -⟩
    · exact (hnot x hx).1 h1
    · exact (hnot x hx).2 h2
  · rcases hxy with ⟨-, h1⟩ | ⟨-, h2⟩
    · exact (hnot y hy).1 h1
    · exact (hnot y hy).2 h2

/-- Witness of C21: `let`, a blank, `x`: the raw stream of the source `let x`. -/
theorem C21_post_pass_fails_iff_adjacent_witness :
    (∀ w ∈ [(⟨.WHITESPACE, " "⟩ : Token)],
      (reclassify w).kind = .WHITESPACE ∨ (reclassify w).kind = .COMMENT) ∧
    (reclassify ⟨.ID, "let"⟩).kind ∈ sep_set1 ∧ (reclassify ⟨.ID, "x"⟩).kind ∈ sep_set1 ∧
    scan_post (⟨.ID, "let"⟩ :: [⟨.WHITESPACE, " "⟩] ++ [⟨.ID, "x"⟩]) ≠ none :=
  ⟨by decide, by decide, by decide,
   (C21_post_pass_fails_iff_adjacent []).2.2.2 ⟨.ID, "let"⟩ ⟨.ID, "x"⟩ [⟨.WHITESPACE, " "⟩]
     (by simp) (by decide)⟩

/-! ## Nullable non-terminals, unit cycles, the terminals TRUE and FALSE -/

/-- A valid forest with a root that is a terminal, or a non-terminal other than
`optparams` and `optargs`, has a yield that is not empty. -/
theorem yield_ne_nil_of_solid_root : ∀ f : ParseForest, f.valid make_grammar = true →
    (∃ x ∈ f.roots, x ∉ [N .optparams, N .optargs]) → f.yield ≠ [] := by
  intro f
  induction f with
  | nil =>
    rintro _ ⟨x, hx, -⟩
    simp [ParseForest.roots] at hx
  | leaf t rest _ =>
    intro _ _
    simp [ParseForest.yield]
  | node A ch rest ihc ihr =>
    rintro hv ⟨x, hx, hsolid⟩
    obtain ⟨hp, hvc, hvr⟩ := (valid_node _ A ch rest).1 hv
    simp only [ParseForest.roots, List.mem_cons] at hx
    simp only [ParseForest.yield, ne_eq, List.append_eq_nil, not_and]
    rcases hx with rfl | hx
    · intro hc
      exfalso
      have hclosed : ∀ B : NonTerminal, N B ∉ [N .optparams, N .optargs] →
          ∀ p ∈ make_grammar.productions_of B, ∃ y ∈ p.rhs, y ∉ [N .optparams, N .optargs] := by
        intro B hB
        cases B
        case optparams => exact absurd (by decide) hB
        case optargs => exact absurd (by decide) hB
        all_goals decide
      obtain ⟨y, hy, hys⟩ := hclosed A hsolid _ hp
      exact ihc hvc ⟨y, hy, hys⟩ hc
    · intro _
      exact ihr hvr ⟨x, hx, hsolid⟩

/-- No terminal derives the empty sequence, and among the non-terminals exactly
`optparams` and `optargs` do. -/
theorem nullable_iff (x : State) :
    nullable make_grammar x ↔ x ∈ [N .optparams, N .optargs] := by
  constructor
  · rintro ⟨f, hv, hr, hy⟩
    by_contra hx
    exact yield_ne_nil_of_solid_root f hv ⟨x, by rw [hr]; simp, hx⟩ hy
  · intro hx
    simp only [List.mem_cons, List.not_mem_nil, or_false] at hx
    rcases hx with rfl | rfl
    · exact ⟨.node .optparams .nil .nil, by decide, rfl, rfl⟩
    · exact ⟨.node .optargs .nil .nil, by decide, rfl, rfl⟩

/-- Every production of the grammar passes the rank check. -/
theorem unit_rank_falls_all (A : NonTerminal) :
    ∀ p ∈ make_grammar.productions_of A, unit_rank_falls A p = true := by
  cases A <;> decide

/-- The rank falls along every unit/epsilon step. -/
theorem unit_rank_lt (A B : NonTerminal) (h : unit_step make_grammar A B) :
    unit_rank B < unit_rank A := by
  obtain ⟨p, hp, pre, post, hrhs, hnull⟩ := h
  have hok := unit_rank_falls_all A p hp
  unfold unit_rank_falls at hok
  rw [List.all_eq_true] at hok
  have hB := hok (N B) (by rw [hrhs]; simp)
  simp only [Bool.or_eq_true, Bool.not_eq_true', decide_eq_true_eq] at hB
  rcases hB with hB | hB
  · exfalso
    have hall : p.rhs.all (fun y => decide (y = N B ∨ y ∈ [N .optparams, N .optargs])) = true := by
      rw [List.all_eq_true]
      intro y hy
      rw [hrhs] at hy
      simp only [decide_eq_true_eq]
      rcases List.mem_append.1 hy with hy | hy
      · exact Or.inr ((nullable_iff y).1 (hnull y (List.mem_append.2 (Or.inl hy))))
      · rcases List.mem_cons.1 hy with rfl | hy
        · exact Or.inl rfl
        · exact Or.inr ((nullable_iff y).1 (hnull y (List.mem_append.2 (Or.inr hy))))
    rw [hall] at hB
    cases hB
  · exact hB

/-- The rank falls along every chain of unit/epsilon steps. -/
theorem unit_rank_lt_of_trans_gen (A B : NonTerminal)
    (h : Relation.TransGen (unit_step make_grammar) A B) : unit_rank B < unit_rank A := by
  induction h with
  | single h1 => exact unit_rank_lt _ _ h1
  | tail _ h2 ih => exact Nat.lt_trans (unit_rank_lt _ _ h2) ih

/-- C22: in the grammar of `make_grammar` the non-terminals that derive the empty token
sequence are exactly `optparams` and `optargs`, and no non-terminal derives
itself by unit/epsilon steps alone.  So `fns` and `stmts` are not nullable, FN ID
LPAREN RPAREN LBRACE RBRACE is not derivable from `fn`, and BOFS EOFS is not
derivable from `s`. -/
theorem C22_nullable_and_unit_cycles :
    (∀ A : NonTerminal, derives make_grammar [N A] [] ↔ (A = .optparams ∨ A = .optargs)) ∧
    (∀ A : NonTerminal, ¬ Relation.TransGen (unit_step make_grammar) A A) ∧
    ¬ derives make_grammar [N .fns] [] ∧
    ¬ derives make_grammar [N .stmts] [] ∧
    ¬ derives make_grammar [N .fn] empty_body_kinds ∧
    ¬ derives make_grammar [N .s] [.BOFS, .EOFS] := by
  have hnull : ∀ A : NonTerminal,
      derives make_grammar [N A] [] ↔ (A = .optparams ∨ A = .optargs) := by
    intro A
    have h := nullable_iff (N A)
    unfold nullable at h
    rw [h]
    simp
  refine ⟨hnull, ?_, ?_, ?_, ?_, ?_⟩
  · intro A h
    exact Nat.lt_irrefl _ (unit_rank_lt_of_trans_gen A A h)
  · intro h
    exact absurd ((hnull _).1 h) (by decide)
  · intro h
    exact absurd ((hnull _).1 h) (by decide)
  · rintro ⟨f, hv, hr, hy⟩
    obtain ⟨ch, rest, rfl, hrest⟩ := (roots_eq_cons_non_terminal f _ _).1 hr
    obtain rfl := (roots_eq_nil rest).1 hrest
    obtain ⟨hp, hvc, -⟩ := (valid_node _ _ _ _).1 hv
    have hy0 : ch.yield = empty_body_kinds := by simpa [ParseForest.yield] using hy
    have hprods : make_grammar.productions_of .fn =
        [⟨.fn, [T .FN, T .ID, T .LPAREN, N .optparams, T .RPAREN, T .ARROW, N .type,
                T .LBRACE, N .stmts, T .RBRACE]⟩,
         ⟨.fn, [T .FN, T .ID, T .LPAREN, N .optparams, T .RPAREN,
                T .LBRACE, N .stmts, T .RBRACE]⟩] := rfl
    rw [hprods] at hp
    simp only [List.mem_cons, Production.mk.injEq, true_and, List.not_mem_nil,
      or_false] at hp
    rcases hp with hp | hp
    · have hmem : Terminal.ARROW ∈ ch.yield :=
        terminal_root_mem_yield .ARROW ch (by rw [hp]; simp)
      rw [hy0] at hmem
      exact absurd hmem (by decide)
    · obtain ⟨r1, rfl, h1⟩ := (roots_eq_cons_terminal ch _ _).1 hp
      obtain ⟨r2, rfl, h2⟩ := (roots_eq_cons_terminal r1 _ _).1 h1
      obtain ⟨r3, rfl, h3⟩ := (roots_eq_cons_terminal r2 _ _).1 h2
      obtain ⟨k1, r4, rfl, h4⟩ := (roots_eq_cons_non_terminal r3 _ _).1 h3
      obtain ⟨r5, rfl, h5⟩ := (roots_eq_cons_terminal r4 _ _).1 h4
      obtain ⟨r6, rfl, h6⟩ := (roots_eq_cons_terminal r5 _ _).1 h5
      obtain ⟨k2, r7, rfl, h7⟩ := (roots_eq_cons_non_terminal r6 _ _).1 h6
      obtain ⟨r8, rfl, h8⟩ := (roots_eq_cons_terminal r7 _ _).1 h7
      obtain rfl := (roots_eq_nil r8).1 h8
      simp only [ParseForest.valid, Bool.and_eq_true, decide_eq_true_eq] at hvc
      obtain ⟨⟨-, -⟩, ⟨⟨hp2, hvk2⟩, -⟩⟩ := hvc
      have hne : (ParseForest.node .stmts k2 .nil).yield ≠ [] :=
        yield_ne_nil_of_solid_root _ (by simp [ParseForest.valid, hp2, hvk2])
          ⟨N .stmts, by simp [ParseForest.roots], by decide⟩
      simp only [ParseForest.yield, List.append_nil] at hne
      have hlen := congrArg List.length hy0
      simp only [ParseForest.yield, empty_body_kinds, List.length_cons, List.length_append,
        List.length_nil] at hlen
      have hpos : 0 < k2.yield.length := List.length_pos.2 hne
      omega
  · rintro ⟨f, hv, hr, hy⟩
    obtain ⟨ch, rest, rfl, hrest⟩ := (roots_eq_cons_non_terminal f _ _).1 hr
    obtain rfl := (roots_eq_nil rest).1 hrest
    obtain ⟨hp, hvc, -⟩ := (valid_node _ _ _ _).1 hv
    have hy0 : ch.yield = [.BOFS, .EOFS] := by simpa [ParseForest.yield] using hy
    have hprods : make_grammar.productions_of .s =
        [⟨.s, [T .BOFS, N .fns, T .EOFS]⟩] := rfl
    rw [hprods] at hp
    simp only [List.mem_singleton, Production.mk.injEq, true_and] at hp
    obtain ⟨r1, rfl, h1⟩ := (roots_eq_cons_terminal ch _ _).1 hp
    obtain ⟨k, r2, rfl, h2⟩ := (roots_eq_cons_non_terminal r1 _ _).1 h1
    obtain ⟨r3, rfl, h3⟩ := (roots_eq_cons_terminal r2 _ _).1 h2
    obtain rfl := (roots_eq_nil r3).1 h3
    simp only [ParseForest.valid, Bool.and_eq_true, decide_eq_true_eq] at hvc
    obtain ⟨⟨hp2, hvk⟩, -⟩ := hvc
    have hne : (ParseForest.node .fns k .nil).yield ≠ [] :=
      yield_ne_nil_of_solid_root _ (by simp [ParseForest.valid, hp2, hvk])
        ⟨N .fns, by simp [ParseForest.roots], by decide⟩
    simp only [ParseForest.yield, List.append_nil] at hne
    have hlen := congrArg List.length hy0
    simp only [ParseForest.yield, List.length_cons, List.length_append,
      List.length_nil] at hlen
    have hpos : 0 < k.yield.length := List.length_pos.2 hne
    omega

/-- C23: `scan` reclassifies the lexemes `true` and `false` to the terminals TRUE and
FALSE, and both are members of the `terminals` set of the grammar, but the right
side of no production holds TRUE or FALSE; so no token-kind sequence derivable
from the start symbol `s` holds a TRUE or a FALSE token. -/
theorem C23_true_false_never_derived :
    (∀ k : Terminal,
      (reclassify ⟨k, "true"⟩).kind = .TRUE ∧ (reclassify ⟨k, "false"⟩).kind = .FALSE) ∧
    keywords.lookup "true" = some .TRUE ∧ keywords.lookup "false" = some .FALSE ∧
    Terminal.TRUE ∈ make_grammar.terminals ∧ Terminal.FALSE ∈ make_grammar.terminals ∧
    (∀ e ∈ make_grammar.productions, ∀ p ∈ e.2, T .TRUE ∉ p.rhs ∧ T .FALSE ∉ p.rhs) ∧
    (∀ w : List Terminal, derives make_grammar [N make_grammar.start] w →
      Terminal.TRUE ∉ w ∧ Terminal.FALSE ∉ w) := by
  refine ⟨fun k => ⟨rfl, rfl⟩, by decide, by decide, by decide, by decide, by decide, ?_⟩
  rintro w ⟨f, hv, hr, hy⟩
  let S : State → Bool := fun x => decide (x ∉ [T .TRUE, T .FALSE])
  have hclosed : ∀ A : NonTerminal, S (.non_terminal A) = true →
      ∀ p ∈ make_grammar.productions_of A,
        (∃ b ∈ ([] : List Terminal), State.terminal b ∈ p.rhs) ∨
          ∀ x ∈ p.rhs, S x = true := by
    intro A _ p hp
    right
    revert p
    cases A <;> decide
  have hin := yield_in_closed_set make_grammar S [] hclosed f hv
    (by rw [hr]; intro x hx; simp only [List.mem_singleton] at hx; rw [hx]; rfl)
    (by simp)
  rw [hy] at hin
  constructor
  · intro h
    exact absurd (hin _ h) (by decide)
  · intro h
    exact absurd (hin _ h) (by decide)

/-- Witness of C23: the token kinds of the test program hold neither TRUE nor FALSE. -/
theorem C23_true_false_never_derived_witness :
    derives make_grammar [N make_grammar.start] test_program_kinds ∧
    Terminal.TRUE ∉ test_program_kinds ∧ Terminal.FALSE ∉ test_program_kinds :=
  ⟨⟨test_program_tree, by decide, by decide, by decide⟩,
   C23_true_false_never_derived.2.2.2.2.2.2 test_program_kinds
     ⟨test_program_tree, by decide, by decide, by decide⟩⟩

/-! ## `ElimVarsProc` removes every `VarAccess` and is idempotent -/

mutual
/-- The pass leaves a tree without `VarAccess` as it is. -/
theorem accept_eq_self_of_no_var_access (v : ElimVarsProc) :
    ∀ c : Code, c.has_var_access = false → v.accept c = c
  | .Block code, h => by
    have hc : Code.any_has_var_access code = false := by
      simpa [Code.has_var_access] using h
    simp [ElimVarsProc.accept, make_block, visit_children_eq_self_of_no_var_access v code hc]
  | .VarAccess _ _ _, h => by simp [Code.has_var_access] at h
  | .BinOp _ _ _, _ => rfl
  | .IfStmt _ _ _, _ => rfl
  | .WhileLoop _ _, _ => rfl
  | .Call _ _, _ => rfl
  | .DefineLabel _, _ => rfl
  | .UseLabel _, _ => rfl
  | .BeqLabel _ _ _, _ => rfl
  | .BneLabel _ _ _, _ => rfl
  | .Assembly _, _ => rfl
  | .Word _, _ => rfl
/-- The pass leaves a list of trees without `VarAccess` as it is. -/
theorem visit_children_eq_self_of_no_var_access (v : ElimVarsProc) :
    ∀ code : List Code, Code.any_has_var_access code = false → v.visit_children code = code
  | [], _ => rfl
  | c :: rest, h => by
    simp only [Code.any_has_var_access, Bool.or_eq_false_iff] at h
    simp [ElimVarsProc.visit_children, accept_eq_self_of_no_var_access v c h.1,
      visit_children_eq_self_of_no_var_access v rest h.2]
end

mutual
/-- On a tree of `Block`, `VarAccess` and leaf nodes the output of the pass holds no
`VarAccess`, when the two chunks emit none. -/
theorem accept_has_no_var_access (v : ElimVarsProc)
    (hframe : v.frame.emits_no_var_access) (hparam : v.param_chunk.emits_no_var_access) :
    ∀ t : Code, t.block_var_leaf = true → (v.accept t).has_var_access = false
  | .Block code, h => by
    have hc : Code.all_block_var_leaf code = true := by
      simpa [Code.block_var_leaf] using h
    simp [ElimVarsProc.accept, make_block, Code.has_var_access,
      visit_children_has_no_var_access v hframe hparam code hc]
  | .VarAccess var reg read, _ => by
    simp only [ElimVarsProc.accept, ElimVarsProc.visit_var_access, make_block]
    split
    · split
      · exact hframe.1 _ _ _
      · exact hframe.2 _ _ _
    · split
      · simp [Code.has_var_access, Code.any_has_var_access, hframe.1, hparam.1]
      · simp [Code.has_var_access, Code.any_has_var_access, hframe.1, hparam.2]
  | .BinOp _ _ _, h => by simp [Code.block_var_leaf] at h
  | .IfStmt _ _ _, h => by simp [Code.block_var_leaf] at h
  | .WhileLoop _ _, h => by simp [Code.block_var_leaf] at h
  | .Call _ _, h => by simp [Code.block_var_leaf] at h
  | .DefineLabel _, _ => rfl
  | .UseLabel _, _ => rfl
  | .BeqLabel _ _ _, _ => rfl
  | .BneLabel _ _ _, _ => rfl
  | .Assembly _, _ => rfl
  | .Word _, _ => rfl
/-- The same for the children of a block. -/
theorem visit_children_has_no_var_access (v : ElimVarsProc)
    (hframe : v.frame.emits_no_var_access) (hparam : v.param_chunk.emits_no_var_access) :
    ∀ code : List Code, Code.all_block_var_leaf code = true →
      Code.any_has_var_access (v.visit_children code) = false
  | [], _ => rfl
  | c :: rest, h => by
    simp only [Code.all_block_var_leaf, Bool.and_eq_true] at h
    simp [ElimVarsProc.visit_children, Code.any_has_var_access,
      accept_has_no_var_access v hframe hparam c h.1,
      visit_children_has_no_var_access v hframe hparam rest h.2]
end

/-- C24: for every IR tree `t` built only from `Block`, `VarAccess` and leaf nodes, when
`load` and `store` of the two chunks emit code without `VarAccess`: the output of
`ElimVarsProc` holds no `VarAccess` node, and running `ElimVarsProc` on that
output again gives the same tree. -/
theorem C24_elim_vars_idempotent (v : ElimVarsProc)
    (hframe : v.frame.emits_no_var_access) (hparam : v.param_chunk.emits_no_var_access)
    (t : Code) (ht : t.block_var_leaf = true) :
    (v.accept t).has_var_access = false ∧ v.accept (v.accept t) = v.accept t := by
  have h := accept_has_no_var_access v hframe hparam t ht
  exact ⟨h, accept_eq_self_of_no_var_access v _ h⟩

/-- Witness of C24: a block with a read of the local `x`, a write of the parameter `p`
and a `Word`, passed through `sample_elim_vars_proc`. -/
theorem C24_elim_vars_idempotent_witness :
    sample_elim_vars_proc.frame.emits_no_var_access ∧
    sample_elim_vars_proc.param_chunk.emits_no_var_access ∧
    (Code.Block [.VarAccess ⟨1, "x"⟩ .Result true, .VarAccess ⟨2, "p"⟩ .Result false,
      .Word 5]).block_var_leaf = true ∧
    sample_elim_vars_proc.accept
        (.Block [.VarAccess ⟨1, "x"⟩ .Result true, .VarAccess ⟨2, "p"⟩ .Result false, .Word 5])
      = .Block [.Word 1, .Block [.Word 0, .Word 1002], .Word 5] ∧
    ((sample_elim_vars_proc.accept
        (.Block [.VarAccess ⟨1, "x"⟩ .Result true, .VarAccess ⟨2, "p"⟩ .Result false,
          .Word 5])).has_var_access = false ∧
      sample_elim_vars_proc.accept (sample_elim_vars_proc.accept
        (.Block [.VarAccess ⟨1, "x"⟩ .Result true, .VarAccess ⟨2, "p"⟩ .Result false,
          .Word 5]))
      = sample_elim_vars_proc.accept
        (.Block [.VarAccess ⟨1, "x"⟩ .Result true, .VarAccess ⟨2, "p"⟩ .Result false,
          .Word 5])) :=
  ⟨⟨fun _ _ _ => rfl, fun _ _ _ => rfl⟩, ⟨fun _ _ _ => rfl, fun _ _ _ => rfl⟩, rfl, rfl,
   C24_elim_vars_idempotent sample_elim_vars_proc
     ⟨fun _ _ _ => rfl, fun _ _ _ => rfl⟩ ⟨fun _ _ _ => rfl, fun _ _ _ => rfl⟩
     (.Block [.VarAccess ⟨1, "x"⟩ .Result true, .VarAccess ⟨2, "p"⟩ .Result false, .Word 5])
     rfl⟩

/-! ## Closure of the DFA under its transitions; the comment state of the legacy scanner -/

/-- C26: in the legacy scanner the test `c != '\n' || c != '\r'` holds for every
character, so `transition_func("COMMENT", c)` is `"COMMENT"` for every character,
line feed and carriage return included: from `COMMENT` the legacy DFA never
rejects. -/
theorem C26_legacy_comment_never_rejects :
    (∀ c : Char, c ≠ '\n' ∨ c ≠ '\r') ∧
    (∀ c : Char, Legacy.transition_func "COMMENT" c = some "COMMENT") ∧
    Legacy.transition_func "COMMENT" '\n' = some "COMMENT" ∧
    Legacy.transition_func "COMMENT" '\r' = some "COMMENT" ∧
    (∀ w : List Char, Legacy.run "COMMENT" w = some "COMMENT") := by
  have htaut : ∀ c : Char, c ≠ '\n' ∨ c ≠ '\r' := by
    intro c
    by_cases h : c = '\n'
    · right
      rw [h]
      decide
    · exact Or.inl h
  have htf : ∀ c : Char, Legacy.transition_func "COMMENT" c = some "COMMENT" := by
    intro c
    simp [Legacy.transition_func, htaut c]
  refine ⟨htaut, htf, htf _, htf _, ?_⟩
  intro w
  induction w with
  | nil => rfl
  | cons c rest ih => simp only [Legacy.run, htf, ih]

/-- Every state that `transition_func` returns is a valid state of `make_dfa` or one of
the two unfinished-literal states. -/
theorem transition_target (s : Terminal) (c : Char) (t : Terminal)
    (h : transition_func s c = some t) :
    t ∈ make_dfa.valid_states ∨ t = .CHARLITERALNF ∨ t = .STRLITERALNF := by
  cases s
  case START =>
    rcases tf_start_some c t h with hm | ⟨-, rfl⟩ | ⟨-, -, rfl⟩ | ⟨-, rfl⟩ | ⟨-, rfl⟩
    · left
      have hv : t ∈ one_char_symbols.map Prod.snd := List.mem_map.2 ⟨_, hm, rfl⟩
      revert hv
      cases t <;> decide
    · exact Or.inl (by decide)
    · exact Or.inl (by decide)
    · exact Or.inr (Or.inl rfl)
    · exact Or.inr (Or.inr rfl)
  case CHARLITERALNF =>
    simp only [transition_func] at h
    by_cases hq : c = '\''
    · simp [hq] at h
      subst h
      exact Or.inl (by decide)
    · simp [hq] at h
      exact Or.inr (Or.inl h.symm)
  case STRLITERALNF =>
    simp only [transition_func] at h
    by_cases hq : c = '\"'
    · simp [hq] at h
      subst h
      exact Or.inl (by decide)
    · simp [hq] at h
      exact Or.inr (Or.inr h.symm)
  all_goals first
    | (simp [transition_func] at h; done)
    | (simp [transition_func] at h
       obtain ⟨-, rfl⟩ := h
       exact Or.inl (by decide))

/-- A successful conditional returns its first value or what its other branch returns. -/
theorem ite_some_mem {α : Type} (p : Prop) [Decidable p] (a : α) (rest : Option α)
    (t : α) (l : List α) (h : (if p then some a else rest) = some t) (ha : a ∈ l)
    (hrest : rest = some t → t ∈ l) : t ∈ l := by
  by_cases hp : p
  · rw [if_pos hp] at h
    cases h
    exact ha
  · rw [if_neg hp] at h
    exact hrest h

/-- The legacy `transition_func` outside the state `start`. -/
theorem legacy_transition_not_start (s : Legacy.State) (c : Char) (hs : ¬ s = "start") :
    Legacy.transition_func s c =
      if s = "ASSIGN" ∧ c = '=' then some "EQ"
      else if s = "NOT" ∧ c = '=' then some "NE"
      else if s = "LT" ∧ c = '=' then some "LE"
      else if s = "GT" ∧ c = '=' then some "GE"
      else if s = "PIPE" ∧ c = '|' then some "OR"
      else if s = "AMPERSAND" ∧ c = '&' then some "AND"
      else if s = "MINUS" ∧ c = '>' then some "ARROW"
      else if s = "SLASH" ∧ c = '/' then some "COMMENT"
      else if s = "COMMENT" ∧ (c ≠ '\n' ∨ c ≠ '\r') then some "COMMENT"
      else if s = "NUM" ∧ isdigit c = true then some "NUM"
      else if s = "ID" ∧ Legacy.isalnum c = true then some "ID"
      else none := by
  unfold Legacy.transition_func
  rw [if_neg hs]

/-- The legacy DFA is closed under its transition function: every state that the
legacy `transition_func` returns is a member of the `valid_states` of the legacy
`make_dfa`. -/
theorem legacy_dfa_closed (s : Legacy.State) (c : Char) (t : Legacy.State)
    (h : Legacy.transition_func s c = some t) : t ∈ Legacy.make_dfa.valid_states := by
  by_cases hs : s = "start"
  · subst hs
    cases hl : Legacy.one_char_symbols.lookup c with
    | some t1 =>
      simp [Legacy.transition_func, hl] at h
      subst h
      have hm := lookup_mem _ _ _ hl
      have hv : t1 ∈ Legacy.one_char_symbols.map Prod.snd := List.mem_map.2 ⟨_, hm, rfl⟩
      simp only [Legacy.make_dfa, List.mem_cons, List.mem_append]
      exact Or.inr (Or.inl (Or.inr hv))
    | none =>
      by_cases ha : isalpha c = true
      · simp [Legacy.transition_func, hl, ha] at h
        subst h
        decide
      · by_cases hd : isdigit c = true
        · simp [Legacy.transition_func, hl, ha, hd] at h
          subst h
          decide
        · simp [Legacy.transition_func, hl, ha, hd] at h
  · have hmem : ∀ u : Legacy.State,
        u ∈ ["EQ", "NE", "LE", "GE", "OR", "AND", "ARROW", "COMMENT", "NUM", "ID"] →
          u ∈ Legacy.make_dfa.valid_states := by decide
    apply hmem
    rw [legacy_transition_not_start s c hs] at h
    refine ite_some_mem _ _ _ _ _ h (by simp) (fun h => ?_)
    refine ite_some_mem _ _ _ _ _ h (by simp) (fun h => ?_)
    refine ite_some_mem _ _ _ _ _ h (by simp) (fun h => ?_)
    refine ite_some_mem _ _ _ _ _ h (by simp) (fun h => ?_)
    refine ite_some_mem _ _ _ _ _ h (by simp) (fun h => ?_)
    refine ite_some_mem _ _ _ _ _ h (by simp) (fun h => ?_)
    refine ite_some_mem _ _ _ _ _ h (by simp) (fun h => ?_)
    refine ite_some_mem _ _ _ _ _ h (by simp) (fun h => ?_)
    refine ite_some_mem _ _ _ _ _ h (by simp) (fun h => ?_)
    refine ite_some_mem _ _ _ _ _ h (by simp) (fun h => ?_)
    refine ite_some_mem _ _ _ _ _ h (by simp) (fun h => ?_)
    cases h

/-- C25 (the code at the failing inputs): START is a valid state of `make_dfa` and both
quote characters are in its alphabet, yet `transition_func(START, quote)` is
CHARLITERALNF, respectively STRLITERALNF, and neither state is a member of
`valid_states`; these two states are the only ones by which the transition
function leaves `valid_states`. -/
theorem C25_unfinished_literal_states_not_valid :
    Terminal.START ∈ make_dfa.valid_states ∧
    '\'' ∈ make_dfa.alphabet ∧ '\"' ∈ make_dfa.alphabet ∧
    make_dfa.transition .START '\'' = some .CHARLITERALNF ∧
    make_dfa.transition .START '\"' = some .STRLITERALNF ∧
    Terminal.CHARLITERALNF ∉ make_dfa.valid_states ∧
    Terminal.STRLITERALNF ∉ make_dfa.valid_states ∧
    (∀ (s : Terminal) (c : Char) (t : Terminal), make_dfa.transition s c = some t →
      t ∈ make_dfa.valid_states ∨ t = .CHARLITERALNF ∨ t = .STRLITERALNF) := by
  refine ⟨by decide, by decide, by decide, rfl, rfl, by decide, by decide, ?_⟩
  intro s c t h
  exact transition_target s c t h

end NexLang
